import Mathlib

/-!
# Career Explorer: multi-domain similarity search and ranking

A shallow embedding of the search core of `src/app.js`
(`dotCosineNormalized`, `topKBySimilarityDomain`, `performSearch`, the
adaptive search and the final ranking of the form submit handler,
`classifyTitle`, `preferenceBoost`, `getAppliedBoost`, `calculateDiversity`,
`loadNPY`).

Modelling conventions.

* JavaScript numbers are modelled by rationals.  The arithmetic of the
  aggregation and of the final ranking (`WEIGHTS`, `weightedScore`,
  `avgScore`, `finalScore`, the final comparator) is IEEE 754 binary64:
  every constant and every result of `+`, `-`, `*`, `/` is rounded to the
  nearest binary64 number by `toDouble` (ties to even, subnormals
  included).  There is no `NaN` and no infinity: a result of magnitude
  `2^1024` or more is outside the model.
* The dot product of `dotCosineNormalized`, the similarity thresholds and
  the boosts of `preferenceBoost` and `getAppliedBoost` are exact
  rationals; their decimal constants (`0.42`, `0.10`, ...) are the
  rationals they denote.
* `String.prototype.toLowerCase` is `toLowerCase` in the keyword tests: it
  lowers the letters `A` to `Z`, which is exact on ASCII text.  In
  `calculateDiversity`, where the lower-cased words themselves are
  counted, the lower-casing function is a parameter.
* Arrays are lists; an object with a fixed set of keys is a structure or
  a function on the finite key type `Domain`.
* A read that yields `undefined` in the source (and therefore a `NaN`
  score or a `TypeError`) is an explicit error of the model.
* `Array.prototype.sort` is stable; it is modelled by the stable
  insertion sort driven by the sign of the comparator.
-/

namespace CareerExplorer

/-! ## Data model -/

/-- The four semantic domains, in the key order of `topLists`. -/
inductive Domain where
  | skills
  | knowledge
  | tasks
  | occ
  deriving DecidableEq, Repr

/-- One metadata record `{id, title}`. -/
structure Entity (ι : Type) where
  id : ι
  title : String
  deriving DecidableEq, Repr

/-- The object returned by `loadNPY`: `{rows, cols, data}`. -/
structure Npy where
  rows : Nat
  cols : Nat
  data : List ℚ

/-- One entry of `store`: `{meta, npy}`. -/
structure DomainIndex (ι : Type) where
  meta : List (Entity ι)
  npy : Npy

/-- The global `store`, one index per domain. -/
abbrev Store (ι : Type) := Domain → DomainIndex ι

/-- A threshold object such as `SIM_THRESHOLD_STRICT`; a key may be absent. -/
abbrev ThresholdSet := Domain → Option ℚ

/-- The records pushed on `candidates` by `topKBySimilarityDomain`. -/
structure Item (ι : Type) where
  id : ι
  title : String
  score : ℚ
  deriving DecidableEq

/-- The ways a search can fail. -/
inductive SearchError where
  /-- The source throws `Embedding dim mismatch for <domain>`. -/
  | dimMismatch (d : Domain)
  /-- A number was read outside `data` or `userVec`: `undefined`, hence `NaN`. -/
  | undefinedRead
  /-- The row has no metadata record: `meta[r].id` raises a `TypeError`. -/
  | missingMeta (r : Nat)
  deriving DecidableEq, Repr

/-! ## Binary64 arithmetic -/

/-- Rounding of a rational to the nearest integer, a tie going to the even one. -/
def roundHalfEven (q : ℚ) : ℤ :=
  if q - ⌊q⌋ < 1 / 2 then ⌊q⌋
  else if 1 / 2 < q - ⌊q⌋ then ⌊q⌋ + 1
  else if ⌊q⌋ % 2 = 0 then ⌊q⌋ else ⌊q⌋ + 1

/-- The binary exponent `e` of the binade of `x` (`2^e ≤ |x| < 2^(e+1)`), and
`-1022` below the normal range. -/
def binadeOf (x : ℚ) : ℤ :=
  max (Int.log 2 |x|) (-1022)

/-- The value of a JavaScript number expression whose exact value is `x`: `x`
rounded to a multiple of the spacing `2^(e-52)` of its binade, ties to even. -/
def toDouble (x : ℚ) : ℚ :=
  (roundHalfEven (x / 2 ^ (binadeOf x - 52)) : ℚ) * 2 ^ (binadeOf x - 52)

/-- The operator `a + b` on numbers. -/
def fadd (a b : ℚ) : ℚ := toDouble (a + b)

/-- The operator `a - b` on numbers. -/
def fsub (a b : ℚ) : ℚ := toDouble (a - b)

/-- The operator `a * b` on numbers. -/
def fmul (a b : ℚ) : ℚ := toDouble (a * b)

/-- The operator `a / b` on numbers, for a divisor other than zero. -/
def fdiv (a b : ℚ) : ℚ := toDouble (a / b)

/-- Spec-side: `x` is a finite binary64 number, an integer of at most 53 bits times a
power of two not below the smallest subnormal `2^(-1074)`. -/
def IsDouble (x : ℚ) : Prop :=
  ∃ k q : ℤ, |k| ≤ 2 ^ 53 ∧ -1074 ≤ q ∧ x = k * 2 ^ q

/-! ## Configuration -/

def SIM_THRESHOLD_STRICT : ThresholdSet
  | .skills => some 0.42
  | .knowledge => some 0.40
  | .tasks => some 0.40
  | .occ => some 0.38

def SIM_THRESHOLD_RELAXED : ThresholdSet
  | .skills => some 0.38
  | .knowledge => some 0.36
  | .tasks => some 0.36
  | .occ => some 0.34

def SIM_THRESHOLD_MIN : ThresholdSet
  | .skills => some 0.35
  | .knowledge => some 0.33
  | .tasks => some 0.33
  | .occ => some 0.31

def WEIGHTS : Domain → Option ℚ
  | .skills => some (toDouble 0.35)
  | .tasks => some (toDouble 0.35)
  | .knowledge => some (toDouble 0.20)
  | .occ => some (toDouble 0.10)

def PREF_BOOST_MATCH : ℚ := 0.10

def PREF_BOOST_MISMATCH : ℚ := -0.15

def MIN_MATCHES_STRICT : Nat := 2

def MIN_MATCHES_NORMAL : Nat := 1

def MIN_MATCHES_RELAXED : Nat := 1

/-! ## Similarity and per-domain top-k -/

/-- The source's `Array.prototype.sort(cmp)`: a stable sort in which `a` stays
in front of `b` unless the comparator is positive. -/
def arraySort {α : Type} (cmp : α → α → ℚ) (l : List α) : List α :=
  l.insertionSort (fun a b => cmp a b ≤ 0)

/-- The loop `for c < cols: dot += userVec[c] * data[offset + c]`. -/
def dotCosineNormalized (userVec data : List ℚ) (offset cols : Nat) : Option ℚ :=
  (List.range cols).foldlM
    (fun dot c => do
      let u ← userVec[c]?
      let d ← data[offset + c]?
      pure (dot + u * d))
    (0 : ℚ)

/-- The body of the row loop of `topKBySimilarityDomain`. -/
def scanRow {ι : Type} (userVec : List ℚ) (idx : DomainIndex ι) (threshold : ℚ)
    (candidates : List (Item ι)) (r : Nat) : Except SearchError (List (Item ι)) :=
  let offset := r * idx.npy.cols
  match dotCosineNormalized userVec idx.npy.data offset idx.npy.cols with
  | none => .error .undefinedRead
  | some score =>
    if score < threshold then .ok candidates
    else
      match idx.meta[r]? with
      | none => .error (.missingMeta r)
      | some m => .ok (candidates ++ [{ id := m.id, title := m.title, score := score }])

/-- The function `topKBySimilarityDomain(userVec, domain, k, thresholdSet)`. -/
def topKBySimilarityDomain {ι : Type} (store : Store ι) (userVec : List ℚ) (domain : Domain)
    (k : Nat) (thresholdSet : ThresholdSet) : Except SearchError (List (Item ι)) :=
  let idx := store domain
  if userVec.length ≠ idx.npy.cols then .error (.dimMismatch domain)
  else
    let threshold := (thresholdSet domain).getD 0
    match (List.range idx.npy.rows).foldlM (scanRow userVec idx threshold) [] with
    | .error e => .error e
    | .ok candidates =>
      .ok ((arraySort (fun a b => b.score - a.score) candidates).take k)

/-! ## Specification-side notions for the per-domain search -/

/-- The index invariant of the data model: every row has a metadata record and
all its numbers are present in `data`. -/
def DomainIndex.WellFormed {ι : Type} (idx : DomainIndex ι) : Prop :=
  idx.npy.rows ≤ idx.meta.length ∧ idx.npy.rows * idx.npy.cols ≤ idx.npy.data.length

/-- Spec-side score of row `r`: the sum of the element-wise products of the
query and the row. -/
def rowScore (userVec data : List ℚ) (cols r : Nat) : ℚ :=
  ((List.range cols).map (fun c => userVec.getD c 0 * data.getD (r * cols + c) 0)).sum

/-- Spec-side survivor of row `r`: the row's record when its score reaches the
threshold. -/
def survivorAt {ι : Type} (userVec : List ℚ) (idx : DomainIndex ι) (threshold : ℚ)
    (r : Nat) : Option (Item ι) :=
  match idx.meta[r]? with
  | none => none
  | some m =>
    if threshold ≤ rowScore userVec idx.npy.data idx.npy.cols r then
      some { id := m.id, title := m.title,
             score := rowScore userVec idx.npy.data idx.npy.cols r }
    else none

/-- Spec-side list of the rows scoring at least the threshold, in row order. -/
def survivors {ι : Type} (userVec : List ℚ) (idx : DomainIndex ι) (threshold : ℚ) :
    List (Item ι) :=
  (List.range idx.npy.rows).filterMap (survivorAt userVec idx threshold)

/-- Spec-side description of a stable descending sort: `s` rearranges `l`, is
non-increasing in the key, and elements of equal key keep the order of `l`. -/
def IsStableSortDesc {α : Type} (key : α → ℚ) (l s : List α) : Prop :=
  s.Perm l ∧ s.Pairwise (fun a b => key b ≤ key a) ∧
    ∀ v : ℚ, s.filter (fun a => decide (key a = v)) = l.filter (fun a => decide (key a = v))

/-! ## Aggregation over the four domains -/

/-- The four query vectors, `userVecs`. -/
structure UserVecs where
  skills : List ℚ
  knowledge : List ℚ
  tasks : List ℚ
  occ : List ℚ

/-- The entries stored in `map` by `performSearch`. -/
structure Candidate (ι : Type) where
  id : ι
  title : String
  matchCount : Nat
  domains : List Domain
  scores : List ℚ
  weightedScore : ℚ
  deriving DecidableEq

/-- A JavaScript `Map` from ids to candidates: the bindings in insertion order. -/
abbrev JsMap (ι : Type) := List (ι × Candidate ι)

/-- The method `map.has(key)`. -/
def JsMap.has {ι : Type} [DecidableEq ι] (m : JsMap ι) (key : ι) : Bool :=
  m.any (fun p => decide (p.1 = key))

/-- The method `map.get(key)`. -/
def JsMap.get {ι : Type} [DecidableEq ι] (m : JsMap ι) (key : ι) : Option (Candidate ι) :=
  (m.find? (fun p => decide (p.1 = key))).map (fun p => p.2)

/-- The method `map.set(key, value)`: an existing binding is replaced in place, a new
one is appended. -/
def JsMap.set {ι : Type} [DecidableEq ι] (m : JsMap ι) (key : ι) (value : Candidate ι) :
    JsMap ι :=
  if m.has key then m.map (fun p => if p.1 = key then (key, value) else p)
  else m ++ [(key, value)]

/-- In-place mutation of the object bound to `key`. -/
def JsMap.update {ι : Type} [DecidableEq ι] (m : JsMap ι) (key : ι)
    (f : Candidate ι → Candidate ι) : JsMap ι :=
  m.map (fun p => if p.1 = key then (p.1, f p.2) else p)

/-- The method `map.values()` turned into an array. -/
def JsMap.values {ι : Type} (m : JsMap ι) : List (Candidate ι) :=
  m.map (fun p => p.2)

/-- The four statements that mutate `entry`. -/
def bump {ι : Type} (domain : Domain) (w : ℚ) (it : Item ι) (entry : Candidate ι) :
    Candidate ι :=
  { entry with
    matchCount := entry.matchCount + 1
    domains := entry.domains ++ [domain]
    scores := entry.scores ++ [it.score]
    weightedScore := fadd entry.weightedScore (fmul w it.score) }

/-- The object bound to a key at its first encounter. -/
def freshEntry {ι : Type} (it : Item ι) : Candidate ι :=
  { id := it.id, title := it.title, matchCount := 0, domains := [], scores := [],
    weightedScore := 0 }

/-- The body of the loop `for (const it of list)`. -/
def addItem {ι : Type} [DecidableEq ι] (domain : Domain) (w : ℚ) (m : JsMap ι) (it : Item ι) :
    JsMap ι :=
  let key := it.id
  let m1 := if !m.has key then m.set key (freshEntry it) else m
  m1.update key (bump domain w it)

/-- The loop `for (const [domain, list] of Object.entries(topLists))`. -/
def aggregate {ι : Type} [DecidableEq ι] (topLists : List (Domain × List (Item ι))) : JsMap ι :=
  topLists.foldl
    (fun m dl =>
      let w := (WEIGHTS dl.1).getD 0.25
      dl.2.foldl (addItem dl.1 w) m)
    []

/-- The object `topLists` built at the start of `performSearch`, as its entries in
key order. -/
def topLists {ι : Type} (store : Store ι) (userVecs : UserVecs) (thresholdSet : ThresholdSet)
    (topK : Nat) : Except SearchError (List (Domain × List (Item ι))) := do
  let skills ← topKBySimilarityDomain store userVecs.skills .skills topK thresholdSet
  let knowledge ← topKBySimilarityDomain store userVecs.knowledge .knowledge topK thresholdSet
  let tasks ← topKBySimilarityDomain store userVecs.tasks .tasks topK thresholdSet
  let occ ← topKBySimilarityDomain store userVecs.occ .occ topK thresholdSet
  pure [(Domain.skills, skills), (Domain.knowledge, knowledge),
    (Domain.tasks, tasks), (Domain.occ, occ)]

/-- The function `performSearch(userVecs, thresholdSet, minMatches, topK)`. -/
def performSearch {ι : Type} [DecidableEq ι] (store : Store ι) (userVecs : UserVecs)
    (thresholdSet : ThresholdSet) (minMatches topK : Nat) :
    Except SearchError (List (Candidate ι)) := do
  let topLists ← topLists store userVecs thresholdSet topK
  let map := aggregate topLists
  pure (map.values.filter (fun r => decide (r.matchCount ≥ minMatches)))

/-- The adaptive search of the form submit handler: the results and `searchLevel`. -/
def adaptiveSearch {ι : Type} [DecidableEq ι] (store : Store ι) (userVecs : UserVecs)
    (topK : Nat) : Except SearchError (List (Candidate ι) × String) := do
  let results ← performSearch store userVecs SIM_THRESHOLD_STRICT MIN_MATCHES_STRICT topK
  let searchLevel := "strict (2+ matches)"
  let (results, searchLevel) ←
    if results.length < 5 then do
      let r ← performSearch store userVecs SIM_THRESHOLD_RELAXED MIN_MATCHES_NORMAL topK
      pure (r, "moderate (1+ match)")
    else pure (results, searchLevel)
  let (results, searchLevel) ←
    if results.length < 5 then do
      let r ← performSearch store userVecs SIM_THRESHOLD_MIN MIN_MATCHES_RELAXED topK
      pure (r, "exploratory (1+ match)")
    else pure (results, searchLevel)
  pure (results, searchLevel)

/-! ## Title classification -/

/-- Substring test on character lists. -/
def includesChars : List Char → List Char → Bool
  | [], s => s.isEmpty
  | c :: t, s => s.isPrefixOf (c :: t) || includesChars t s

/-- The method `t.includes(s)`. -/
def includes (t s : String) : Bool :=
  includesChars t.data s.data

/-- The method `toLowerCase()`: the letters `A` to `Z` are lowered and every other
character is kept, which is what the source computes on ASCII text. -/
def toLowerCase (s : String) : String :=
  ⟨s.data.map Char.toLower⟩

def isMilitary (t : String) : Bool :=
  includes t "military" || includes t "infantry" || includes t "enlisted" ||
  includes t "tactical" || includes t "command" || includes t "special forces" ||
  includes t "army" || includes t "navy" || includes t "air force"

def isHealthcare (t : String) : Bool :=
  includes t "physician" || includes t "doctor" || includes t "nurse" ||
  includes t "medical" || includes t "health" || includes t "therapist" ||
  includes t "dental" || includes t "surgeon" || includes t "practitioner" ||
  includes t "pharmacist" || includes t "paramedic" || includes t "radiologic" ||
  includes t "diagnostic" || includes t "clinical" || includes t "patient care"

def isTech (t : String) : Bool :=
  includes t "software" || includes t "developer" || includes t "programmer" ||
  (includes t "engineer" &&
    (includes t "software" || includes t "computer" || includes t "network")) ||
  includes t "data scientist" || includes t "data analyst" || includes t "web " ||
  includes t "database" || includes t "systems analyst" ||
  includes t "information technology" ||
  includes t "cybersecurity" || includes t "it " || includes t "tech "

def isCreative (t : String) : Bool :=
  includes t "designer" || includes t "artist" || includes t "photographer" ||
  includes t "writer" || includes t "editor" || includes t "graphic" ||
  includes t "media" || includes t "creative" || includes t "animator" ||
  includes t "illustrator" || includes t "musician" || includes t "producer" ||
  (includes t "director" && !includes t "executive") || includes t "actor"

def isEducation (t : String) : Bool :=
  includes t "teacher" || includes t "professor" || includes t "instructor" ||
  includes t "educator" || includes t "tutor" || includes t "lecturer" ||
  includes t "trainer" || (includes t "coach" && !includes t "athletic") ||
  includes t "librarian" || (includes t "counselor" && includes t "school")

def isBusiness (t : String) : Bool :=
  includes t "accountant" || includes t "financial" || includes t "finance" ||
  includes t "accounting" || includes t "auditor" || includes t "banker" ||
  includes t "consultant" || includes t "sales" || includes t "marketing" ||
  includes t "business analyst" || includes t "economist" || includes t "actuary" ||
  includes t "investment" || includes t "portfolio" || includes t "broker" ||
  includes t "underwriter" || (includes t "tax" && !includes t "taxi")

def isIndustrial (t : String) : Bool :=
  includes t "assembler" || includes t "welder" || includes t "fabricator" ||
  includes t "machinist" || (includes t "operator" && !includes t "computer") ||
  includes t "pumper" || includes t "loader" || includes t "truck" ||
  includes t "driver" || includes t "drilling" || includes t "mining" ||
  includes t "refuse" || includes t "production" || includes t "manufacturing" ||
  includes t "warehouse" || includes t "forklift" || includes t "mechanic" ||
  (includes t "maintenance" && !includes t "software") ||
  includes t "janitorial" || includes t "housekeeping" || includes t "custodian" ||
  includes t "cook" || includes t "food service" || includes t "cafeteria" ||
  includes t "laborer" || includes t "construction"

def isField (t : String) : Bool :=
  (includes t "field" || (includes t "technician" && !isHealthcare t && !isTech t) ||
   includes t "installation" || (includes t "service" && !includes t "food") ||
   includes t "repair" || includes t "inspector") && !isIndustrial t

/-- The object returned by `classifyTitle`. -/
structure TitleClass where
  isOffice : Bool
  isField : Bool
  isIndustrial : Bool
  isMilitary : Bool
  isHealthcare : Bool
  isTech : Bool
  isCreative : Bool
  isEducation : Bool
  isBusiness : Bool
  deriving DecidableEq, Repr

/-- The function `classifyTitle(title)`; `none` is a missing title. -/
def classifyTitle (title : Option String) : TitleClass :=
  let t := toLowerCase (match title with
    | some s => if s = "" then "" else s
    | none => "")
  let isOffice := !isMilitary t && !isHealthcare t && !isTech t && !isCreative t &&
    !isEducation t && !isBusiness t && !isIndustrial t && !isField t
  { isOffice := isOffice
    isField := isField t
    isIndustrial := isIndustrial t
    isMilitary := isMilitary t
    isHealthcare := isHealthcare t
    isTech := isTech t
    isCreative := isCreative t
    isEducation := isEducation t
    isBusiness := isBusiness t }

/-! ## Preference boost -/

/-- The object returned by `readPreferences`. -/
structure Prefs where
  office : Bool
  field : Bool
  industrial : Bool
  military : Bool
  healthcare : Bool
  tech : Bool
  creative : Bool
  education : Bool
  business : Bool
  any : Bool
  deriving DecidableEq, Repr

/-- The function `readPreferences()`, given the state of the nine check boxes. -/
def readPreferences (office field industrial military healthcare tech creative education
    business : Bool) : Prefs :=
  { office := office, field := field, industrial := industrial, military := military,
    healthcare := healthcare, tech := tech, creative := creative, education := education,
    business := business,
    any := office || field || industrial || military || healthcare || tech || creative ||
      education || business }

/-- The statement `if (c) boost += d`. -/
def addIf (c : Bool) (d : ℚ) (boost : ℚ) : ℚ :=
  if c then boost + d else boost

/-- The function `preferenceBoost(title, prefs)`. -/
def preferenceBoost (title : Option String) (prefs : Prefs) : ℚ :=
  if !prefs.any then 0
  else
    let cls := classifyTitle title
    let boost : ℚ := 0
    let boost := addIf (prefs.office && cls.isOffice) PREF_BOOST_MATCH boost
    let boost := addIf (prefs.field && cls.isField) PREF_BOOST_MATCH boost
    let boost := addIf (prefs.industrial && cls.isIndustrial) PREF_BOOST_MATCH boost
    let boost := addIf (prefs.military && cls.isMilitary) PREF_BOOST_MATCH boost
    let boost := addIf (prefs.healthcare && cls.isHealthcare) PREF_BOOST_MATCH boost
    let boost := addIf (prefs.tech && cls.isTech) PREF_BOOST_MATCH boost
    let boost := addIf (prefs.creative && cls.isCreative) PREF_BOOST_MATCH boost
    let boost := addIf (prefs.education && cls.isEducation) PREF_BOOST_MATCH boost
    let boost := addIf (prefs.business && cls.isBusiness) PREF_BOOST_MATCH boost
    let boost := addIf (!prefs.office && cls.isOffice && prefs.any) PREF_BOOST_MISMATCH boost
    let boost := addIf (!prefs.field && cls.isField && prefs.any) PREF_BOOST_MISMATCH boost
    let boost :=
      addIf (!prefs.industrial && cls.isIndustrial && prefs.any) PREF_BOOST_MISMATCH boost
    let boost := addIf (!prefs.military && cls.isMilitary && prefs.any) PREF_BOOST_MISMATCH boost
    let boost :=
      addIf (!prefs.healthcare && cls.isHealthcare && prefs.any) PREF_BOOST_MISMATCH boost
    let boost := addIf (!prefs.tech && cls.isTech && prefs.any) PREF_BOOST_MISMATCH boost
    let boost := addIf (!prefs.creative && cls.isCreative && prefs.any) PREF_BOOST_MISMATCH boost
    let boost :=
      addIf (!prefs.education && cls.isEducation && prefs.any) PREF_BOOST_MISMATCH boost
    let boost := addIf (!prefs.business && cls.isBusiness && prefs.any) PREF_BOOST_MISMATCH boost
    boost

/-! ## Applied versus theoretical boost -/

/-- The free-text answers `{skills, knowledge, tasks, occ}`. -/
structure Answers where
  skills : String
  knowledge : String
  tasks : String
  occ : String

/-- The text `Object.values(userAnswers).join(' ').toLowerCase()`. -/
def allText (userAnswers : Answers) : String :=
  toLowerCase (userAnswers.skills ++ " " ++ userAnswers.knowledge ++ " " ++
    userAnswers.tasks ++ " " ++ userAnswers.occ)

def mentionsPractical (allText : String) : Bool :=
  includes allText "build" || includes allText "creat" ||
  includes allText "cod" || includes allText "develop" ||
  includes allText "mak" || includes allText "design" ||
  includes allText "write" || includes allText "program" ||
  includes allText "app" || includes allText "website" ||
  includes allText "software" || includes allText "project"

def onlyTheoretical (allText : String) : Bool :=
  !mentionsPractical allText &&
    (includes allText "math" || includes allText "statistic" ||
     includes allText "theory" || includes allText "research")

def isPureTheory (t : String) : Bool :=
  includes t "mathematician" || includes t "statistician" ||
  (includes t "research" && includes t "scientist") ||
  includes t "theoretical"

def isAppliedTech (t : String) : Bool :=
  includes t "software" || includes t "developer" ||
  includes t "engineer" || includes t "programmer" ||
  includes t "web " || includes t "application"

/-- The function `getAppliedBoost(title, userAnswers)`. -/
def getAppliedBoost (title : String) (userAnswers : Answers) : ℚ :=
  let t := toLowerCase title
  let text := allText userAnswers
  let boost : ℚ := 0
  let boost := addIf (mentionsPractical text && isAppliedTech t) 0.15 boost
  let boost := addIf (mentionsPractical text && isPureTheory t) (-0.20) boost
  let boost := addIf (onlyTheoretical text && isPureTheory t) 0.10 boost
  boost

/-! ## Final ranking -/

/-- A result with the `diversityScore` attached by `calculateDiversity`. -/
structure Scored (ι : Type) extends Candidate ι where
  diversityScore : Nat

/-- An element of `finalRanked`. -/
structure RankedResult (ι : Type) extends Scored ι where
  avgScore : ℚ
  prefBoost : ℚ
  appliedBoost : ℚ
  finalScore : ℚ

/-- The callback of `results.map` in the form submit handler.  For an empty
`scores` the source divides `0` by `0`; the candidates of `performSearch` have
at least one score. -/
def rankOne {ι : Type} (prefs : Prefs) (answers : Answers) (r : Scored ι) : RankedResult ι :=
  let avgScore := fdiv (r.scores.foldl (fun a b => fadd a b) 0) (r.scores.length : ℚ)
  let pref := preferenceBoost (some r.title) prefs
  let applied := getAppliedBoost r.title answers
  let finalScore :=
    fadd (fadd (fadd r.weightedScore pref) applied)
      (fmul (r.diversityScore : ℚ) (toDouble 0.01))
  { r with avgScore := avgScore, prefBoost := pref, appliedBoost := applied,
           finalScore := finalScore }

/-- The comparator of the final `sort`. -/
def finalCompare {ι : Type} (a b : RankedResult ι) : ℚ :=
  if b.matchCount ≠ a.matchCount then (b.matchCount : ℚ) - (a.matchCount : ℚ)
  else if |fsub b.finalScore a.finalScore| > toDouble 0.01 then fsub b.finalScore a.finalScore
  else fsub b.avgScore a.avgScore

/-- The list `finalRanked` computed from the diversity-scored results. -/
def finalRanked {ι : Type} (prefs : Prefs) (answers : Answers) (results : List (Scored ι)) :
    List (RankedResult ι) :=
  arraySort finalCompare (results.map (rankOne prefs answers))

/-! ## Specification-side notions for aggregation -/

/-- The weight used for a domain: `WEIGHTS[domain] ?? 0.25`. -/
def weightOf (d : Domain) : ℚ :=
  (WEIGHTS d).getD 0.25

/-- Spec-side: the binary64 sum of `weight * score` over the pairs `fs`, accumulated
from `0` in the order of the list. -/
def weightedSum (fs : List (Domain × ℚ)) : ℚ :=
  fs.foldl (fun acc e => fadd acc (fmul (weightOf e.1) e.2)) 0

/-- Spec-side: the top-k entries of all domains paired with their domain, in
processing order. -/
def entriesOf {ι : Type} (topLists : List (Domain × List (Item ι))) : List (Domain × Item ι) :=
  topLists.flatMap (fun dl => dl.2.map (fun it => (dl.1, it)))

/-- Spec-side: the entries carrying the id `key`. -/
def entriesFor {ι : Type} [DecidableEq ι] (key : ι) (es : List (Domain × Item ι)) :
    List (Domain × Item ι) :=
  es.filter (fun e => decide (e.2.id = key))

/-- Spec-side: the candidate described by the entries `fs` that carry its id. -/
def specCandidate {ι : Type} (key : ι) (title : String) (fs : List (Domain × Item ι)) :
    Candidate ι :=
  { id := key
    title := title
    matchCount := fs.length
    domains := fs.map (fun e => e.1)
    scores := fs.map (fun e => e.2.score)
    weightedScore := weightedSum (fs.map (fun e => (e.1, e.2.score))) }

/-- Spec-side: the number of domains in whose list the id `key` appears. -/
def domainsContaining {ι : Type} [DecidableEq ι] (key : ι)
    (topLists : List (Domain × List (Item ι))) : Nat :=
  (topLists.filter (fun dl => dl.2.any (fun it => decide (it.id = key)))).length

/-- Spec-side: one loop iteration seen from the binding of `key`. -/
def stepAt {ι : Type} [DecidableEq ι] (key : ι) (o : Option (Candidate ι))
    (e : Domain × Item ι) : Option (Candidate ι) :=
  if e.2.id = key then some (bump e.1 (weightOf e.1) e.2 (o.getD (freshEntry e.2))) else o

/-- The data-model invariant for the whole store. -/
def Store.WellFormed {ι : Type} (store : Store ι) : Prop :=
  ∀ d : Domain, (store d).WellFormed

/-- The catalog invariant of the data model (an entity has one row per domain
index): no index lists an id on two rows. -/
def Store.UniqueIds {ι : Type} (store : Store ι) : Prop :=
  ∀ d : Domain, ((store d).meta.map (fun m => m.id)).Nodup

/-- Each query vector has the column count of its domain's matrix. -/
def DimsMatch {ι : Type} (store : Store ι) (userVecs : UserVecs) : Prop :=
  userVecs.skills.length = (store Domain.skills).npy.cols ∧
  userVecs.knowledge.length = (store Domain.knowledge).npy.cols ∧
  userVecs.tasks.length = (store Domain.tasks).npy.cols ∧
  userVecs.occ.length = (store Domain.occ).npy.cols

/-! ## Specification-side notions for classification and preferences -/

/-- Spec-side: the number of flags of a classification that are true. -/
def flagCount (c : TitleClass) : Nat :=
  c.isMilitary.toNat + c.isHealthcare.toNat + c.isTech.toNat + c.isCreative.toNat +
  c.isEducation.toNat + c.isBusiness.toNat + c.isIndustrial.toNat + c.isField.toNat +
  c.isOffice.toNat

/-- Spec-side: the number of selected categories whose flag is true. -/
def selectedHits (prefs : Prefs) (c : TitleClass) : Nat :=
  (prefs.office && c.isOffice).toNat + (prefs.field && c.isField).toNat +
  (prefs.industrial && c.isIndustrial).toNat + (prefs.military && c.isMilitary).toNat +
  (prefs.healthcare && c.isHealthcare).toNat + (prefs.tech && c.isTech).toNat +
  (prefs.creative && c.isCreative).toNat + (prefs.education && c.isEducation).toNat +
  (prefs.business && c.isBusiness).toNat

/-- Spec-side: the number of unselected categories whose flag is true. -/
def unselectedHits (prefs : Prefs) (c : TitleClass) : Nat :=
  (!prefs.office && c.isOffice).toNat + (!prefs.field && c.isField).toNat +
  (!prefs.industrial && c.isIndustrial).toNat + (!prefs.military && c.isMilitary).toNat +
  (!prefs.healthcare && c.isHealthcare).toNat + (!prefs.tech && c.isTech).toNat +
  (!prefs.creative && c.isCreative).toNat + (!prefs.education && c.isEducation).toNat +
  (!prefs.business && c.isBusiness).toNat

/-! ## Sample data -/

/-- A one-column index whose two rows score `1` and `1/2` against the query `[1]`. -/
def sampleIndex : DomainIndex Nat :=
  { meta := [{ id := 7, title := "Software Developers" }, { id := 8, title := "Registered Nurses" }]
    npy := { rows := 2, cols := 1, data := [1, 1 / 2] } }

/-- A store with the same sample index in each domain. -/
def sampleStore : Store Nat := fun _ => sampleIndex

/-- The query `[1]` in each domain. -/
def sampleVecs : UserVecs :=
  { skills := [1], knowledge := [1], tasks := [1], occ := [1] }

/-- An index without rows. -/
def emptyIndex : DomainIndex Nat :=
  { meta := [], npy := { rows := 0, cols := 1, data := [] } }

/-- The four top-k lists of `sampleStore` for `sampleVecs` (every row passes). -/
def sampleLists : List (Domain × List (Item Nat)) :=
  [(Domain.skills, [⟨7, "Software Developers", 1⟩, ⟨8, "Registered Nurses", 1 / 2⟩]),
   (Domain.knowledge, [⟨7, "Software Developers", 1⟩, ⟨8, "Registered Nurses", 1 / 2⟩]),
   (Domain.tasks, [⟨7, "Software Developers", 1⟩, ⟨8, "Registered Nurses", 1 / 2⟩]),
   (Domain.occ, [⟨7, "Software Developers", 1⟩, ⟨8, "Registered Nurses", 1 / 2⟩])]

/-- A store in which only the skills domain has rows: the id `8` scores `0.50`
in skills only. -/
def soloStore : Store Nat
  | .skills => sampleIndex
  | _ => emptyIndex

/-- The four top-k lists of `soloStore` for `sampleVecs`. -/
def soloLists : List (Domain × List (Item Nat)) :=
  [(Domain.skills, [⟨7, "Software Developers", 1⟩, ⟨8, "Registered Nurses", 1 / 2⟩]),
   (Domain.knowledge, []), (Domain.tasks, []), (Domain.occ, [])]

/-- A ranked result matched in two domains with `finalScore` 0.50 and `avgScore` 0.60. -/
def rankedA : RankedResult Nat :=
  { id := 1, title := "Budget Analysts", matchCount := 2,
    domains := [Domain.skills, Domain.tasks], scores := [toDouble 0.60, toDouble 0.60],
    weightedScore := toDouble 0.50, diversityScore := 0, avgScore := toDouble 0.60,
    prefBoost := 0, appliedBoost := 0, finalScore := toDouble 0.50 }

/-- A ranked result matched in two domains with `finalScore` 0.505 and `avgScore` 0.55. -/
def rankedB : RankedResult Nat :=
  { id := 2, title := "Cost Estimators", matchCount := 2,
    domains := [Domain.skills, Domain.tasks], scores := [toDouble 0.55, toDouble 0.55],
    weightedScore := toDouble 0.505, diversityScore := 0, avgScore := toDouble 0.55,
    prefBoost := 0, appliedBoost := 0, finalScore := toDouble 0.505 }

/-- A result with `weightedScore` 0.5, no boost, `diversityScore` 0 and the scores
0.60 and 0.60. -/
def plainScored : Scored Nat :=
  { id := 1, title := "Budget Analysts", matchCount := 2,
    domains := [Domain.skills, Domain.tasks], scores := [toDouble 0.60, toDouble 0.60],
    weightedScore := toDouble 0.50, diversityScore := 0 }

/-- A result with `weightedScore` 0.5, no boost, `diversityScore` 1 and the scores
0.55 and 0.55. -/
def novelScored : Scored Nat :=
  { id := 2, title := "Cost Estimators", matchCount := 2,
    domains := [Domain.skills, Domain.tasks], scores := [toDouble 0.55, toDouble 0.55],
    weightedScore := toDouble 0.50, diversityScore := 1 }

/-- Top-k lists of a one-row catalog whose entity scores `7/16 = 0.4375` in each
domain. -/
def flatLists : List (Domain × List (Item Nat)) :=
  [(Domain.skills, [⟨7, "Software Developers", 7 / 16⟩]),
   (Domain.knowledge, [⟨7, "Software Developers", 7 / 16⟩]),
   (Domain.tasks, [⟨7, "Software Developers", 7 / 16⟩]),
   (Domain.occ, [⟨7, "Software Developers", 7 / 16⟩])]

/-- A one-row index whose row scores `7/16` against the query `[1]`. -/
def flatIndex : DomainIndex Nat :=
  { meta := [{ id := 7, title := "Software Developers" }]
    npy := { rows := 1, cols := 1, data := [7 / 16] } }

/-- A store with `flatIndex` in each domain. -/
def flatStore : Store Nat := fun _ => flatIndex

/-- Top-k lists in which the id `7` scores `1` in each domain. -/
def unitLists : List (Domain × List (Item Nat)) :=
  [(Domain.skills, [⟨7, "Software Developers", 1⟩]),
   (Domain.knowledge, [⟨7, "Software Developers", 1⟩]),
   (Domain.tasks, [⟨7, "Software Developers", 1⟩]),
   (Domain.occ, [⟨7, "Software Developers", 1⟩])]

/-- The lists of `unitLists` with tasks merged before knowledge. -/
def unitListsSwapped : List (Domain × List (Item Nat)) :=
  [(Domain.skills, [⟨7, "Software Developers", 1⟩]),
   (Domain.tasks, [⟨7, "Software Developers", 1⟩]),
   (Domain.knowledge, [⟨7, "Software Developers", 1⟩]),
   (Domain.occ, [⟨7, "Software Developers", 1⟩])]

/-- Spec-side: two aggregated candidates have the same id, title and `matchCount`
and the same pairs of domain and score, up to their insertion order. -/
def SameCandidate {ι : Type} (c c' : Candidate ι) : Prop :=
  c'.id = c.id ∧ c'.title = c.title ∧ c'.matchCount = c.matchCount ∧
    (c'.domains.zip c'.scores).Perm (c.domains.zip c.scores)

/-- Spec-side: entries carrying the same id carry the same title. -/
def TitlesAgree {ι : Type} (tl : List (Domain × List (Item ι))) : Prop :=
  ∀ e₁ ∈ entriesOf tl, ∀ e₂ ∈ entriesOf tl, e₁.2.id = e₂.2.id → e₁.2.title = e₂.2.title

/-- A catalog title that matches the healthcare and the education keywords. -/
def healthTeacherTitle : String := "Health Specialties Teachers, Postsecondary"

/-- The preference set with only the healthcare box checked. -/
def healthcareOnly : Prefs :=
  readPreferences false false false false true false false false false

/-- The query vector of a domain, `userVecs[domain]`. -/
def UserVecs.vec (userVecs : UserVecs) : Domain → List ℚ
  | .skills => userVecs.skills
  | .knowledge => userVecs.knowledge
  | .tasks => userVecs.tasks
  | .occ => userVecs.occ

/-- Query vectors whose tasks vector has two entries although the matrix has one
column. -/
def longTaskVecs : UserVecs :=
  { skills := [1], knowledge := [1], tasks := [1, 0], occ := [1] }

/-- The preference set with no box checked. -/
def noPrefs : Prefs :=
  readPreferences false false false false false false false false false

/-- Free-text answers without any of the practical or theoretical keywords. -/
def noAnswers : Answers :=
  { skills := "listening", knowledge := "history", tasks := "filing", occ := "quiet" }

/-- Spec-side: the sum of the element-wise products of two vectors. -/
def dotProduct (q r : List ℚ) : ℚ :=
  (List.zipWith (fun a b => a * b) q r).sum

/-- Spec-side: the squared Euclidean norm of a vector. -/
def normSq (q : List ℚ) : ℚ :=
  (q.map (fun a => a * a)).sum

/-! ## Role type -/

/-- The constant `roleType` of `renderCard`, computed from `cls = classifyTitle(r.title)`. -/
def roleType (cls : TitleClass) : String :=
  if cls.isMilitary then "Military"
  else if cls.isHealthcare then "Healthcare"
  else if cls.isTech then "Tech/IT"
  else if cls.isCreative then "Creative"
  else if cls.isEducation then "Education"
  else if cls.isBusiness then "Business/Finance"
  else if cls.isIndustrial then "Industrial"
  else if cls.isField then "Field"
  else "Office"

/-- Spec-side: the eight keyword categories in precedence order, each with its flag. -/
def precedence (cls : TitleClass) : List (Bool × String) :=
  [(cls.isMilitary, "Military"), (cls.isHealthcare, "Healthcare"), (cls.isTech, "Tech/IT"),
   (cls.isCreative, "Creative"), (cls.isEducation, "Education"),
   (cls.isBusiness, "Business/Finance"), (cls.isIndustrial, "Industrial"),
   (cls.isField, "Field")]

/-- Spec-side: the first category in precedence order whose flag is true, if any. -/
def firstCategory (cls : TitleClass) : Option String :=
  ((precedence cls).find? (fun p => p.1)).map (fun p => p.2)

/-- Three ranked results of equal `matchCount` with `finalScore` 0, 0.008, 0.016 and
`avgScore` 0.9, 0.5, 0.1. -/
def cycleA : RankedResult Nat :=
  { id := 1, title := "Budget Analysts", matchCount := 2,
    domains := [Domain.skills, Domain.tasks], scores := [toDouble 0.9, toDouble 0.9],
    weightedScore := 0, diversityScore := 0, avgScore := toDouble 0.9, prefBoost := 0,
    appliedBoost := 0, finalScore := 0 }

def cycleB : RankedResult Nat :=
  { id := 2, title := "Cost Estimators", matchCount := 2,
    domains := [Domain.skills, Domain.tasks], scores := [toDouble 0.5, toDouble 0.5],
    weightedScore := toDouble 0.008, diversityScore := 0, avgScore := toDouble 0.5,
    prefBoost := 0, appliedBoost := 0, finalScore := toDouble 0.008 }

def cycleC : RankedResult Nat :=
  { id := 3, title := "Credit Analysts", matchCount := 2,
    domains := [Domain.skills, Domain.tasks], scores := [toDouble 0.1, toDouble 0.1],
    weightedScore := toDouble 0.016, diversityScore := 0, avgScore := toDouble 0.1,
    prefBoost := 0, appliedBoost := 0, finalScore := toDouble 0.016 }

/-! ## Diversity scoring -/

/-- The characters matched by `\s` in a regular expression: white space and line
terminators. -/
def isWhiteSpace (c : Char) : Bool :=
  c.toNat = 9 || c.toNat = 10 || c.toNat = 11 || c.toNat = 12 || c.toNat = 13 ||
  c.toNat = 32 || c.toNat = 160 || c.toNat = 5760 ||
  (8192 ≤ c.toNat && c.toNat ≤ 8202) || c.toNat = 8232 || c.toNat = 8233 ||
  c.toNat = 8239 || c.toNat = 8287 || c.toNat = 12288 || c.toNat = 65279

/-- Splitting at runs of white space: `cur` is the word being read (reversed) and
`sep` tells that the previous character was white space. -/
def splitAux : List Char → List Char → Bool → List String
  | [], cur, _ => [⟨cur.reverse⟩]
  | c :: cs, cur, sep =>
    if isWhiteSpace c then
      if sep then splitAux cs cur true else ⟨cur.reverse⟩ :: splitAux cs [] true
    else splitAux cs (c :: cur) false

/-- The call `s.split(/\s+/)`. -/
def splitWhiteSpace (s : String) : List String :=
  splitAux s.data [] false

/-- The property `word.length`: the number of UTF-16 code units. -/
def jsLength (w : String) : Nat :=
  (w.data.map (fun c => if c.toNat < 65536 then 1 else 2)).sum

/-- The words of a title: `title.toLowerCase().split(/\s+/)`.  The parameter
`lower` stands for the host's `String.prototype.toLowerCase`, which maps every
Unicode letter; `toLowerCase` above is its restriction to ASCII text. -/
def titleWordsOf (lower : String → String) (title : String) : List String :=
  splitWhiteSpace (lower title)

/-- The callback of `words.forEach`, acting on `novelty` and the set `titleWords`. -/
def noveltyStep (st : Nat × List String) (word : String) : Nat × List String :=
  if 3 < jsLength word ∧ word ∉ st.2 then (st.1 + 1, st.2 ++ [word]) else st

/-- The callback of `results.map` in `calculateDiversity`, with the set `titleWords`
threaded through: the results produced so far and the set. -/
def diversityStep {ι : Type} (lower : String → String)
    (acc : List (Scored ι) × List String) (r : Candidate ι) :
    List (Scored ι) × List String :=
  let words := titleWordsOf lower r.title
  let st := words.foldl noveltyStep (0, acc.2)
  (acc.1 ++ [{ r with diversityScore := st.1 }], st.2)

/-- The function `calculateDiversity(results)`. -/
def calculateDiversity {ι : Type} (lower : String → String) (results : List (Candidate ι)) :
    List (Scored ι) :=
  (results.foldl (diversityStep lower) ([], [])).1

/-- The novelty count of `title` after the titles `earlier`, written as a filter on
the outcome of the split: the number of distinct elements of length above 3
that the split of no earlier title contains. -/
def noveltyCount (lower : String → String) (earlier : List String) (title : String) : Nat :=
  ((titleWordsOf lower title).filter
    (fun w => decide (3 < jsLength w ∧
      ∀ t ∈ earlier, w ∉ titleWordsOf lower t))).toFinset.card

/-- Three results whose titles share the word "developers". -/
def diversityInput : List (Candidate Nat) :=
  [⟨1, "Software Developers", 1, [Domain.skills], [1], 0⟩,
   ⟨2, "Web  Developers and Web Designers", 1, [Domain.skills], [1], 0⟩,
   ⟨3, "Art Directors", 1, [Domain.skills], [1], 0⟩]

/-- The results `rs` scored one by one when the titles `earlier` precede them: each
result with its `noveltyCount`. -/
def noveltyList {ι : Type} (lower : String → String) :
    List String → List (Candidate ι) → List (Scored ι)
  | _, [] => []
  | earlier, r :: rs =>
    { r with diversityScore := noveltyCount lower earlier r.title } ::
      noveltyList lower (earlier ++ [r.title]) rs

/-- The invariant of the set `titleWords`: it holds the elements of length above 3
of the splits of the titles `earlier`. -/
def SeenWords (lower : String → String) (seen : List String) (earlier : List String) : Prop :=
  ∀ w, w ∈ seen ↔ 3 < jsLength w ∧ ∃ t ∈ earlier, w ∈ titleWordsOf lower t

/-- Spec-side: `w` is the word that continues the pending characters `cur` (stored
in reverse) with the run of characters up to the first white space of `cs`. -/
def FirstWord (cs cur w : List Char) : Prop :=
  ∃ run rest, cs = run ++ rest ∧ (∀ c ∈ run, isWhiteSpace c = false) ∧
    (∀ c, rest.head? = some c → isWhiteSpace c = true) ∧ w = cur.reverse ++ run

/-- Spec-side: `w` is a run of `cs` without white space that follows a white-space
character and is followed by white space or the end of `cs`. -/
def LaterWord (cs w : List Char) : Prop :=
  ∃ pre post, cs = pre ++ w ++ post ∧ (∃ c, pre.getLast? = some c ∧ isWhiteSpace c = true) ∧
    (∀ c ∈ w, isWhiteSpace c = false) ∧ (∀ c, post.head? = some c → isWhiteSpace c = true)

/-- Spec-side: `w` is a white-space separated word of `s`: a non-empty run of
characters of `s` without white space that is preceded by white space or the
start of `s` and followed by white space or the end of `s`. -/
def IsWordOf (w s : String) : Prop :=
  w.data ≠ [] ∧ (∀ c ∈ w.data, isWhiteSpace c = false) ∧
  ∃ pre post : List Char, s.data = pre ++ w.data ++ post ∧
    (∀ c, pre.getLast? = some c → isWhiteSpace c = true) ∧
    (∀ c, post.head? = some c → isWhiteSpace c = true)

/-! ## Matrix file loading -/

/-- An `ArrayBuffer`, as its bytes. -/
abbrev Buffer := List UInt8

/-- The ways `loadNPY` can fail. -/
inductive LoadError where
  /-- The response is not ok: `Failed to load <path>`. -/
  | fetchFailed
  /-- A `RangeError` of `DataView` or of a typed-array constructor. -/
  | rangeError
  /-- The header has no shape: `Could not parse .npy shape`. -/
  | shapeError
  deriving DecidableEq, Repr

/-- The object returned by `loadNPY`; a 32-bit float is kept as its bit pattern. -/
structure LoadedNpy where
  rows : Nat
  cols : Nat
  data : List Nat
  deriving DecidableEq, Repr

/-- The method `dv.getUint8(off)`. -/
def getUint8 (buf : Buffer) (off : Nat) : Except LoadError Nat :=
  match buf[off]? with
  | some b => .ok b.toNat
  | none => .error .rangeError

/-- The method `dv.getUint16(off, true)`: little-endian. -/
def getUint16 (buf : Buffer) (off : Nat) : Except LoadError Nat := do
  let b0 ← getUint8 buf off
  let b1 ← getUint8 buf (off + 1)
  pure (b0 + 256 * b1)

/-- The method `dv.getUint32(off, true)`: little-endian. -/
def getUint32 (buf : Buffer) (off : Nat) : Except LoadError Nat := do
  let b0 ← getUint8 buf off
  let b1 ← getUint8 buf (off + 1)
  let b2 ← getUint8 buf (off + 2)
  let b3 ← getUint8 buf (off + 3)
  pure (b0 + 256 * b1 + 65536 * b2 + 16777216 * b3)

/-- The constructor `new Uint8Array(buf, byteOffset, length)`. -/
def uint8Array (buf : Buffer) (byteOffset length : Nat) : Except LoadError (List UInt8) :=
  if byteOffset + length ≤ buf.length then .ok ((buf.drop byteOffset).take length)
  else .error .rangeError

/-- The bit pattern of the little-endian 32-bit word at byte `off`. -/
def wordAt (buf : Buffer) (off : Nat) : Nat :=
  (buf.getD off 0).toNat + 256 * (buf.getD (off + 1) 0).toNat +
    65536 * (buf.getD (off + 2) 0).toNat + 16777216 * (buf.getD (off + 3) 0).toNat

/-- The constructor `new Float32Array(buf, byteOffset, length)` and its elements: the
offset has to be a multiple of 4 and the elements have to fit in the buffer. -/
def float32Array (buf : Buffer) (byteOffset length : Nat) : Except LoadError (List Nat) :=
  if byteOffset % 4 ≠ 0 then .error .rangeError
  else if byteOffset + 4 * length ≤ buf.length then
    .ok ((List.range length).map (fun i => wordAt buf (byteOffset + 4 * i)))
  else .error .rangeError

/-- The value of a 32-bit float given by its bit pattern; `none` for infinities and
`NaN`. -/
def float32Value (bits : Nat) : Option ℚ :=
  let sign : ℚ := if bits / 2147483648 % 2 = 1 then -1 else 1
  let e := bits / 8388608 % 256
  let m := bits % 8388608
  if e = 255 then none
  else if e = 0 then some (sign * (m : ℚ) / 2 ^ 149)
  else some (sign * ((8388608 + m : ℕ) : ℚ) * 2 ^ e / 2 ^ 150)

/-- The characters matched by `\d`. -/
def isDigit (c : Char) : Bool :=
  48 ≤ c.toNat && c.toNat ≤ 57

/-- The part `\s*` of the shape pattern. -/
def skipSpaces (s : List Char) : List Char :=
  s.dropWhile isWhiteSpace

/-- The part `(\d+)` of the shape pattern: the digits and the rest. -/
def takeDigits (s : List Char) : Option (List Char × List Char) :=
  match s.takeWhile isDigit with
  | [] => none
  | d :: ds => some (d :: ds, s.dropWhile isDigit)

/-- A match of the pattern `\(\s*(\d+)\s*,\s*(\d+)\s*\)` at the start of `s`: the
two captured groups.  The character classes of adjacent parts are disjoint, so
the greedy match is the only one. -/
def matchShapeAt (s : List Char) : Option (List Char × List Char) :=
  match s with
  | [] => none
  | c :: s1 =>
    if c = '(' then
      match takeDigits (skipSpaces s1) with
      | none => none
      | some (d1, s2) =>
        match skipSpaces s2 with
        | [] => none
        | c2 :: s3 =>
          if c2 = ',' then
            match takeDigits (skipSpaces s3) with
            | none => none
            | some (d2, s4) =>
              match skipSpaces s4 with
              | [] => none
              | c3 :: _ => if c3 = ')' then some (d1, d2) else none
          else none
    else none

/-- The call `headerText.match(pattern)`: the leftmost match. -/
def matchShape : List Char → Option (List Char × List Char)
  | [] => none
  | c :: s =>
    match matchShapeAt (c :: s) with
    | some m => some m
    | none => matchShape s

/-- The call `parseInt(digits, 10)` on a string of decimal digits. -/
def parseInt (ds : List Char) : Nat :=
  ds.foldl (fun n c => 10 * n + (c.toNat - 48)) 0

/-- The function `loadNPY(path)`, given the fetched response: whether it is ok and
its bytes.  `decode` is the platform's `TextDecoder().decode`. -/
def loadNPY (decode : List UInt8 → String) (ok : Bool) (buf : Buffer) :
    Except LoadError LoadedNpy := do
  if !ok then throw LoadError.fetchFailed
  let major ← getUint8 buf 6
  let headerLen ← if major ≤ 1 then getUint16 buf 8 else getUint32 buf 8
  let headerStart := if major ≤ 1 then 10 else 12
  let headerBytes ← uint8Array buf headerStart headerLen
  let headerText := decode headerBytes
  match matchShape headerText.data with
  | none => throw LoadError.shapeError
  | some (d1, d2) =>
    let rows := parseInt d1
    let cols := parseInt d2
    let dataStart := headerStart + headerLen
    let floats ← float32Array buf dataStart (rows * cols)
    pure { rows := rows, cols := cols, data := floats }

/-! ## Specification-side notions for matrix files -/

/-- Spec-side: the major format version, byte 6. -/
def majorOf (buf : Buffer) : Nat :=
  (buf.getD 6 0).toNat

/-- Spec-side: the offset of the header text, 10 for versions up to 1 and 12 after. -/
def headerStartOf (buf : Buffer) : Nat :=
  if majorOf buf ≤ 1 then 10 else 12

/-- Spec-side: the header length, the little-endian integer at offset 8, of 16 bits
for versions up to 1 and of 32 bits after. -/
def headerLenOf (buf : Buffer) : Nat :=
  if majorOf buf ≤ 1 then (buf.getD 8 0).toNat + 256 * (buf.getD 9 0).toNat
  else (buf.getD 8 0).toNat + 256 * (buf.getD 9 0).toNat + 65536 * (buf.getD 10 0).toNat +
    16777216 * (buf.getD 11 0).toNat

/-- Spec-side: the offset of the first byte after the header. -/
def dataStartOf (buf : Buffer) : Nat :=
  headerStartOf buf + headerLenOf buf

/-- Spec-side: the decoded header text. -/
def headerTextOf (decode : List UInt8 → String) (buf : Buffer) : List Char :=
  (decode ((buf.drop (headerStartOf buf)).take (headerLenOf buf))).data

/-- Spec-side: the integer written by a list of decimal digits. -/
def decimalValue (ds : List Char) : Nat :=
  Nat.ofDigits 10 ((ds.map (fun c => c.toNat - 48)).reverse)

/-- Spec-side: `s` starts with a shape descriptor `( d1 , d2 )`, where `d1` and `d2`
are non-empty runs of digits and white space may surround them. -/
def IsShapeDescriptor (s d1 d2 : List Char) : Prop :=
  ∃ ws1 ws2 ws3 ws4 post : List Char,
    s = '(' :: (ws1 ++ (d1 ++ (ws2 ++ ',' :: (ws3 ++ (d2 ++ (ws4 ++ ')' :: post)))))) ∧
    (∀ c ∈ ws1, isWhiteSpace c = true) ∧ (∀ c ∈ ws2, isWhiteSpace c = true) ∧
    (∀ c ∈ ws3, isWhiteSpace c = true) ∧ (∀ c ∈ ws4, isWhiteSpace c = true) ∧
    d1 ≠ [] ∧ d2 ≠ [] ∧ (∀ c ∈ d1, isDigit c = true) ∧ (∀ c ∈ d2, isDigit c = true)

/-- Spec-side: the text contains a shape descriptor of two integers. -/
def HasShapeDescriptor (text : List Char) : Prop :=
  ∃ pre s d1 d2 : List Char, text = pre ++ s ∧ IsShapeDescriptor s d1 d2

/-- Spec-side: the shape descriptor of the text, which follows its first opening
bracket, is `(rows, cols)`. -/
def ShapeIs (text : List Char) (rows cols : Nat) : Prop :=
  ∃ pre s d1 d2 : List Char, text = pre ++ s ∧ (∀ c ∈ pre, c ≠ '(') ∧
    IsShapeDescriptor s d1 d2 ∧ rows = decimalValue d1 ∧ cols = decimalValue d2

/-- Spec-side: a well-formed matrix file of shape `(rows, cols)`: the header lies
inside the file, its text has the shape descriptor, the data start on a 4-byte
boundary and `rows*cols` floats follow the header. -/
def WellFormedFile (decode : List UInt8 → String) (buf : Buffer) (rows cols : Nat) : Prop :=
  dataStartOf buf ≤ buf.length ∧ ShapeIs (headerTextOf decode buf) rows cols ∧
    dataStartOf buf % 4 = 0 ∧ dataStartOf buf + 4 * (rows * cols) ≤ buf.length

/-- Spec-side: the result of `loadNPY` once the header has been read. -/
def afterHeader (decode : List UInt8 → String) (buf : Buffer) : Except LoadError LoadedNpy :=
  match matchShape (headerTextOf decode buf) with
  | none => .error .shapeError
  | some (d1, d2) =>
    match float32Array buf (dataStartOf buf) (parseInt d1 * parseInt d2) with
    | .error e => .error e
    | .ok floats => .ok { rows := parseInt d1, cols := parseInt d2, data := floats }

/-! ## Sample matrix files -/

/-- A decoder for headers made of ASCII bytes, on which it agrees with UTF-8. -/
def asciiDecode (bytes : List UInt8) : String :=
  ⟨bytes.map (fun b => Char.ofNat b.toNat)⟩

/-- The bytes of an ASCII text. -/
def asciiBytes (s : List Char) : List UInt8 :=
  s.map (fun c => UInt8.ofNat c.toNat)

/-- The start of a header dictionary, up to the shape. -/
def headerPrefix : List Char :=
  "\x7b\x27descr\x27: \x27<f4\x27, \x27fortran_order\x27: False, \x27shape\x27: ".data

/-- The header text of a 64 by 8 matrix, padded to 118 characters. -/
def header64x8 : List Char :=
  headerPrefix ++ "(64, 8), \x7d".data ++ List.replicate 57 (Char.ofNat 32) ++ [Char.ofNat 10]

/-- A version 1 file of a 64 by 8 matrix: magic string, version 1.0, the 16-bit header
length 118, the header, and 512 floats (each the bit pattern of 1.0). -/
def file64x8 : Buffer :=
  [147, 78, 85, 77, 80, 89, 1, 0, 118, 0] ++ asciiBytes header64x8 ++
    (List.replicate 512 [0, 0, 128, 63]).flatten

/-- The header text of a vector of 64 entries: its shape `(64,)` is not a pair. -/
def header64 : List Char :=
  headerPrefix ++ "(64,), \x7d".data ++ List.replicate 59 (Char.ofNat 32) ++ [Char.ofNat 10]

/-- A version 1 file whose header has a one-dimensional shape. -/
def file64 : Buffer :=
  [147, 78, 85, 77, 80, 89, 1, 0, 118, 0] ++ asciiBytes header64 ++
    (List.replicate 64 [0, 0, 128, 63]).flatten

/-- The file `file64x8` cut after 511 floats. -/
def fileTruncated : Buffer :=
  [147, 78, 85, 77, 80, 89, 1, 0, 118, 0] ++ asciiBytes header64x8 ++
    (List.replicate 511 [0, 0, 128, 63]).flatten

/-- Spec-side: the top-k list of a domain on a well-formed index, the first `k`
rows of the sorted survivors. -/
def topListOf {ι : Type} (store : Store ι) (userVec : List ℚ) (domain : Domain) (k : Nat)
    (thresholdSet : ThresholdSet) : List (Item ι) :=
  (arraySort (fun a b => b.score - a.score)
    (survivors userVec (store domain) ((thresholdSet domain).getD 0))).take k

/-- Spec-side: every threshold of `lower` is at most the one of `upper`. -/
def ThresholdsBelow (lower upper : ThresholdSet) : Prop :=
  ∀ d : Domain, (lower d).getD 0 ≤ (upper d).getD 0

/-- An index whose second row scores `0.40` against the query `[1]`: at or above
every relaxed threshold, below the strict skills threshold. -/
def stepIndex : DomainIndex Nat :=
  { meta := [{ id := 7, title := "Software Developers" }, { id := 8, title := "Registered Nurses" }]
    npy := { rows := 2, cols := 1, data := [1, 2 / 5] } }

/-- A store with `stepIndex` in the skills domain and `sampleIndex` elsewhere. -/
def stepStore : Store Nat
  | .skills => stepIndex
  | _ => sampleIndex

/-- The four top-k lists of `stepStore` for `sampleVecs` under the strict
thresholds: the id `8` is missing from the skills list. -/
def stepLists : List (Domain × List (Item Nat)) :=
  [(Domain.skills, [⟨7, "Software Developers", 1⟩]),
   (Domain.knowledge, [⟨7, "Software Developers", 1⟩, ⟨8, "Registered Nurses", 1 / 2⟩]),
   (Domain.tasks, [⟨7, "Software Developers", 1⟩, ⟨8, "Registered Nurses", 1 / 2⟩]),
   (Domain.occ, [⟨7, "Software Developers", 1⟩, ⟨8, "Registered Nurses", 1 / 2⟩])]

/-- The candidates of `stepStore` for `sampleVecs` at the strict level. -/
def stepStrict : List (Candidate Nat) :=
  [⟨7, "Software Developers", 4, [Domain.skills, Domain.knowledge, Domain.tasks, Domain.occ],
      [1, 1, 1, 1],
      weightedSum [(Domain.skills, 1), (Domain.knowledge, 1), (Domain.tasks, 1),
        (Domain.occ, 1)]⟩,
   ⟨8, "Registered Nurses", 3, [Domain.knowledge, Domain.tasks, Domain.occ],
      [1 / 2, 1 / 2, 1 / 2],
      weightedSum [(Domain.knowledge, 1 / 2), (Domain.tasks, 1 / 2), (Domain.occ, 1 / 2)]⟩]

/-! # Proofs -/

/-! ## Lemmas on binary64 rounding -/

theorem roundHalfEven_of_lt (q : ℚ) (k : ℤ) (h1 : (k : ℚ) - 1 / 2 < q) (h2 : q < k + 1 / 2) :
    roundHalfEven q = k := by
  have hf1 := Int.floor_le q
  have hf2 := Int.lt_floor_add_one q
  unfold roundHalfEven
  split_ifs with c1 c2 c3
  · have a1 : (k : ℚ) < (⌊q⌋ + 1 : ℤ) := by push_cast; linarith
    have a2 : ((⌊q⌋ : ℤ) : ℚ) < (k + 1 : ℤ) := by push_cast; linarith
    have a1' : k < ⌊q⌋ + 1 := by exact_mod_cast a1
    have a2' : ⌊q⌋ < k + 1 := by exact_mod_cast a2
    omega
  · have a1 : (k : ℚ) < (⌊q⌋ + 2 : ℤ) := by push_cast; linarith
    have a2 : ((⌊q⌋ : ℤ) : ℚ) < (k : ℤ) := by linarith
    have a1' : k < ⌊q⌋ + 2 := by exact_mod_cast a1
    have a2' : ⌊q⌋ < k := by exact_mod_cast a2
    omega
  · exfalso
    have e : q - ⌊q⌋ = 1 / 2 := le_antisymm (not_lt.1 c2) (not_lt.1 c1)
    have a1 : (k : ℚ) < (⌊q⌋ + 1 : ℤ) := by push_cast; linarith
    have a2 : ((⌊q⌋ : ℤ) : ℚ) < (k : ℤ) := by linarith
    have a1' : k < ⌊q⌋ + 1 := by exact_mod_cast a1
    have a2' : ⌊q⌋ < k := by exact_mod_cast a2
    omega
  · exfalso
    have e : q - ⌊q⌋ = 1 / 2 := le_antisymm (not_lt.1 c2) (not_lt.1 c1)
    have a1 : (k : ℚ) < (⌊q⌋ + 1 : ℤ) := by push_cast; linarith
    have a2 : ((⌊q⌋ : ℤ) : ℚ) < (k : ℤ) := by linarith
    have a1' : k < ⌊q⌋ + 1 := by exact_mod_cast a1
    have a2' : ⌊q⌋ < k := by exact_mod_cast a2
    omega

theorem floor_of_half (q : ℚ) (k : ℤ) (h : q = k + 1 / 2) : ⌊q⌋ = k := by
  rw [Int.floor_eq_iff]
  constructor <;> linarith

theorem roundHalfEven_tie_even (q : ℚ) (k : ℤ) (h : q = k + 1 / 2) (hk : k % 2 = 0) :
    roundHalfEven q = k := by
  have hf := floor_of_half q k h
  unfold roundHalfEven
  rw [hf]
  have e : q - k = 1 / 2 := by linarith
  rw [e]
  simp [hk]

theorem roundHalfEven_tie_odd (q : ℚ) (k : ℤ) (h : q = k + 1 / 2) (hk : k % 2 = 1) :
    roundHalfEven q = k + 1 := by
  have hf := floor_of_half q k h
  unfold roundHalfEven
  rw [hf]
  have e : q - k = 1 / 2 := by linarith
  rw [e]
  simp [hk]

theorem roundHalfEven_cases (q : ℚ) :
    ((roundHalfEven q : ℚ) - 1 / 2 < q ∧ q < roundHalfEven q + 1 / 2) ∨
    (q = roundHalfEven q + 1 / 2 ∧ roundHalfEven q % 2 = 0) ∨
    (q = roundHalfEven q - 1 / 2 ∧ roundHalfEven q % 2 = 0) := by
  have hf1 := Int.floor_le q
  have hf2 := Int.lt_floor_add_one q
  unfold roundHalfEven
  split_ifs with c1 c2 c3
  · left
    constructor <;> linarith
  · left
    push_cast
    constructor <;> linarith
  · right; left
    have e : q - ⌊q⌋ = 1 / 2 := le_antisymm (not_lt.1 c2) (not_lt.1 c1)
    exact ⟨by linarith, c3⟩
  · right; right
    have e : q - ⌊q⌋ = 1 / 2 := le_antisymm (not_lt.1 c2) (not_lt.1 c1)
    refine ⟨by push_cast; linarith, by omega⟩

theorem roundHalfEven_neg (q : ℚ) : roundHalfEven (-q) = - roundHalfEven q := by
  rcases roundHalfEven_cases q with ⟨h1, h2⟩ | ⟨h, hk⟩ | ⟨h, hk⟩
  · apply roundHalfEven_of_lt <;> push_cast <;> linarith
  · have h' : -q = ((- roundHalfEven q - 1 : ℤ) : ℚ) + 1 / 2 := by push_cast; linarith
    rw [roundHalfEven_tie_odd (-q) _ h' (by omega)]
    ring
  · have h' : -q = ((- roundHalfEven q : ℤ) : ℚ) + 1 / 2 := by push_cast; linarith
    rw [roundHalfEven_tie_even (-q) _ h' (by omega)]

theorem roundHalfEven_zero : roundHalfEven 0 = 0 := by
  apply roundHalfEven_of_lt <;> norm_num

theorem abs_sub_roundHalfEven_le (q : ℚ) : |q - roundHalfEven q| ≤ 1 / 2 := by
  rw [abs_le]
  rcases roundHalfEven_cases q with ⟨h1, h2⟩ | ⟨h, _⟩ | ⟨h, _⟩
  · constructor <;> linarith
  · constructor <;> linarith
  · constructor <;> linarith

theorem binadeOf_neg (x : ℚ) : binadeOf (-x) = binadeOf x := by
  unfold binadeOf
  rw [abs_neg]

theorem binadeOf_ge (x : ℚ) : -1022 ≤ binadeOf x := le_max_right _ _

theorem log_eq_of_bounds (x : ℚ) (e : ℤ) (hlo : (2 : ℚ) ^ e ≤ x) (hhi : x < 2 ^ (e + 1)) :
    Int.log 2 x = e := by
  have hpos : 0 < x := lt_of_lt_of_le (by positivity) hlo
  have h1 : e ≤ Int.log 2 x := (Int.zpow_le_iff_le_log (by norm_num) hpos).1 (by exact_mod_cast hlo)
  have h2 : Int.log 2 x < e + 1 :=
    (Int.lt_zpow_iff_log_lt (by norm_num) hpos).1 (by exact_mod_cast hhi)
  omega

theorem binadeOf_eq (x : ℚ) (e : ℤ) (he : -1022 ≤ e) (hlo : (2 : ℚ) ^ e ≤ x)
    (hhi : x < 2 ^ (e + 1)) : binadeOf x = e := by
  have hpos : 0 < x := lt_of_lt_of_le (by positivity) hlo
  unfold binadeOf
  rw [abs_of_pos hpos, log_eq_of_bounds x e hlo hhi]
  exact max_eq_left he

theorem toDouble_neg (x : ℚ) : toDouble (-x) = - toDouble x := by
  unfold toDouble
  rw [binadeOf_neg, neg_div, roundHalfEven_neg]
  push_cast
  ring

theorem toDouble_zero : toDouble 0 = 0 := by
  unfold toDouble
  rw [zero_div, roundHalfEven_zero]
  simp

/-- Evaluation of `toDouble` at a positive normal number that is not a tie. -/
theorem toDouble_eq_of_near (x : ℚ) (e k : ℤ) (he : -1022 ≤ e) (hlo : (2 : ℚ) ^ e ≤ x)
    (hhi : x < 2 ^ (e + 1)) (h1 : (k : ℚ) - 1 / 2 < x / 2 ^ (e - 52))
    (h2 : x / 2 ^ (e - 52) < k + 1 / 2) : toDouble x = k * 2 ^ (e - 52) := by
  unfold toDouble
  rw [binadeOf_eq x e he hlo hhi, roundHalfEven_of_lt _ k h1 h2]

theorem toDouble_eq_of_tie_even (x : ℚ) (e k : ℤ) (he : -1022 ≤ e) (hlo : (2 : ℚ) ^ e ≤ x)
    (hhi : x < 2 ^ (e + 1)) (h : x / 2 ^ (e - 52) = k + 1 / 2) (hk : k % 2 = 0) :
    toDouble x = k * 2 ^ (e - 52) := by
  unfold toDouble
  rw [binadeOf_eq x e he hlo hhi, roundHalfEven_tie_even _ k h hk]

theorem toDouble_eq_of_tie_odd (x : ℚ) (e k : ℤ) (he : -1022 ≤ e) (hlo : (2 : ℚ) ^ e ≤ x)
    (hhi : x < 2 ^ (e + 1)) (h : x / 2 ^ (e - 52) = k + 1 / 2) (hk : k % 2 = 1) :
    toDouble x = (k + 1 : ℤ) * 2 ^ (e - 52) := by
  unfold toDouble
  rw [binadeOf_eq x e he hlo hhi, roundHalfEven_tie_odd _ k h hk]

theorem roundHalfEven_nonneg (q : ℚ) (h : 0 ≤ q) : 0 ≤ roundHalfEven q := by
  rcases roundHalfEven_cases q with ⟨h1, _⟩ | ⟨h1, _⟩ | ⟨h1, _⟩
  · have : ((-1 : ℤ) : ℚ) < roundHalfEven q := by push_cast; linarith
    have : (-1 : ℤ) < roundHalfEven q := by exact_mod_cast this
    omega
  · have : ((-1 : ℤ) : ℚ) < roundHalfEven q := by push_cast; linarith
    have : (-1 : ℤ) < roundHalfEven q := by exact_mod_cast this
    omega
  · have : ((0 : ℤ) : ℚ) < roundHalfEven q := by push_cast; linarith
    have : (0 : ℤ) < roundHalfEven q := by exact_mod_cast this
    omega

theorem roundHalfEven_pos (q : ℚ) (h : 1 ≤ q) : 0 < roundHalfEven q := by
  rcases roundHalfEven_cases q with ⟨h1, _⟩ | ⟨h1, _⟩ | ⟨h1, _⟩
  · have : ((0 : ℤ) : ℚ) < roundHalfEven q := by push_cast; linarith
    exact_mod_cast this
  · have : ((0 : ℤ) : ℚ) < roundHalfEven q := by push_cast; linarith
    exact_mod_cast this
  · have : ((0 : ℤ) : ℚ) < roundHalfEven q := by push_cast; linarith
    exact_mod_cast this

theorem quantum_pos (x : ℚ) : (0 : ℚ) < 2 ^ (binadeOf x - 52) := by positivity

theorem toDouble_nonneg (x : ℚ) (h : 0 ≤ x) : 0 ≤ toDouble x := by
  unfold toDouble
  have hq : 0 ≤ x / 2 ^ (binadeOf x - 52) := div_nonneg h (le_of_lt (quantum_pos x))
  have := roundHalfEven_nonneg _ hq
  have h' : (0 : ℚ) ≤ roundHalfEven (x / 2 ^ (binadeOf x - 52)) := by exact_mod_cast this
  exact mul_nonneg h' (le_of_lt (quantum_pos x))

theorem toDouble_nonpos (x : ℚ) (h : x ≤ 0) : toDouble x ≤ 0 := by
  have := toDouble_nonneg (-x) (by linarith)
  rw [toDouble_neg] at this
  linarith

theorem quantum_le (x : ℚ) (h : (2 : ℚ) ^ (-1074 : ℤ) ≤ x) : (2 : ℚ) ^ (binadeOf x - 52) ≤ x := by
  have hpos : 0 < x := lt_of_lt_of_le (by positivity) h
  unfold binadeOf
  rw [abs_of_pos hpos]
  rcases max_choice (Int.log 2 x) (-1022) with hm | hm
  · rw [hm]
    have h1 : (2 : ℚ) ^ Int.log 2 x ≤ x := by
      have := Int.zpow_log_le_self (b := 2) (r := x) (by norm_num) hpos
      exact_mod_cast this
    have h2 : (2 : ℚ) ^ (Int.log 2 x - 52) ≤ 2 ^ Int.log 2 x :=
      zpow_le_zpow_right₀ (by norm_num) (by omega)
    linarith
  · rw [hm]
    have : ((-1022 : ℤ) - 52) = -1074 := by norm_num
    rw [this]
    exact h

theorem toDouble_pos (x : ℚ) (h : (2 : ℚ) ^ (-1074 : ℤ) ≤ x) : 0 < toDouble x := by
  unfold toDouble
  have hq : 1 ≤ x / 2 ^ (binadeOf x - 52) := by
    rw [le_div_iff₀ (quantum_pos x), one_mul]
    exact quantum_le x h
  have := roundHalfEven_pos _ hq
  have h' : (0 : ℚ) < roundHalfEven (x / 2 ^ (binadeOf x - 52)) := by exact_mod_cast this
  exact mul_pos h' (quantum_pos x)

theorem toDouble_neg_of_le (x : ℚ) (h : x ≤ -(2 : ℚ) ^ (-1074 : ℤ)) : toDouble x < 0 := by
  have := toDouble_pos (-x) (by linarith)
  rw [toDouble_neg] at this
  linarith

theorem IsDouble.exists_grid {x : ℚ} (h : IsDouble x) : ∃ m : ℤ, x = m * 2 ^ (-1074 : ℤ) := by
  obtain ⟨k, q, -, hq, rfl⟩ := h
  refine ⟨k * 2 ^ (q + 1074).toNat, ?_⟩
  have h1 : ((2 : ℚ) ^ (q + 1074).toNat) = (2 : ℚ) ^ (q + 1074) := by
    rw [← zpow_natCast, Int.toNat_of_nonneg (by omega)]
  push_cast
  rw [h1, mul_assoc, ← zpow_add₀ (by norm_num : (2 : ℚ) ≠ 0)]
  congr 2
  ring

theorem IsDouble.sub_ge {x y : ℚ} (hx : IsDouble x) (hy : IsDouble y) (h : x < y) :
    (2 : ℚ) ^ (-1074 : ℤ) ≤ y - x := by
  obtain ⟨m, rfl⟩ := hx.exists_grid
  obtain ⟨n, rfl⟩ := hy.exists_grid
  have hpos : (0 : ℚ) < 2 ^ (-1074 : ℤ) := by positivity
  have hmn : (m : ℚ) < n := lt_of_mul_lt_mul_right h (le_of_lt hpos)
  have hmn' : m < n := by exact_mod_cast hmn
  have h1 : ((m + 1 : ℤ) : ℚ) ≤ n := by exact_mod_cast hmn'
  push_cast at h1
  have : (2 : ℚ) ^ (-1074 : ℤ) ≤ (n - m) * 2 ^ (-1074 : ℤ) := by
    nlinarith
  linarith

/-- The rounded difference of two binary64 numbers has the sign of the difference. -/
theorem fsub_neg_of_lt {x y : ℚ} (hx : IsDouble x) (hy : IsDouble y) (h : x < y) :
    fsub x y < 0 := by
  unfold fsub
  apply toDouble_neg_of_le
  have := hx.sub_ge hy h
  linarith

theorem fsub_pos_of_lt {x y : ℚ} (hx : IsDouble x) (hy : IsDouble y) (h : x < y) :
    0 < fsub y x := by
  unfold fsub
  exact toDouble_pos _ (hx.sub_ge hy h)

theorem fsub_antisymm (x y : ℚ) : fsub y x = - fsub x y := by
  unfold fsub
  rw [← toDouble_neg]
  congr 1
  ring

theorem abs_roundHalfEven_le (q : ℚ) (n : ℤ) (h : |q| ≤ n) : |roundHalfEven q| ≤ n := by
  rw [abs_le] at h ⊢
  have h3 := abs_sub_roundHalfEven_le q
  rw [abs_le] at h3
  constructor
  · have : ((-n - 1 : ℤ) : ℚ) < roundHalfEven q := by push_cast; linarith
    have : (-n - 1 : ℤ) < roundHalfEven q := by exact_mod_cast this
    omega
  · have : ((roundHalfEven q : ℤ) : ℚ) < (n + 1 : ℤ) := by push_cast; linarith
    have : roundHalfEven q < n + 1 := by exact_mod_cast this
    omega

theorem abs_lt_binade (x : ℚ) : |x| < 2 ^ (binadeOf x + 1) := by
  have h1 : |x| < (2 : ℚ) ^ (Int.log 2 |x| + 1) := by
    have := Int.lt_zpow_succ_log_self (b := 2) (by norm_num) |x|
    exact_mod_cast this
  have h2 : (2 : ℚ) ^ (Int.log 2 |x| + 1) ≤ 2 ^ (binadeOf x + 1) := by
    apply zpow_le_zpow_right₀ (by norm_num)
    have : Int.log 2 |x| ≤ binadeOf x := le_max_left _ _
    omega
  linarith

theorem toDouble_isDouble (x : ℚ) : IsDouble (toDouble x) := by
  refine ⟨roundHalfEven (x / 2 ^ (binadeOf x - 52)), binadeOf x - 52, ?_, ?_, rfl⟩
  · have hq : |x / 2 ^ (binadeOf x - 52)| ≤ ((2 ^ 53 : ℤ) : ℚ) := by
      rw [abs_div, abs_of_pos (quantum_pos x), div_le_iff₀ (quantum_pos x)]
      have h1 := abs_lt_binade x
      have h2 : ((2 ^ 53 : ℤ) : ℚ) * 2 ^ (binadeOf x - 52) = 2 ^ (binadeOf x + 1) := by
        rw [show binadeOf x + 1 = 53 + (binadeOf x - 52) by ring,
          zpow_add₀ (by norm_num : (2 : ℚ) ≠ 0)]
        norm_num
      rw [h2]
      exact le_of_lt h1
    exact abs_roundHalfEven_le _ _ hq
  · have := binadeOf_ge x
    omega

theorem toDouble_eq_self (x : ℚ) (e k : ℤ) (he : -1022 ≤ e) (hlo : (2 : ℚ) ^ e ≤ x)
    (hhi : x < 2 ^ (e + 1)) (hx : x = k * 2 ^ (e - 52)) : toDouble x = x := by
  have hu : (0 : ℚ) < 2 ^ (e - 52) := by positivity
  have hq : x / 2 ^ (e - 52) = k := by
    rw [hx]
    field_simp
  rw [toDouble_eq_of_near x e k he hlo hhi (by rw [hq]; linarith) (by rw [hq]; linarith)]
  exact hx.symm

theorem roundHalfEven_nearest (q : ℚ) (j : ℤ) : |q - roundHalfEven q| ≤ |q - j| := by
  by_contra hlt
  push_neg at hlt
  have h1 := abs_sub_roundHalfEven_le q
  have h2 : |(j : ℚ) - roundHalfEven q| < 1 := by
    have e : (j : ℚ) - roundHalfEven q = (q - roundHalfEven q) - (q - j) := by ring
    rw [e]
    calc |(q - roundHalfEven q) - (q - j)| ≤ |q - roundHalfEven q| + |q - j| := abs_sub _ _
      _ < 1 := by linarith
  have h3 : |j - roundHalfEven q| < 1 := by exact_mod_cast h2
  have h4 : j = roundHalfEven q := by
    rw [abs_lt] at h3
    omega
  rw [← h4] at hlt
  exact lt_irrefl _ hlt

theorem toDouble_nearest_grid (x : ℚ) (j : ℤ) :
    |x - toDouble x| ≤ |x - j * 2 ^ (binadeOf x - 52)| := by
  have hu := quantum_pos x
  have e1 : x - toDouble x =
      (x / 2 ^ (binadeOf x - 52) - roundHalfEven (x / 2 ^ (binadeOf x - 52))) *
        2 ^ (binadeOf x - 52) := by
    unfold toDouble
    field_simp
    ring
  have e2 : x - j * 2 ^ (binadeOf x - 52) =
      (x / 2 ^ (binadeOf x - 52) - j) * 2 ^ (binadeOf x - 52) := by
    field_simp
    ring
  rw [e1, e2, abs_mul, abs_mul, abs_of_pos hu]
  exact mul_le_mul_of_nonneg_right (roundHalfEven_nearest _ j) (le_of_lt hu)

/-- The value `toDouble x` is a binary64 number nearest to `x`. -/
theorem toDouble_nearest (x d : ℚ) (hd : IsDouble d) : |x - toDouble x| ≤ |x - d| := by
  obtain ⟨k, q, hk, hq, rfl⟩ := hd
  by_cases hgrid : binadeOf x - 52 ≤ q
  · have e : (k : ℚ) * 2 ^ q = ((k * 2 ^ (q - (binadeOf x - 52)).toNat : ℤ) : ℚ) *
        2 ^ (binadeOf x - 52) := by
      have h1 : ((2 : ℚ) ^ (q - (binadeOf x - 52)).toNat) = (2 : ℚ) ^ (q - (binadeOf x - 52)) := by
        rw [← zpow_natCast, Int.toNat_of_nonneg (by omega)]
      push_cast
      rw [h1, mul_assoc, ← zpow_add₀ (by norm_num : (2 : ℚ) ≠ 0)]
      congr 2
      ring
    rw [e]
    exact toDouble_nearest_grid x _
  · have hq' : q + 1 ≤ binadeOf x - 52 := by omega
    have hb : binadeOf x = Int.log 2 |x| := by
      unfold binadeOf at hq' ⊢
      rcases max_choice (Int.log 2 |x|) (-1022) with hm | hm
      · exact hm
      · rw [hm] at hq'
        omega
    by_cases hx0 : x = 0
    · subst hx0
      rw [toDouble_zero]
      simp
    have hxpos : 0 < |x| := abs_pos.2 hx0
    have hlo : (2 : ℚ) ^ binadeOf x ≤ |x| := by
      rw [hb]
      have := Int.zpow_log_le_self (b := 2) (r := |x|) (by norm_num) hxpos
      exact_mod_cast this
    have hdabs : |(k : ℚ) * 2 ^ q| ≤ 2 ^ binadeOf x := by
      have hk' : |(k : ℚ)| ≤ 2 ^ (53 : ℤ) := by
        have : ((|k| : ℤ) : ℚ) ≤ ((2 ^ 53 : ℤ) : ℚ) := by exact_mod_cast hk
        rw [Int.cast_abs] at this
        calc |(k : ℚ)| ≤ ((2 ^ 53 : ℤ) : ℚ) := this
          _ = 2 ^ (53 : ℤ) := by norm_num
      have h2q : (2 : ℚ) ^ q ≤ 2 ^ (binadeOf x - 53) :=
        zpow_le_zpow_right₀ (by norm_num) (by omega)
      rw [abs_mul, abs_of_pos (by positivity : (0 : ℚ) < 2 ^ q)]
      calc |(k : ℚ)| * 2 ^ q ≤ 2 ^ (53 : ℤ) * 2 ^ (binadeOf x - 53) :=
            mul_le_mul hk' h2q (by positivity) (by positivity)
        _ = 2 ^ binadeOf x := by
            rw [← zpow_add₀ (by norm_num : (2 : ℚ) ≠ 0)]
            congr 1
            ring
    have hpow : (2 : ℚ) ^ binadeOf x = ((2 ^ 52 : ℤ) : ℚ) * 2 ^ (binadeOf x - 52) := by
      rw [show binadeOf x = 52 + (binadeOf x - 52) by ring,
        zpow_add₀ (by norm_num : (2 : ℚ) ≠ 0)]
      norm_num
    have hfar : |x| - 2 ^ binadeOf x ≤ |x - (k : ℚ) * 2 ^ q| := by
      have := abs_sub_abs_le_abs_sub x ((k : ℚ) * 2 ^ q)
      linarith
    rcases lt_or_gt_of_ne hx0 with hneg | hpos
    · have hnear := toDouble_nearest_grid x (-(2 ^ 52))
      have e : |x - ((-(2 ^ 52) : ℤ) : ℚ) * 2 ^ (binadeOf x - 52)| = |x| - 2 ^ binadeOf x := by
        rw [abs_of_neg hneg] at hlo ⊢
        have : x - ((-(2 ^ 52) : ℤ) : ℚ) * 2 ^ (binadeOf x - 52) = x + 2 ^ binadeOf x := by
          rw [hpow]
          push_cast
          ring
        rw [this, abs_of_nonpos (by linarith)]
        ring
      rw [e] at hnear
      linarith
    · have hnear := toDouble_nearest_grid x (2 ^ 52)
      have e : |x - ((2 ^ 52 : ℤ) : ℚ) * 2 ^ (binadeOf x - 52)| = |x| - 2 ^ binadeOf x := by
        rw [abs_of_pos hpos] at hlo ⊢
        rw [← hpow, abs_of_nonneg (by linarith)]
      rw [e] at hnear
      linarith

/-! ## Lemmas on sorting -/

theorem filter_key_orderedInsert {α : Type} (key : α → ℚ) (v : ℚ) (a : α) (t : List α) :
    (t.orderedInsert (fun x y => key y - key x ≤ 0) a).filter (fun x => decide (key x = v)) =
      (a :: t).filter (fun x => decide (key x = v)) := by
  induction t with
  | nil => simp
  | cons b t ih =>
    by_cases h : key b - key a ≤ 0
    · simp [List.orderedInsert, h]
    · have hne : key b ≠ key a := by
        intro hb
        apply h
        rw [hb]
        simp
      simp only [List.orderedInsert, h, if_false]
      rw [List.filter_cons, ih]
      by_cases ha : key a = v
      · have hb : ¬ key b = v := fun hb => hne (hb.trans ha.symm)
        simp [List.filter_cons, ha, hb]
      · simp [List.filter_cons, ha]

theorem arraySort_stable {α : Type} (key : α → ℚ) (l : List α) :
    IsStableSortDesc key l (arraySort (fun a b => key b - key a) l) := by
  haveI : IsTotal α (fun a b => key b - key a ≤ 0) :=
    ⟨fun a b => by
      rcases le_total (key a) (key b) with h | h
      · right; linarith
      · left; linarith⟩
  haveI : IsTrans α (fun a b => key b - key a ≤ 0) :=
    ⟨fun a b c hab hbc => by
      have h1 : key b - key a ≤ 0 := hab
      have h2 : key c - key b ≤ 0 := hbc
      show key c - key a ≤ 0
      linarith⟩
  refine ⟨List.perm_insertionSort _ l, ?_, ?_⟩
  · have hs := List.sorted_insertionSort (fun a b => key b - key a ≤ 0) l
    refine List.Pairwise.imp ?_ hs
    intro a b hab
    linarith
  · intro v
    induction l with
    | nil => simp [arraySort]
    | cons a l ih =>
      simp only [arraySort, List.insertionSort] at ih ⊢
      rw [filter_key_orderedInsert, List.filter_cons, ih, List.filter_cons]

theorem stableSortDesc_unique_aux {α : Type} (key : α → ℚ) :
    ∀ s₁ s₂ : List α,
      s₁.Pairwise (fun a b => key b ≤ key a) → s₂.Pairwise (fun a b => key b ≤ key a) →
      (∀ v : ℚ, s₁.filter (fun a => decide (key a = v)) =
        s₂.filter (fun a => decide (key a = v))) → s₁ = s₂ := by
  intro s₁
  induction s₁ with
  | nil =>
    intro s₂ _ _ h
    cases s₂ with
    | nil => rfl
    | cons b t =>
      have := h (key b)
      simp at this
  | cons a t₁ ih =>
    intro s₂ h₁ h₂ h
    cases s₂ with
    | nil =>
      have := h (key a)
      simp at this
    | cons b t₂ =>
      have ha : a ∈ (b :: t₂) := by
        have hm : a ∈ (a :: t₁).filter (fun x => decide (key x = key a)) := by simp
        rw [h (key a)] at hm
        exact (List.mem_filter.1 hm).1
      have hb : b ∈ (a :: t₁) := by
        have hm : b ∈ (b :: t₂).filter (fun x => decide (key x = key b)) := by simp
        rw [← h (key b)] at hm
        exact (List.mem_filter.1 hm).1
      have hab : key a ≤ key b := by
        rcases List.mem_cons.1 ha with e | m
        · rw [e]
        · exact (List.pairwise_cons.1 h₂).1 a m
      have hba : key b ≤ key a := by
        rcases List.mem_cons.1 hb with e | m
        · rw [e]
        · exact (List.pairwise_cons.1 h₁).1 b m
      have hk : key b = key a := le_antisymm hba hab
      have h0 := h (key a)
      simp only [List.filter_cons, hk, decide_True, if_true] at h0
      have hhead : a = b := (List.cons.inj h0).1
      subst hhead
      congr 1
      apply ih t₂ (List.pairwise_cons.1 h₁).2 (List.pairwise_cons.1 h₂).2
      intro v
      have hv := h v
      simp only [List.filter_cons] at hv
      by_cases e : key a = v
      · simp only [e, decide_True, if_true] at hv
        exact (List.cons.inj hv).2
      · simpa [e] using hv

theorem stableSortDesc_unique {α : Type} (key : α → ℚ) (l s₁ s₂ : List α)
    (h₁ : IsStableSortDesc key l s₁) (h₂ : IsStableSortDesc key l s₂) : s₁ = s₂ :=
  stableSortDesc_unique_aux key s₁ s₂ h₁.2.1 h₂.2.1 (fun v => (h₁.2.2 v).trans (h₂.2.2 v).symm)

/-! ## Lemmas on the row scan -/

theorem dot_fold_eq (userVec data : List ℚ) (offset cols : Nat)
    (hu : cols ≤ userVec.length) (hd : offset + cols ≤ data.length) :
    ∀ n, n ≤ cols →
      (List.range n).foldlM
        (fun (dot : ℚ) c => do
          let u ← userVec[c]?
          let d ← data[offset + c]?
          pure (dot + u * d))
        (0 : ℚ) =
      some (((List.range n).map (fun c => userVec.getD c 0 * data.getD (offset + c) 0)).sum) := by
  intro n
  induction n with
  | zero => intro _; rfl
  | succ n ih =>
    intro hn
    have h1 : n < userVec.length := by omega
    have h2 : offset + n < data.length := by omega
    rw [List.range_succ, List.foldlM_append, ih (by omega)]
    simp [List.getElem?_eq_getElem h1, List.getElem?_eq_getElem h2, List.getD_eq_getElem?_getD]

theorem dotCosineNormalized_eq (userVec data : List ℚ) (cols r : Nat)
    (hu : cols ≤ userVec.length) (hd : r * cols + cols ≤ data.length) :
    dotCosineNormalized userVec data (r * cols) cols = some (rowScore userVec data cols r) :=
  dot_fold_eq userVec data (r * cols) cols hu hd cols (le_refl _)

theorem scanRow_eq {ι : Type} (userVec : List ℚ) (idx : DomainIndex ι) (threshold : ℚ)
    (acc : List (Item ι)) (r : Nat) (hwf : idx.WellFormed)
    (hdim : userVec.length = idx.npy.cols) (hr : r < idx.npy.rows) :
    scanRow userVec idx threshold acc r =
      .ok (acc ++ (survivorAt userVec idx threshold r).toList) := by
  have hd : r * idx.npy.cols + idx.npy.cols ≤ idx.npy.data.length := by
    have h : (r + 1) * idx.npy.cols ≤ idx.npy.rows * idx.npy.cols :=
      Nat.mul_le_mul_right _ hr
    have h' := hwf.2
    rw [Nat.succ_mul] at h
    omega
  have hm : r < idx.meta.length := lt_of_lt_of_le hr hwf.1
  unfold scanRow survivorAt
  simp only [dotCosineNormalized_eq userVec idx.npy.data idx.npy.cols r (le_of_eq hdim.symm) hd,
    List.getElem?_eq_getElem hm]
  by_cases h : rowScore userVec idx.npy.data idx.npy.cols r < threshold
  · simp [h, not_le.2 h]
  · simp [h, not_lt.1 h]

theorem scan_fold_eq {ι : Type} (userVec : List ℚ) (idx : DomainIndex ι) (threshold : ℚ)
    (hwf : idx.WellFormed) (hdim : userVec.length = idx.npy.cols) :
    ∀ n, n ≤ idx.npy.rows →
      (List.range n).foldlM (scanRow userVec idx threshold) [] =
        (.ok ((List.range n).filterMap (survivorAt userVec idx threshold)) :
          Except SearchError (List (Item ι))) := by
  intro n
  induction n with
  | zero => intro _; rfl
  | succ n ih =>
    intro hn
    rw [List.range_succ, List.foldlM_append, ih (by omega)]
    simp only [List.foldlM, List.filterMap_append]
    show (scanRow userVec idx threshold _ n >>= pure) = _
    rw [scanRow_eq userVec idx threshold _ n hwf hdim (by omega)]
    have hone : List.filterMap (survivorAt userVec idx threshold) [n] =
        (survivorAt userVec idx threshold n).toList := by
      cases h : survivorAt userVec idx threshold n <;> simp [List.filterMap, h]
    rw [hone]
    rfl

theorem survivors_score_ge {ι : Type} (userVec : List ℚ) (idx : DomainIndex ι) (threshold : ℚ)
    (it : Item ι) (h : it ∈ survivors userVec idx threshold) : threshold ≤ it.score := by
  obtain ⟨r, -, hr⟩ := List.mem_filterMap.1 h
  unfold survivorAt at hr
  split at hr
  · cases hr
  · split at hr
    · cases hr
      assumption
    · cases hr

theorem topK_eq {ι : Type} (store : Store ι) (userVec : List ℚ) (domain : Domain) (k : Nat)
    (thresholdSet : ThresholdSet) (hwf : (store domain).WellFormed)
    (hdim : userVec.length = (store domain).npy.cols) :
    topKBySimilarityDomain store userVec domain k thresholdSet =
      .ok ((arraySort (fun a b => b.score - a.score)
        (survivors userVec (store domain) ((thresholdSet domain).getD 0))).take k) := by
  unfold topKBySimilarityDomain
  simp only [hdim, ne_eq, not_true_eq_false, if_false]
  rw [scan_fold_eq userVec (store domain) _ hwf hdim _ (le_refl _)]
  rfl

/-! ## Lemmas on the candidate map -/

section MapLemmas

variable {ι : Type} [DecidableEq ι]

theorem JsMap.get_nil (k : ι) : JsMap.get ([] : JsMap ι) k = none := rfl

theorem JsMap.get_cons (p : ι × Candidate ι) (m : JsMap ι) (k : ι) :
    JsMap.get (p :: m) k = if p.1 = k then some p.2 else JsMap.get m k := by
  unfold JsMap.get
  by_cases h : p.1 = k
  · simp [List.find?, h]
  · simp [List.find?, h]

theorem JsMap.has_eq_isSome (m : JsMap ι) (key : ι) : m.has key = (m.get key).isSome := by
  induction m with
  | nil => rfl
  | cons p m ih =>
    rw [JsMap.get_cons]
    have hc : JsMap.has (p :: m) key = (decide (p.1 = key) || JsMap.has m key) := by
      simp [JsMap.has]
    rw [hc, ih]
    by_cases h : p.1 = key
    · simp [h]
    · simp [h]

theorem JsMap.update_cons (p : ι × Candidate ι) (m : JsMap ι) (key : ι)
    (f : Candidate ι → Candidate ι) :
    JsMap.update (p :: m) key f =
      (if p.1 = key then (p.1, f p.2) else p) :: JsMap.update m key f := rfl

theorem JsMap.get_update (m : JsMap ι) (key k : ι) (f : Candidate ι → Candidate ι) :
    (m.update key f).get k = if k = key then (m.get k).map f else m.get k := by
  induction m with
  | nil => simp [JsMap.update, JsMap.get_nil]
  | cons p m ih =>
    rw [JsMap.update_cons, JsMap.get_cons, JsMap.get_cons, ih]
    by_cases hp : p.1 = key
    · by_cases hk : k = key
      · have hpk : p.1 = k := hp.trans hk.symm
        simp [hp, hk]
      · have hpk : ¬ key = k := fun h => hk h.symm
        simp [hp, hk, hpk]
    · by_cases hpk : p.1 = k
      · have hk : ¬ k = key := fun h => hp (hpk.trans h)
        simp [hp, hpk, hk]
      · simp [hp, hpk]

theorem JsMap.get_append_new (m : JsMap ι) (key k : ι) (v : Candidate ι)
    (hnew : m.get key = none) :
    JsMap.get (m ++ [(key, v)]) k = if k = key then some v else m.get k := by
  induction m with
  | nil =>
    rw [List.nil_append, JsMap.get_cons, JsMap.get_nil]
    by_cases hk : k = key
    · simp [hk]
    · have : ¬ key = k := fun h => hk h.symm
      simp [hk, this]
  | cons p m ih =>
    rw [JsMap.get_cons] at hnew
    have hp : ¬ p.1 = key := by
      intro h
      simp [h] at hnew
    have hm : JsMap.get m key = none := by simpa [hp] using hnew
    have hc : JsMap.get (p :: m ++ [(key, v)]) k =
        if p.1 = k then some p.2 else JsMap.get (m ++ [(key, v)]) k :=
      JsMap.get_cons p (m ++ [(key, v)]) k
    rw [hc, JsMap.get_cons, ih hm]
    by_cases hpk : p.1 = k
    · have : ¬ k = key := fun h => hp (hpk.trans h)
      simp [hpk, this]
    · simp [hpk]

theorem get_addItem (m : JsMap ι) (e : Domain × Item ι) (k : ι) :
    (addItem e.1 (weightOf e.1) m e.2).get k = stepAt k (m.get k) e := by
  unfold addItem stepAt
  simp only [JsMap.has_eq_isSome]
  cases hget : m.get e.2.id with
  | none =>
    have hset : m.set e.2.id (freshEntry e.2) = m ++ [(e.2.id, freshEntry e.2)] := by
      simp [JsMap.set, JsMap.has_eq_isSome, hget]
    simp only [Option.isSome_none, Bool.not_false, if_true, hset, JsMap.get_update,
      JsMap.get_append_new m e.2.id k _ hget]
    by_cases hk : k = e.2.id
    · subst hk
      simp [hget]
    · have : ¬ e.2.id = k := fun h => hk h.symm
      simp [hk, this]
  | some c =>
    simp only [Option.isSome_some, Bool.not_true, JsMap.get_update]
    by_cases hk : k = e.2.id
    · subst hk
      simp [hget]
    · have : ¬ e.2.id = k := fun h => hk h.symm
      simp [hk, this]

theorem aggregate_fold_eq (topLists : List (Domain × List (Item ι))) (m : JsMap ι) :
    topLists.foldl
      (fun m dl =>
        let w := (WEIGHTS dl.1).getD 0.25
        dl.2.foldl (addItem dl.1 w) m) m =
    (entriesOf topLists).foldl (fun m e => addItem e.1 (weightOf e.1) m e.2) m := by
  induction topLists generalizing m with
  | nil => rfl
  | cons dl tl ih =>
    simp only [List.foldl_cons, entriesOf, List.flatMap_cons, List.foldl_append, List.foldl_map]
    exact ih _

theorem aggregate_eq (topLists : List (Domain × List (Item ι))) :
    aggregate topLists =
      (entriesOf topLists).foldl (fun m e => addItem e.1 (weightOf e.1) m e.2) [] :=
  aggregate_fold_eq topLists []

theorem get_foldl_addItem (es : List (Domain × Item ι)) (m : JsMap ι) (k : ι) :
    JsMap.get (es.foldl (fun m e => addItem e.1 (weightOf e.1) m e.2) m) k =
      es.foldl (stepAt k) (JsMap.get m k) := by
  induction es generalizing m with
  | nil => rfl
  | cons e es ih =>
    simp only [List.foldl_cons]
    rw [ih, get_addItem]

theorem foldl_stepAt_some (k : ι) (es : List (Domain × Item ι)) (c : Candidate ι) :
    es.foldl (stepAt k) (some c) =
      some ((entriesFor k es).foldl (fun c e => bump e.1 (weightOf e.1) e.2 c) c) := by
  induction es generalizing c with
  | nil => rfl
  | cons e es ih =>
    by_cases h : e.2.id = k
    · simp only [List.foldl_cons, stepAt, h, if_true, Option.getD_some, entriesFor,
        List.filter_cons, decide_True]
      exact ih _
    · simp only [List.foldl_cons, stepAt, h, if_false, entriesFor, List.filter_cons,
        decide_False]
      exact ih _

theorem foldl_bump_eq {κ : Type} (fs : List (Domain × Item κ)) (c : Candidate κ) :
    fs.foldl (fun c e => bump e.1 (weightOf e.1) e.2 c) c =
      { id := c.id
        title := c.title
        matchCount := c.matchCount + fs.length
        domains := c.domains ++ fs.map (fun e => e.1)
        scores := c.scores ++ fs.map (fun e => e.2.score)
        weightedScore :=
          (fs.map (fun e => (e.1, e.2.score))).foldl
            (fun acc e => fadd acc (fmul (weightOf e.1) e.2)) c.weightedScore } := by
  induction fs generalizing c with
  | nil => simp
  | cons e fs ih =>
    rw [List.foldl_cons, ih]
    simp [bump, Nat.add_assoc, Nat.add_comm 1]

theorem foldl_stepAt_none (k : ι) (es : List (Domain × Item ι)) :
    es.foldl (stepAt k) none =
      match entriesFor k es with
      | [] => none
      | e :: fs => some (specCandidate k e.2.title (e :: fs)) := by
  induction es with
  | nil => rfl
  | cons e es ih =>
    by_cases h : e.2.id = k
    · simp only [List.foldl_cons, stepAt, h, if_true, Option.getD_none, entriesFor,
        List.filter_cons, decide_True]
      rw [foldl_stepAt_some, foldl_bump_eq]
      simp [bump, freshEntry, specCandidate, weightedSum, entriesFor, h, Nat.add_comm]
    · simp only [List.foldl_cons, stepAt, h, if_false, entriesFor, List.filter_cons,
        decide_False]
      exact ih

theorem get_aggregate (topLists : List (Domain × List (Item ι))) (k : ι) :
    JsMap.get (aggregate topLists) k =
      match entriesFor k (entriesOf topLists) with
      | [] => none
      | e :: fs => some (specCandidate k e.2.title (e :: fs)) := by
  rw [aggregate_eq, get_foldl_addItem, JsMap.get_nil, foldl_stepAt_none]

theorem JsMap.has_iff_mem_keys (m : JsMap ι) (key : ι) :
    m.has key = true ↔ key ∈ m.map (fun p => p.1) := by
  unfold JsMap.has
  simp only [List.any_eq_true, decide_eq_true_eq, List.mem_map]

theorem JsMap.keys_update (m : JsMap ι) (key : ι) (f : Candidate ι → Candidate ι) :
    (m.update key f).map (fun p => p.1) = m.map (fun p => p.1) := by
  induction m with
  | nil => rfl
  | cons p m ih =>
    rw [JsMap.update_cons, List.map_cons, List.map_cons, ih]
    by_cases h : p.1 = key
    · simp [h]
    · simp [h]

theorem nodup_keys_addItem (d : Domain) (w : ℚ) (m : JsMap ι) (it : Item ι)
    (h : (m.map (fun p => p.1)).Nodup) :
    ((addItem d w m it).map (fun p => p.1)).Nodup := by
  unfold addItem
  simp only
  rw [JsMap.keys_update]
  by_cases hh : m.has it.id = true
  · simpa [hh] using h
  · have hnot : it.id ∉ m.map (fun p => p.1) := fun hm => hh ((JsMap.has_iff_mem_keys m it.id).2 hm)
    have hf : m.has it.id = false := by simpa using hh
    simp only [hf, Bool.not_false, if_true, JsMap.set, Bool.false_eq_true, if_false,
      List.map_append, List.map_cons, List.map_nil]
    exact List.Nodup.append h (List.nodup_singleton _) (by simpa using hnot)

theorem nodup_keys_aggregate (topLists : List (Domain × List (Item ι))) :
    ((aggregate topLists).map (fun p => p.1)).Nodup := by
  rw [aggregate_eq]
  suffices h : ∀ (es : List (Domain × Item ι)) (m : JsMap ι), (m.map (fun p => p.1)).Nodup →
      ((es.foldl (fun m e => addItem e.1 (weightOf e.1) m e.2) m).map (fun p => p.1)).Nodup from
    h _ [] List.nodup_nil
  intro es
  induction es with
  | nil => intro m hm; exact hm
  | cons e es ih =>
    intro m hm
    exact ih _ (nodup_keys_addItem _ _ _ _ hm)

theorem JsMap.get_of_mem (m : JsMap ι) (h : (m.map (fun p => p.1)).Nodup)
    (p : ι × Candidate ι) (hp : p ∈ m) : JsMap.get m p.1 = some p.2 := by
  induction m with
  | nil => cases hp
  | cons q m ih =>
    rw [JsMap.get_cons]
    rw [List.map_cons, List.nodup_cons] at h
    rcases List.mem_cons.1 hp with rfl | hm
    · simp
    · have hq : ¬ q.1 = p.1 := by
        intro e
        apply h.1
        rw [e]
        exact List.mem_map_of_mem (fun p => p.1) hm
      simp only [hq, if_false]
      exact ih h.2 hm

theorem JsMap.mem_of_get (m : JsMap ι) (k : ι) (c : Candidate ι)
    (h : JsMap.get m k = some c) : (k, c) ∈ m := by
  induction m with
  | nil => simp [JsMap.get_nil] at h
  | cons q m ih =>
    rw [JsMap.get_cons] at h
    by_cases hq : q.1 = k
    · simp only [hq, if_true, Option.some.injEq] at h
      have : q = (k, c) := Prod.ext hq h
      rw [this]
      exact List.mem_cons_self _ _
    · simp only [hq, if_false] at h
      exact List.mem_cons_of_mem _ (ih h)

theorem mem_values_aggregate (topLists : List (Domain × List (Item ι))) (c : Candidate ι) :
    c ∈ (aggregate topLists).values ↔
      ∃ e fs, entriesFor c.id (entriesOf topLists) = e :: fs ∧
        c = specCandidate c.id e.2.title (e :: fs) := by
  constructor
  · intro hc
    obtain ⟨p, hp, rfl⟩ := List.mem_map.1 hc
    have hget := JsMap.get_of_mem _ (nodup_keys_aggregate topLists) p hp
    rw [get_aggregate] at hget
    cases hfor : entriesFor p.1 (entriesOf topLists) with
    | nil => simp [hfor] at hget
    | cons e fs =>
      simp only [hfor, Option.some.injEq] at hget
      have hid : p.2.id = p.1 := by rw [← hget]; rfl
      refine ⟨e, fs, ?_, ?_⟩
      · rw [hid]; exact hfor
      · rw [hid]; exact hget.symm
  · rintro ⟨e, fs, hfor, hc⟩
    have hget := get_aggregate topLists c.id
    rw [hfor] at hget
    simp only at hget
    rw [← hc] at hget
    exact List.mem_map.2 ⟨(c.id, c), JsMap.mem_of_get _ _ _ hget, rfl⟩

theorem nodup_ids_aggregate (topLists : List (Domain × List (Item ι))) :
    ((aggregate topLists).values.map (fun c => c.id)).Nodup := by
  have hk := nodup_keys_aggregate topLists
  have : (aggregate topLists).values.map (fun c => c.id) =
      (aggregate topLists).map (fun p => p.1) := by
    rw [JsMap.values, List.map_map]
    apply List.map_congr_left
    intro p hp
    have hget := JsMap.get_of_mem _ hk p hp
    rw [get_aggregate] at hget
    cases hfor : entriesFor p.1 (entriesOf topLists) with
    | nil => simp [hfor] at hget
    | cons e fs =>
      simp only [hfor, Option.some.injEq] at hget
      show p.2.id = p.1
      rw [← hget]
      rfl
  rw [this]
  exact hk

end MapLemmas

/-! ## Per-domain top-k (C1) -/

/-- C1. On a well-formed index and a query of the matrix's column count,
`topKBySimilarityDomain` returns the first `k` elements of the stable descending
sort by score of the rows scoring at least the domain threshold: there is a
list `s` that is a stable descending sort of the survivors (a rearrangement,
non-increasing in score, equal scores in row order), it is the only such list,
and the result is `s.take k`.  Hence the result has at most `k` entries, none
below the threshold, and is non-increasing in score. -/
theorem topKBySimilarityDomain_stable_topk {ι : Type} (store : Store ι) (userVec : List ℚ)
    (domain : Domain) (k : Nat) (thresholdSet : ThresholdSet)
    (hwf : (store domain).WellFormed) (hdim : userVec.length = (store domain).npy.cols) :
    ∃ s : List (Item ι),
      IsStableSortDesc Item.score
        (survivors userVec (store domain) ((thresholdSet domain).getD 0)) s ∧
      (∀ s', IsStableSortDesc Item.score
        (survivors userVec (store domain) ((thresholdSet domain).getD 0)) s' → s' = s) ∧
      topKBySimilarityDomain store userVec domain k thresholdSet = .ok (s.take k) ∧
      (s.take k).length ≤ k ∧
      (∀ it ∈ s.take k, (thresholdSet domain).getD 0 ≤ it.score) ∧
      (s.take k).Pairwise (fun a b => b.score ≤ a.score) := by
  have hst := arraySort_stable Item.score
    (survivors userVec (store domain) ((thresholdSet domain).getD 0))
  refine ⟨_, hst, ?_, topK_eq store userVec domain k thresholdSet hwf hdim, ?_, ?_, ?_⟩
  · intro s' hs'
    exact stableSortDesc_unique _ _ _ _ hs' hst
  · exact List.length_take_le _ _
  · intro it hit
    have hmem := hst.1.subset (List.mem_of_mem_take hit)
    exact survivors_score_ge _ _ _ _ hmem
  · exact List.Pairwise.sublist (List.take_sublist _ _) hst.2.1

theorem topKBySimilarityDomain_stable_topk_witness :
    (sampleStore Domain.skills).WellFormed ∧
    ([1] : List ℚ).length = (sampleStore Domain.skills).npy.cols ∧
    ∃ s : List (Item Nat),
      IsStableSortDesc Item.score
        (survivors [1] (sampleStore Domain.skills)
          ((SIM_THRESHOLD_STRICT Domain.skills).getD 0)) s ∧
      (∀ s', IsStableSortDesc Item.score
        (survivors [1] (sampleStore Domain.skills)
          ((SIM_THRESHOLD_STRICT Domain.skills).getD 0)) s' → s' = s) ∧
      topKBySimilarityDomain sampleStore [1] Domain.skills 1 SIM_THRESHOLD_STRICT =
        .ok (s.take 1) ∧
      (s.take 1).length ≤ 1 ∧
      (∀ it ∈ s.take 1, (SIM_THRESHOLD_STRICT Domain.skills).getD 0 ≤ it.score) ∧
      (s.take 1).Pairwise (fun a b => b.score ≤ a.score) :=
  ⟨⟨by decide, by decide⟩, by decide,
    topKBySimilarityDomain_stable_topk sampleStore [1] Domain.skills 1 SIM_THRESHOLD_STRICT
      ⟨by decide, by decide⟩ (by decide)⟩

/-! ## Lemmas on `performSearch` -/

theorem topLists_eq {ι : Type} (store : Store ι) (userVecs : UserVecs)
    (thresholdSet : ThresholdSet) (topK : Nat) (hwf : store.WellFormed)
    (hdim : DimsMatch store userVecs) :
    ∃ skills knowledge tasks occ : List (Item ι),
      topLists store userVecs thresholdSet topK =
        .ok [(Domain.skills, skills), (Domain.knowledge, knowledge),
          (Domain.tasks, tasks), (Domain.occ, occ)] := by
  unfold topLists
  rw [topK_eq store _ Domain.skills topK thresholdSet (hwf _) hdim.1,
    topK_eq store _ Domain.knowledge topK thresholdSet (hwf _) hdim.2.1,
    topK_eq store _ Domain.tasks topK thresholdSet (hwf _) hdim.2.2.1,
    topK_eq store _ Domain.occ topK thresholdSet (hwf _) hdim.2.2.2]
  exact ⟨_, _, _, _, rfl⟩

theorem performSearch_of_topLists {ι : Type} [DecidableEq ι] (store : Store ι)
    (userVecs : UserVecs) (thresholdSet : ThresholdSet) (minMatches topK : Nat)
    (tl : List (Domain × List (Item ι)))
    (htl : topLists store userVecs thresholdSet topK = .ok tl) :
    performSearch store userVecs thresholdSet minMatches topK =
      .ok ((aggregate tl).values.filter (fun r => decide (r.matchCount ≥ minMatches))) := by
  unfold performSearch
  rw [htl]
  rfl

theorem performSearch_ok {ι : Type} [DecidableEq ι] (store : Store ι) (userVecs : UserVecs)
    (thresholdSet : ThresholdSet) (minMatches topK : Nat) (hwf : store.WellFormed)
    (hdim : DimsMatch store userVecs) :
    ∃ cs, performSearch store userVecs thresholdSet minMatches topK = .ok cs := by
  obtain ⟨a, b, c, d, h⟩ := topLists_eq store userVecs thresholdSet topK hwf hdim
  exact ⟨_, performSearch_of_topLists store userVecs thresholdSet minMatches topK _ h⟩

theorem length_filter_id_of_nodup {ι : Type} [DecidableEq ι] (key : ι) (l : List (Item ι))
    (h : (l.map (fun it => it.id)).Nodup) :
    (l.filter (fun it => decide (it.id = key))).length =
      if l.any (fun it => decide (it.id = key)) then 1 else 0 := by
  induction l with
  | nil => rfl
  | cons a l ih =>
    rw [List.map_cons, List.nodup_cons] at h
    by_cases ha : a.id = key
    · have hnot : ∀ x ∈ l, ¬ x.id = key := by
        intro x hx e
        apply h.1
        rw [ha, ← e]
        exact List.mem_map_of_mem (fun it => it.id) hx
      have hf : l.filter (fun it => decide (it.id = key)) = [] := by
        rw [List.filter_eq_nil_iff]
        intro x hx
        simpa using hnot x hx
      simp [List.filter_cons, ha, hf]
    · have := ih h.2
      simp only [List.filter_cons, ha, decide_False, List.any_cons, Bool.false_or]
      simpa using this

theorem length_entriesFor_of_nodup {ι : Type} [DecidableEq ι] (key : ι)
    (tl : List (Domain × List (Item ι)))
    (h : ∀ dl ∈ tl, (dl.2.map (fun it => it.id)).Nodup) :
    (entriesFor key (entriesOf tl)).length = domainsContaining key tl := by
  induction tl with
  | nil => rfl
  | cons dl tl ih =>
    have h1 := h dl (List.mem_cons_self _ _)
    have h2 := ih (fun x hx => h x (List.mem_cons_of_mem _ hx))
    have hlen : (List.filter (fun e : Domain × Item ι => decide (e.2.id = key))
        (dl.2.map (fun it => (dl.1, it)))).length =
        (dl.2.filter (fun it => decide (it.id = key))).length := by
      rw [List.filter_map, List.length_map]
      rfl
    unfold entriesFor entriesOf domainsContaining at *
    rw [List.flatMap_cons, List.filter_append, List.length_append, hlen, h2,
      length_filter_id_of_nodup key dl.2 h1, List.filter_cons]
    by_cases hany : dl.2.any (fun it => decide (it.id = key)) = true
    · simp [hany, Nat.add_comm]
    · simp [hany]

/-! ## Evaluation of the sample stores -/

theorem sample_topLists_strict :
    topLists sampleStore sampleVecs SIM_THRESHOLD_STRICT 5 = .ok sampleLists := by
  simp [topLists, sampleVecs, topKBySimilarityDomain, sampleStore, sampleIndex, sampleLists,
    SIM_THRESHOLD_STRICT, List.range, List.range.loop, scanRow, dotCosineNormalized, arraySort,
    bind, Except.bind, pure, Except.pure]
  norm_num

theorem solo_topLists_strict :
    topLists soloStore sampleVecs SIM_THRESHOLD_STRICT 5 = .ok soloLists := by
  simp [topLists, sampleVecs, topKBySimilarityDomain, soloStore, sampleIndex, emptyIndex,
    soloLists, SIM_THRESHOLD_STRICT, List.range, List.range.loop, scanRow, dotCosineNormalized,
    arraySort, bind, Except.bind, pure, Except.pure]
  norm_num

theorem solo_topLists_relaxed :
    topLists soloStore sampleVecs SIM_THRESHOLD_RELAXED 5 = .ok soloLists := by
  simp [topLists, sampleVecs, topKBySimilarityDomain, soloStore, sampleIndex, emptyIndex,
    soloLists, SIM_THRESHOLD_RELAXED, List.range, List.range.loop, scanRow,
    dotCosineNormalized, arraySort, bind, Except.bind, pure, Except.pure]
  norm_num

theorem flat_topLists_strict :
    topLists flatStore sampleVecs SIM_THRESHOLD_STRICT 5 = .ok flatLists := by
  simp [topLists, sampleVecs, topKBySimilarityDomain, flatStore, flatIndex, flatLists,
    SIM_THRESHOLD_STRICT, List.range, List.range.loop, scanRow, dotCosineNormalized, arraySort,
    bind, Except.bind, pure, Except.pure]
  norm_num

/-! ## Evaluation of binary64 constants -/

theorem toDouble_035 : toDouble 0.35 = 3152519739159347 / 9007199254740992 := by
  rw [toDouble_eq_of_near (0.35) (-2) 6305039478318694 (by norm_num) (by norm_num) (by norm_num) (by norm_num) (by norm_num)]
  norm_num

theorem toDouble_020 : toDouble 0.20 = 3602879701896397 / 18014398509481984 := by
  rw [toDouble_eq_of_near (0.20) (-3) 7205759403792794 (by norm_num) (by norm_num) (by norm_num) (by norm_num) (by norm_num)]
  norm_num

theorem toDouble_010 : toDouble 0.10 = 3602879701896397 / 36028797018963968 := by
  rw [toDouble_eq_of_near (0.10) (-4) 7205759403792794 (by norm_num) (by norm_num) (by norm_num) (by norm_num) (by norm_num)]
  norm_num

theorem toDouble_001 : toDouble 0.01 = 5764607523034235 / 576460752303423488 := by
  rw [toDouble_eq_of_near (0.01) (-7) 5764607523034235 (by norm_num) (by norm_num) (by norm_num) (by norm_num) (by norm_num)]
  norm_num

/-! ## Weighted score (C3) -/

theorem declared_add_1 : fadd (3152519739159347 / 9007199254740992) (3152519739159347 / 9007199254740992) = 3152519739159347 / 4503599627370496 := by
  unfold fadd
  rw [toDouble_eq_of_near ((3152519739159347 / 9007199254740992) + (3152519739159347 / 9007199254740992)) (-1) 6305039478318694 (by norm_num) (by norm_num) (by norm_num) (by norm_num) (by norm_num)]
  norm_num

theorem declared_add_2 : fadd (3152519739159347 / 4503599627370496) (3602879701896397 / 18014398509481984) = 2026619832316723 / 2251799813685248 := by
  unfold fadd
  rw [toDouble_eq_of_tie_even ((3152519739159347 / 4503599627370496) + (3602879701896397 / 18014398509481984)) (-1) 8106479329266892 (by norm_num) (by norm_num) (by norm_num) (by norm_num) (by norm_num)]
  norm_num

theorem declared_add_3 : fadd (2026619832316723 / 2251799813685248) (3602879701896397 / 36028797018963968) = 9007199254740991 / 9007199254740992 := by
  unfold fadd
  rw [toDouble_eq_of_near ((2026619832316723 / 2251799813685248) + (3602879701896397 / 36028797018963968)) (-1) 9007199254740991 (by norm_num) (by norm_num) (by norm_num) (by norm_num) (by norm_num)]
  norm_num

theorem flat_mul_035 : fmul (3152519739159347 / 9007199254740992) (7 / 16) = 5516909543528857 / 36028797018963968 := by
  unfold fmul
  rw [toDouble_eq_of_near ((3152519739159347 / 9007199254740992) * (7 / 16)) (-3) 5516909543528857 (by norm_num) (by norm_num) (by norm_num) (by norm_num) (by norm_num)]
  norm_num

theorem flat_mul_020 : fmul (3602879701896397 / 18014398509481984) (7 / 16) = 6305039478318695 / 72057594037927936 := by
  unfold fmul
  rw [toDouble_eq_of_near ((3602879701896397 / 18014398509481984) * (7 / 16)) (-4) 6305039478318695 (by norm_num) (by norm_num) (by norm_num) (by norm_num) (by norm_num)]
  norm_num

theorem flat_mul_010 : fmul (3602879701896397 / 36028797018963968) (7 / 16) = 6305039478318695 / 144115188075855872 := by
  unfold fmul
  rw [toDouble_eq_of_near ((3602879701896397 / 36028797018963968) * (7 / 16)) (-5) 6305039478318695 (by norm_num) (by norm_num) (by norm_num) (by norm_num) (by norm_num)]
  norm_num

theorem flat_add_1 : fadd 0 (5516909543528857 / 36028797018963968) = 5516909543528857 / 36028797018963968 := by
  unfold fadd
  rw [toDouble_eq_of_near (0 + (5516909543528857 / 36028797018963968)) (-3) 5516909543528857 (by norm_num) (by norm_num) (by norm_num) (by norm_num) (by norm_num)]
  norm_num

theorem flat_add_2 : fadd (5516909543528857 / 36028797018963968) (6305039478318695 / 72057594037927936) = 2167357320672051 / 9007199254740992 := by
  unfold fadd
  rw [toDouble_eq_of_tie_even ((5516909543528857 / 36028797018963968) + (6305039478318695 / 72057594037927936)) (-3) 8669429282688204 (by norm_num) (by norm_num) (by norm_num) (by norm_num) (by norm_num)]
  norm_num

theorem flat_add_3 : fadd (2167357320672051 / 9007199254740992) (5516909543528857 / 36028797018963968) = 3546584706554265 / 9007199254740992 := by
  unfold fadd
  rw [toDouble_eq_of_tie_even ((2167357320672051 / 9007199254740992) + (5516909543528857 / 36028797018963968)) (-2) 7093169413108530 (by norm_num) (by norm_num) (by norm_num) (by norm_num) (by norm_num)]
  norm_num

theorem flat_add_4 : fadd (3546584706554265 / 9007199254740992) (6305039478318695 / 144115188075855872) = 7881299347898367 / 18014398509481984 := by
  unfold fadd
  rw [toDouble_eq_of_near ((3546584706554265 / 9007199254740992) + (6305039478318695 / 144115188075855872)) (-2) 7881299347898367 (by norm_num) (by norm_num) (by norm_num) (by norm_num) (by norm_num)]
  norm_num

theorem isDouble_zero : IsDouble 0 :=
  ⟨0, 0, by norm_num, by norm_num, by norm_num⟩

theorem isDouble_accumulate (fs : List (Domain × ℚ)) :
    ∀ init : ℚ, IsDouble init →
      IsDouble (fs.foldl (fun acc e => fadd acc (fmul (weightOf e.1) e.2)) init) := by
  induction fs with
  | nil => intro init h; exact h
  | cons e fs ih => intro init _; exact ih _ (toDouble_isDouble _)

theorem weightedSum_map {ι : Type} (fs : List (Domain × Item ι)) :
    weightedSum (fs.map (fun e => (e.1, e.2.score))) =
      fs.foldl (fun acc e => fadd acc (fmul ((WEIGHTS e.1).getD 0.25) e.2.score)) 0 := by
  unfold weightedSum
  rw [List.foldl_map]
  rfl

theorem flat_aggregate :
    (aggregate flatLists).values =
      [⟨7, "Software Developers", 4,
        [Domain.skills, Domain.knowledge, Domain.tasks, Domain.occ],
        [7 / 16, 7 / 16, 7 / 16, 7 / 16],
        weightedSum [(Domain.skills, 7 / 16), (Domain.knowledge, 7 / 16),
          (Domain.tasks, 7 / 16), (Domain.occ, 7 / 16)]⟩] := by
  rfl

theorem flat_weightedSum :
    weightedSum [(Domain.skills, 7 / 16), (Domain.knowledge, 7 / 16),
      (Domain.tasks, 7 / 16), (Domain.occ, 7 / 16)] = 7 / 16 - 1 / 2 ^ 54 := by
  simp only [weightedSum, List.foldl, weightOf, WEIGHTS, Option.getD_some]
  rw [toDouble_035, toDouble_020, toDouble_010, flat_mul_035, flat_mul_020, flat_mul_010,
    flat_add_1, flat_add_2, flat_add_3, flat_add_4]
  norm_num

/-- C3, refuted as stated.  The four weights are the binary64 numbers nearest to
0.35, 0.35, 0.20 and 0.10: their exact sum is `1 - 2^(-55)` and their binary64 sum
in the order of declaration is `1 - 2^(-53)`, not 1.  In `flatStore` the id `7`
scores `7/16` in each of the four domains; the decimal weights times `7/16` sum
to `7/16`, but `performSearch` returns the `weightedScore` `7/16 - 2^(-54)`
(0.43749999999999994). -/
theorem weightedScore_not_decimal_sum :
    weightOf Domain.skills + weightOf Domain.tasks + weightOf Domain.knowledge +
      weightOf Domain.occ = 1 - 1 / 2 ^ 55 ∧
    fadd (fadd (fadd (weightOf Domain.skills) (weightOf Domain.tasks))
      (weightOf Domain.knowledge)) (weightOf Domain.occ) = 1 - 1 / 2 ^ 53 ∧
    topLists flatStore sampleVecs SIM_THRESHOLD_STRICT 5 = .ok flatLists ∧
    performSearch flatStore sampleVecs SIM_THRESHOLD_STRICT MIN_MATCHES_STRICT 5 =
      .ok [⟨7, "Software Developers", 4,
        [Domain.skills, Domain.knowledge, Domain.tasks, Domain.occ],
        [7 / 16, 7 / 16, 7 / 16, 7 / 16], 7 / 16 - 1 / 2 ^ 54⟩] ∧
    (0.35 * (7 / 16) + 0.20 * (7 / 16) + 0.35 * (7 / 16) + 0.10 * (7 / 16) : ℚ) = 7 / 16 := by
  refine ⟨?_, ?_, flat_topLists_strict, ?_, by norm_num⟩
  · simp only [weightOf, WEIGHTS, Option.getD_some]
    rw [toDouble_035, toDouble_020, toDouble_010]
    norm_num
  · simp only [weightOf, WEIGHTS, Option.getD_some]
    rw [toDouble_035, toDouble_020, toDouble_010, declared_add_1, declared_add_2,
      declared_add_3]
    norm_num
  · rw [performSearch_of_topLists _ _ _ _ _ _ flat_topLists_strict, flat_aggregate,
      flat_weightedSum]
    rfl

/-- C3 (amended).  For every candidate returned by `performSearch`, `weightedScore`
is the binary64 sum, accumulated from 0 in merge order over the top-k entries
carrying its id, of the binary64 products of the entry's domain weight and its
score; it is a binary64 number.  The weights are the binary64 numbers nearest to
0.35 (skills, tasks), 0.20 (knowledge) and 0.10 (occ); the decimal constants
sum to 1, the weights to `1 - 2^(-55)`. -/
theorem performSearch_weightedScore {ι : Type} [DecidableEq ι] (store : Store ι)
    (userVecs : UserVecs) (thresholdSet : ThresholdSet) (minMatches topK : Nat)
    (tl : List (Domain × List (Item ι)))
    (htl : topLists store userVecs thresholdSet topK = .ok tl) :
    (∃ cs, performSearch store userVecs thresholdSet minMatches topK = .ok cs ∧
      ∀ c ∈ cs, c.weightedScore =
        (entriesFor c.id (entriesOf tl)).foldl
          (fun acc e => fadd acc (fmul ((WEIGHTS e.1).getD 0.25) e.2.score)) 0 ∧
        IsDouble c.weightedScore) ∧
    WEIGHTS Domain.skills = some (toDouble 0.35) ∧ WEIGHTS Domain.tasks = some (toDouble 0.35) ∧
    WEIGHTS Domain.knowledge = some (toDouble 0.20) ∧
    WEIGHTS Domain.occ = some (toDouble 0.10) ∧
    (0.35 + 0.35 + 0.20 + 0.10 : ℚ) = 1 ∧
    toDouble 0.35 + toDouble 0.35 + toDouble 0.20 + toDouble 0.10 = 1 - 1 / 2 ^ 55 := by
  refine ⟨⟨_, performSearch_of_topLists store userVecs thresholdSet minMatches topK tl htl, ?_⟩,
    rfl, rfl, rfl, rfl, by norm_num, ?_⟩
  · intro c hc
    obtain ⟨e, fs, hfor, hspec⟩ := (mem_values_aggregate tl c).1 (List.mem_filter.1 hc).1
    have hws : c.weightedScore = weightedSum ((e :: fs).map (fun e => (e.1, e.2.score))) := by
      conv_lhs => rw [hspec]
      rfl
    constructor
    · rw [hfor, hws, weightedSum_map]
    · rw [hws]
      exact isDouble_accumulate _ 0 isDouble_zero
  · rw [toDouble_035, toDouble_020, toDouble_010]
    norm_num

theorem performSearch_weightedScore_witness :
    topLists flatStore sampleVecs SIM_THRESHOLD_STRICT 5 = .ok flatLists ∧
    (∃ cs, performSearch flatStore sampleVecs SIM_THRESHOLD_STRICT 2 5 = .ok cs ∧
      ∀ c ∈ cs, c.weightedScore =
        (entriesFor c.id (entriesOf flatLists)).foldl
          (fun acc e => fadd acc (fmul ((WEIGHTS e.1).getD 0.25) e.2.score)) 0 ∧
        IsDouble c.weightedScore) ∧
    WEIGHTS Domain.skills = some (toDouble 0.35) ∧ WEIGHTS Domain.tasks = some (toDouble 0.35) ∧
    WEIGHTS Domain.knowledge = some (toDouble 0.20) ∧
    WEIGHTS Domain.occ = some (toDouble 0.10) ∧
    (0.35 + 0.35 + 0.20 + 0.10 : ℚ) = 1 ∧
    toDouble 0.35 + toDouble 0.35 + toDouble 0.20 + toDouble 0.10 = 1 - 1 / 2 ^ 55 :=
  ⟨flat_topLists_strict,
    performSearch_weightedScore flatStore sampleVecs SIM_THRESHOLD_STRICT 2 5 flatLists
      flat_topLists_strict⟩

/-! ## Adaptive search (C4) -/

/-- C4.  On a well-formed store and query vectors of matching dimensions, each
of the three profile searches returns a list, and the adaptive search returns
the strict result with level "strict (2+ matches)" if it has at least 5
candidates, else the relaxed result with level "moderate (1+ match)" if that has
at least 5, else the minimal result with level "exploratory (1+ match)" whatever
its size; it never fails.  The profiles are the stated thresholds and minimum
match counts. -/
theorem adaptiveSearch_cascade {ι : Type} [DecidableEq ι] (store : Store ι)
    (userVecs : UserVecs) (topK : Nat) (hwf : store.WellFormed)
    (hdim : DimsMatch store userVecs) :
    (∃ rs rr rm : List (Candidate ι),
      performSearch store userVecs SIM_THRESHOLD_STRICT 2 topK = .ok rs ∧
      performSearch store userVecs SIM_THRESHOLD_RELAXED 1 topK = .ok rr ∧
      performSearch store userVecs SIM_THRESHOLD_MIN 1 topK = .ok rm ∧
      adaptiveSearch store userVecs topK =
        .ok (if 5 ≤ rs.length then (rs, "strict (2+ matches)")
          else if 5 ≤ rr.length then (rr, "moderate (1+ match)")
          else (rm, "exploratory (1+ match)"))) ∧
    (SIM_THRESHOLD_STRICT Domain.skills = some 0.42 ∧
      SIM_THRESHOLD_STRICT Domain.knowledge = some 0.40 ∧
      SIM_THRESHOLD_STRICT Domain.tasks = some 0.40 ∧
      SIM_THRESHOLD_STRICT Domain.occ = some 0.38 ∧ MIN_MATCHES_STRICT = 2) ∧
    (SIM_THRESHOLD_RELAXED Domain.skills = some 0.38 ∧
      SIM_THRESHOLD_RELAXED Domain.knowledge = some 0.36 ∧
      SIM_THRESHOLD_RELAXED Domain.tasks = some 0.36 ∧
      SIM_THRESHOLD_RELAXED Domain.occ = some 0.34 ∧ MIN_MATCHES_NORMAL = 1) ∧
    (SIM_THRESHOLD_MIN Domain.skills = some 0.35 ∧
      SIM_THRESHOLD_MIN Domain.knowledge = some 0.33 ∧
      SIM_THRESHOLD_MIN Domain.tasks = some 0.33 ∧
      SIM_THRESHOLD_MIN Domain.occ = some 0.31 ∧ MIN_MATCHES_RELAXED = 1) := by
  obtain ⟨rs, hrs⟩ := performSearch_ok store userVecs SIM_THRESHOLD_STRICT 2 topK hwf hdim
  obtain ⟨rr, hrr⟩ := performSearch_ok store userVecs SIM_THRESHOLD_RELAXED 1 topK hwf hdim
  obtain ⟨rm, hrm⟩ := performSearch_ok store userVecs SIM_THRESHOLD_MIN 1 topK hwf hdim
  refine ⟨⟨rs, rr, rm, hrs, hrr, hrm, ?_⟩, ⟨rfl, rfl, rfl, rfl, rfl⟩, ⟨rfl, rfl, rfl, rfl, rfl⟩,
    ⟨rfl, rfl, rfl, rfl, rfl⟩⟩
  unfold adaptiveSearch
  simp only [MIN_MATCHES_STRICT, MIN_MATCHES_NORMAL, MIN_MATCHES_RELAXED, hrs, hrr, hrm]
  by_cases h1 : 5 ≤ rs.length
  · have h1' : ¬ rs.length < 5 := by omega
    simp [h1, h1', bind, Except.bind, pure, Except.pure]
  · have h1' : rs.length < 5 := by omega
    by_cases h2 : 5 ≤ rr.length
    · have h2' : ¬ rr.length < 5 := by omega
      simp [h1, h1', h2, h2', bind, Except.bind, pure, Except.pure]
    · have h2' : rr.length < 5 := by omega
      simp [h1, h1', h2, h2', bind, Except.bind, pure, Except.pure]

theorem adaptiveSearch_cascade_witness :
    sampleStore.WellFormed ∧ DimsMatch sampleStore sampleVecs ∧
    ((∃ rs rr rm : List (Candidate Nat),
      performSearch sampleStore sampleVecs SIM_THRESHOLD_STRICT 2 5 = .ok rs ∧
      performSearch sampleStore sampleVecs SIM_THRESHOLD_RELAXED 1 5 = .ok rr ∧
      performSearch sampleStore sampleVecs SIM_THRESHOLD_MIN 1 5 = .ok rm ∧
      adaptiveSearch sampleStore sampleVecs 5 =
        .ok (if 5 ≤ rs.length then (rs, "strict (2+ matches)")
          else if 5 ≤ rr.length then (rr, "moderate (1+ match)")
          else (rm, "exploratory (1+ match)"))) ∧
    (SIM_THRESHOLD_STRICT Domain.skills = some 0.42 ∧
      SIM_THRESHOLD_STRICT Domain.knowledge = some 0.40 ∧
      SIM_THRESHOLD_STRICT Domain.tasks = some 0.40 ∧
      SIM_THRESHOLD_STRICT Domain.occ = some 0.38 ∧ MIN_MATCHES_STRICT = 2) ∧
    (SIM_THRESHOLD_RELAXED Domain.skills = some 0.38 ∧
      SIM_THRESHOLD_RELAXED Domain.knowledge = some 0.36 ∧
      SIM_THRESHOLD_RELAXED Domain.tasks = some 0.36 ∧
      SIM_THRESHOLD_RELAXED Domain.occ = some 0.34 ∧ MIN_MATCHES_NORMAL = 1) ∧
    (SIM_THRESHOLD_MIN Domain.skills = some 0.35 ∧
      SIM_THRESHOLD_MIN Domain.knowledge = some 0.33 ∧
      SIM_THRESHOLD_MIN Domain.tasks = some 0.33 ∧
      SIM_THRESHOLD_MIN Domain.occ = some 0.31 ∧ MIN_MATCHES_RELAXED = 1)) :=
  ⟨fun _ => (⟨by decide, by decide⟩ : sampleIndex.WellFormed),
    ⟨by decide, by decide, by decide, by decide⟩,
    adaptiveSearch_cascade sampleStore sampleVecs 5
      (fun _ => (⟨by decide, by decide⟩ : sampleIndex.WellFormed))
      ⟨by decide, by decide, by decide, by decide⟩⟩

/-! ## Final ranking (C6, C7) -/

theorem arraySort_pair_keep {α : Type} (cmp : α → α → ℚ) (a b : α) (h : cmp a b ≤ 0) :
    arraySort cmp [a, b] = [a, b] := by
  simp [arraySort, List.insertionSort, List.orderedInsert, h]

theorem arraySort_pair_swap {α : Type} (cmp : α → α → ℚ) (a b : α) (h : 0 < cmp b a) :
    arraySort cmp [b, a] = [a, b] := by
  simp [arraySort, List.insertionSort, List.orderedInsert, not_le.2 h]

theorem finalCompare_matchCount_ge {ι : Type} (a b : RankedResult ι)
    (h : finalCompare a b ≤ 0) : b.matchCount ≤ a.matchCount := by
  unfold finalCompare at h
  by_cases hne : b.matchCount ≠ a.matchCount
  · rw [if_pos hne] at h
    have : (b.matchCount : ℚ) ≤ (a.matchCount : ℚ) := by linarith
    exact_mod_cast this
  · exact le_of_eq (not_not.1 hne)

theorem finalCompare_matchCount_le {ι : Type} (a b : RankedResult ι)
    (h : ¬ finalCompare a b ≤ 0) : a.matchCount ≤ b.matchCount := by
  unfold finalCompare at h
  by_cases hne : b.matchCount ≠ a.matchCount
  · rw [if_pos hne] at h
    have : (a.matchCount : ℚ) ≤ (b.matchCount : ℚ) := by linarith
    exact_mod_cast this
  · exact le_of_eq (not_not.1 hne).symm

theorem orderedInsert_matchCount_sorted {ι : Type} (a : RankedResult ι) :
    ∀ l : List (RankedResult ι), l.Pairwise (fun x y => y.matchCount ≤ x.matchCount) →
      (l.orderedInsert (fun x y => finalCompare x y ≤ 0) a).Pairwise
        (fun x y => y.matchCount ≤ x.matchCount) := by
  intro l
  induction l with
  | nil => intro _; simp
  | cons b l ih =>
    intro hl
    have hb := List.pairwise_cons.1 hl
    by_cases h : finalCompare a b ≤ 0
    · simp only [List.orderedInsert, h, if_true]
      refine List.pairwise_cons.2 ⟨?_, hl⟩
      intro y hy
      have hab := finalCompare_matchCount_ge a b h
      rcases List.mem_cons.1 hy with rfl | hy'
      · exact hab
      · exact le_trans (hb.1 y hy') hab
    · simp only [List.orderedInsert, h, if_false]
      refine List.pairwise_cons.2 ⟨?_, ih hb.2⟩
      intro y hy
      rcases (List.mem_orderedInsert _).1 hy with rfl | hy'
      · exact finalCompare_matchCount_le _ b h
      · exact hb.1 y hy'

theorem finalCompare_of_gap {ι : Type} (a b : RankedResult ι)
    (hmc : a.matchCount = b.matchCount)
    (h : toDouble 0.01 < |fsub b.finalScore a.finalScore|) :
    finalCompare a b = fsub b.finalScore a.finalScore := by
  simp only [finalCompare, hmc, ne_eq, not_true_eq_false, if_false, gt_iff_lt, h, if_true]

theorem finalCompare_of_close {ι : Type} (a b : RankedResult ι)
    (hmc : a.matchCount = b.matchCount)
    (h : |fsub b.finalScore a.finalScore| ≤ toDouble 0.01) :
    finalCompare a b = fsub b.avgScore a.avgScore := by
  simp only [finalCompare, hmc, ne_eq, not_true_eq_false, if_false, gt_iff_lt, not_lt.2 h]

theorem abs_fsub_comm (x y : ℚ) : |fsub x y| = |fsub y x| := by
  rw [fsub_antisymm x y, abs_neg]

theorem toDouble_050 : toDouble 0.50 = 1 / 2 := by
  rw [toDouble_eq_of_near (0.50) (-1) 4503599627370496 (by norm_num) (by norm_num) (by norm_num) (by norm_num) (by norm_num)]
  norm_num

theorem toDouble_0505 : toDouble 0.505 = 4548635623644201 / 9007199254740992 := by
  rw [toDouble_eq_of_near (0.505) (-1) 4548635623644201 (by norm_num) (by norm_num) (by norm_num) (by norm_num) (by norm_num)]
  norm_num

theorem toDouble_060 : toDouble 0.60 = 5404319552844595 / 9007199254740992 := by
  rw [toDouble_eq_of_near (0.60) (-1) 5404319552844595 (by norm_num) (by norm_num) (by norm_num) (by norm_num) (by norm_num)]
  norm_num

theorem toDouble_055 : toDouble 0.55 = 2476979795053773 / 4503599627370496 := by
  rw [toDouble_eq_of_near (0.55) (-1) 4953959590107546 (by norm_num) (by norm_num) (by norm_num) (by norm_num) (by norm_num)]
  norm_num

theorem ranked_gap : fsub (4548635623644201 / 9007199254740992) (1 / 2) = 45035996273705 / 9007199254740992 := by
  unfold fsub
  rw [toDouble_eq_of_near ((4548635623644201 / 9007199254740992) - (1 / 2)) (-8) 5764607523034240 (by norm_num) (by norm_num) (by norm_num) (by norm_num) (by norm_num)]
  norm_num

theorem plain_add_1 : fadd (1 / 2) 0 = 1 / 2 := by
  unfold fadd
  rw [toDouble_eq_of_near ((1 / 2) + 0) (-1) 4503599627370496 (by norm_num) (by norm_num) (by norm_num) (by norm_num) (by norm_num)]
  norm_num

theorem novel_mul : fmul 1 (5764607523034235 / 576460752303423488) = 5764607523034235 / 576460752303423488 := by
  unfold fmul
  rw [toDouble_eq_of_near (1 * (5764607523034235 / 576460752303423488)) (-7) 5764607523034235 (by norm_num) (by norm_num) (by norm_num) (by norm_num) (by norm_num)]
  norm_num

theorem novel_add : fadd (1 / 2) (5764607523034235 / 576460752303423488) = 2296835809958953 / 4503599627370496 := by
  unfold fadd
  rw [toDouble_eq_of_near ((1 / 2) + (5764607523034235 / 576460752303423488)) (-1) 4593671619917906 (by norm_num) (by norm_num) (by norm_num) (by norm_num) (by norm_num)]
  norm_num

theorem novel_gap : fsub (2296835809958953 / 4503599627370496) (1 / 2) = 45035996273705 / 4503599627370496 := by
  unfold fsub
  rw [toDouble_eq_of_near ((2296835809958953 / 4503599627370496) - (1 / 2)) (-7) 5764607523034240 (by norm_num) (by norm_num) (by norm_num) (by norm_num) (by norm_num)]
  norm_num

theorem avg060_add_1 : fadd 0 (5404319552844595 / 9007199254740992) = 5404319552844595 / 9007199254740992 := by
  unfold fadd
  rw [toDouble_eq_of_near (0 + (5404319552844595 / 9007199254740992)) (-1) 5404319552844595 (by norm_num) (by norm_num) (by norm_num) (by norm_num) (by norm_num)]
  norm_num

theorem avg060_add_2 : fadd (5404319552844595 / 9007199254740992) (5404319552844595 / 9007199254740992) = 5404319552844595 / 4503599627370496 := by
  unfold fadd
  rw [toDouble_eq_of_near ((5404319552844595 / 9007199254740992) + (5404319552844595 / 9007199254740992)) (0) 5404319552844595 (by norm_num) (by norm_num) (by norm_num) (by norm_num) (by norm_num)]
  norm_num

theorem avg060_div : fdiv (5404319552844595 / 4503599627370496) 2 = 5404319552844595 / 9007199254740992 := by
  unfold fdiv
  rw [toDouble_eq_of_near ((5404319552844595 / 4503599627370496) / 2) (-1) 5404319552844595 (by norm_num) (by norm_num) (by norm_num) (by norm_num) (by norm_num)]
  norm_num

theorem avg055_add_1 : fadd 0 (2476979795053773 / 4503599627370496) = 2476979795053773 / 4503599627370496 := by
  unfold fadd
  rw [toDouble_eq_of_near (0 + (2476979795053773 / 4503599627370496)) (-1) 4953959590107546 (by norm_num) (by norm_num) (by norm_num) (by norm_num) (by norm_num)]
  norm_num

theorem avg055_add_2 : fadd (2476979795053773 / 4503599627370496) (2476979795053773 / 4503599627370496) = 2476979795053773 / 2251799813685248 := by
  unfold fadd
  rw [toDouble_eq_of_near ((2476979795053773 / 4503599627370496) + (2476979795053773 / 4503599627370496)) (0) 4953959590107546 (by norm_num) (by norm_num) (by norm_num) (by norm_num) (by norm_num)]
  norm_num

theorem avg055_div : fdiv (2476979795053773 / 2251799813685248) 2 = 2476979795053773 / 4503599627370496 := by
  unfold fdiv
  rw [toDouble_eq_of_near ((2476979795053773 / 2251799813685248) / 2) (-1) 4953959590107546 (by norm_num) (by norm_num) (by norm_num) (by norm_num) (by norm_num)]
  norm_num

/-- C6.  For two ranked results of equal `matchCount` whose `avgScore` fields are
binary64 numbers, the final sort places the one with the higher `finalScore`
first when the difference of the `finalScore` fields, as the program computes
it, exceeds the constant 0.01 in magnitude, and otherwise the one with the
higher `avgScore`.  Here `finalScore` is the binary64 value of
`weightedScore + prefBoost + appliedBoost + diversityScore * 0.01` and
`avgScore` that of the sum of the per-domain scores divided by their number;
both are binary64 numbers. -/
theorem finalCompare_tiebreak {ι : Type} (a b : RankedResult ι)
    (hmc : a.matchCount = b.matchCount)
    (haa : IsDouble a.avgScore) (hab : IsDouble b.avgScore) :
    (toDouble 0.01 < |fsub b.finalScore a.finalScore| → b.finalScore < a.finalScore →
      finalCompare a b < 0 ∧ 0 < finalCompare b a ∧
      arraySort finalCompare [a, b] = [a, b] ∧ arraySort finalCompare [b, a] = [a, b]) ∧
    (|fsub b.finalScore a.finalScore| ≤ toDouble 0.01 → b.avgScore < a.avgScore →
      finalCompare a b < 0 ∧ 0 < finalCompare b a ∧
      arraySort finalCompare [a, b] = [a, b] ∧ arraySort finalCompare [b, a] = [a, b]) ∧
    ∀ (prefs : Prefs) (answers : Answers) (r : Scored ι),
      (rankOne prefs answers r).finalScore =
        fadd (fadd (fadd r.weightedScore (rankOne prefs answers r).prefBoost)
          (rankOne prefs answers r).appliedBoost)
          (fmul (r.diversityScore : ℚ) (toDouble 0.01)) ∧
      (rankOne prefs answers r).prefBoost = preferenceBoost (some r.title) prefs ∧
      (rankOne prefs answers r).appliedBoost = getAppliedBoost r.title answers ∧
      (rankOne prefs answers r).avgScore =
        fdiv (r.scores.foldl (fun x y => fadd x y) 0) (r.scores.length : ℚ) ∧
      (rankOne prefs answers r).toScored = r ∧
      IsDouble (rankOne prefs answers r).finalScore ∧
      IsDouble (rankOne prefs answers r).avgScore := by
  have key : ∀ x y : RankedResult ι, finalCompare x y < 0 → 0 < finalCompare y x →
      finalCompare x y < 0 ∧ 0 < finalCompare y x ∧
      arraySort finalCompare [x, y] = [x, y] ∧ arraySort finalCompare [y, x] = [x, y] :=
    fun x y h1 h2 =>
      ⟨h1, h2, arraySort_pair_keep _ _ _ (le_of_lt h1), arraySort_pair_swap _ _ _ h2⟩
  have hc0 : (0 : ℚ) ≤ toDouble 0.01 := toDouble_nonneg _ (by norm_num)
  refine ⟨?_, ?_, ?_⟩
  · intro hgap hlt
    have hgap' : toDouble 0.01 < |fsub a.finalScore b.finalScore| := by
      rwa [abs_fsub_comm]
    have hle : fsub b.finalScore a.finalScore ≤ 0 := toDouble_nonpos _ (by linarith)
    have hne : fsub b.finalScore a.finalScore ≠ 0 := by
      intro h0
      rw [h0, abs_zero] at hgap
      linarith
    have hneg : fsub b.finalScore a.finalScore < 0 := lt_of_le_of_ne hle hne
    apply key
    · rw [finalCompare_of_gap a b hmc hgap]
      exact hneg
    · rw [finalCompare_of_gap b a hmc.symm hgap', fsub_antisymm b.finalScore a.finalScore]
      linarith
  · intro hclose hlt
    have hclose' : |fsub a.finalScore b.finalScore| ≤ toDouble 0.01 := by
      rwa [abs_fsub_comm]
    apply key
    · rw [finalCompare_of_close a b hmc hclose]
      exact fsub_neg_of_lt hab haa hlt
    · rw [finalCompare_of_close b a hmc.symm hclose']
      exact fsub_pos_of_lt hab haa hlt
  · intro prefs answers r
    exact ⟨rfl, rfl, rfl, rfl, rfl, toDouble_isDouble _, toDouble_isDouble _⟩

theorem finalCompare_tiebreak_witness :
    rankedA.matchCount = rankedB.matchCount ∧
    IsDouble rankedA.avgScore ∧ IsDouble rankedB.avgScore ∧
    |fsub rankedB.finalScore rankedA.finalScore| ≤ toDouble 0.01 ∧
    rankedB.avgScore < rankedA.avgScore ∧
    arraySort finalCompare [rankedA, rankedB] = [rankedA, rankedB] ∧
    arraySort finalCompare [rankedB, rankedA] = [rankedA, rankedB] :=
  have hgap : |fsub rankedB.finalScore rankedA.finalScore| ≤ toDouble 0.01 := by
    show |fsub (toDouble 0.505) (toDouble 0.50)| ≤ toDouble 0.01
    rw [toDouble_0505, toDouble_050, ranked_gap, toDouble_001]
    norm_num [abs_le]
  have havg : rankedB.avgScore < rankedA.avgScore := by
    show toDouble 0.55 < toDouble 0.60
    rw [toDouble_055, toDouble_060]
    norm_num
  ⟨rfl, toDouble_isDouble _, toDouble_isDouble _, hgap, havg,
    ((finalCompare_tiebreak rankedA rankedB rfl (toDouble_isDouble _)
      (toDouble_isDouble _)).2.1 hgap havg).2.2⟩

theorem preferenceBoost_noPrefs (title : Option String) : preferenceBoost title noPrefs = 0 := by
  simp [preferenceBoost, noPrefs, readPreferences]

theorem getAppliedBoost_noAnswers :
    getAppliedBoost "Budget Analysts" noAnswers = 0 ∧
    getAppliedBoost "Cost Estimators" noAnswers = 0 := by
  have h1 : mentionsPractical (allText noAnswers) = false := by decide
  have h2 : onlyTheoretical (allText noAnswers) = false := by decide
  constructor <;> simp [getAppliedBoost, addIf, h1, h2]

/-- The boundary case of the comparator.  Two results of equal `matchCount` and
`weightedScore` 0.5 without boosts, with `diversityScore` 0 and 1: the second
gets the `finalScore` 0.51, the computed difference 0.010000000000000009 exceeds
the constant 0.01, and the final sort puts it first although its `avgScore` is
the lower one. -/
theorem finalRanked_boundary :
    (rankOne noPrefs noAnswers plainScored).finalScore = 1 / 2 ∧
    (rankOne noPrefs noAnswers novelScored).finalScore =
      2296835809958953 / 4503599627370496 ∧
    fsub (rankOne noPrefs noAnswers novelScored).finalScore
      (rankOne noPrefs noAnswers plainScored).finalScore =
        45035996273705 / 4503599627370496 ∧
    toDouble 0.01 < 45035996273705 / 4503599627370496 ∧
    (rankOne noPrefs noAnswers novelScored).avgScore <
      (rankOne noPrefs noAnswers plainScored).avgScore ∧
    finalRanked noPrefs noAnswers [plainScored, novelScored] =
      [rankOne noPrefs noAnswers novelScored, rankOne noPrefs noAnswers plainScored] := by
  have hp : (rankOne noPrefs noAnswers plainScored).finalScore = 1 / 2 := by
    show fadd (fadd (fadd (toDouble 0.50) (preferenceBoost (some "Budget Analysts") noPrefs))
      (getAppliedBoost "Budget Analysts" noAnswers)) (fmul ((0 : ℕ) : ℚ) (toDouble 0.01)) = 1 / 2
    rw [preferenceBoost_noPrefs, getAppliedBoost_noAnswers.1, toDouble_050, plain_add_1,
      plain_add_1]
    unfold fmul
    rw [Nat.cast_zero, zero_mul, toDouble_zero, plain_add_1]
  have hn : (rankOne noPrefs noAnswers novelScored).finalScore =
      2296835809958953 / 4503599627370496 := by
    show fadd (fadd (fadd (toDouble 0.50) (preferenceBoost (some "Cost Estimators") noPrefs))
      (getAppliedBoost "Cost Estimators" noAnswers)) (fmul ((1 : ℕ) : ℚ) (toDouble 0.01)) = _
    rw [preferenceBoost_noPrefs, getAppliedBoost_noAnswers.2, toDouble_050, plain_add_1,
      plain_add_1, Nat.cast_one, toDouble_001, novel_mul, novel_add]
  have hap : (rankOne noPrefs noAnswers plainScored).avgScore =
      5404319552844595 / 9007199254740992 := by
    show fdiv (fadd (fadd 0 (toDouble 0.60)) (toDouble 0.60)) ((2 : ℕ) : ℚ) = _
    rw [toDouble_060, avg060_add_1, avg060_add_2, Nat.cast_ofNat, avg060_div]
  have han : (rankOne noPrefs noAnswers novelScored).avgScore =
      2476979795053773 / 4503599627370496 := by
    show fdiv (fadd (fadd 0 (toDouble 0.55)) (toDouble 0.55)) ((2 : ℕ) : ℚ) = _
    rw [toDouble_055, avg055_add_1, avg055_add_2, Nat.cast_ofNat, avg055_div]
  have hgap : fsub (rankOne noPrefs noAnswers novelScored).finalScore
      (rankOne noPrefs noAnswers plainScored).finalScore =
        45035996273705 / 4503599627370496 := by
    rw [hp, hn, novel_gap]
  have hc : toDouble 0.01 < 45035996273705 / 4503599627370496 := by
    rw [toDouble_001]
    norm_num
  have havg : (rankOne noPrefs noAnswers novelScored).avgScore <
      (rankOne noPrefs noAnswers plainScored).avgScore := by
    rw [hap, han]
    norm_num
  refine ⟨hp, hn, hgap, hc, havg, ?_⟩
  have hcmp : 0 < finalCompare (rankOne noPrefs noAnswers plainScored)
      (rankOne noPrefs noAnswers novelScored) := by
    have hg : toDouble 0.01 < |fsub (rankOne noPrefs noAnswers novelScored).finalScore
        (rankOne noPrefs noAnswers plainScored).finalScore| := by
      rw [hgap, abs_of_pos (by norm_num)]
      exact hc
    rw [finalCompare_of_gap (rankOne noPrefs noAnswers plainScored)
      (rankOne noPrefs noAnswers novelScored) rfl hg, hgap]
    norm_num
  show arraySort finalCompare [rankOne noPrefs noAnswers plainScored,
    rankOne noPrefs noAnswers novelScored] = _
  exact arraySort_pair_swap _ _ _ hcmp

/-- C7.  The final ranked list is a rearrangement of the input results (each with
its ranking fields attached) and is non-increasing in `matchCount`, whatever the
boosts and diversity scores are. -/
theorem finalRanked_perm_matchCount_sorted {ι : Type} (prefs : Prefs) (answers : Answers)
    (results : List (Scored ι)) :
    ((finalRanked prefs answers results).map (fun r => r.toScored)).Perm results ∧
    (finalRanked prefs answers results).Perm (results.map (rankOne prefs answers)) ∧
    (finalRanked prefs answers results).Pairwise
      (fun x y => y.matchCount ≤ x.matchCount) := by
  have hperm : (finalRanked prefs answers results).Perm (results.map (rankOne prefs answers)) :=
    List.perm_insertionSort _ _
  refine ⟨?_, hperm, ?_⟩
  · have h1 := hperm.map (fun r => r.toScored)
    have h2 : (results.map (rankOne prefs answers)).map (fun r => r.toScored) = results := by
      rw [List.map_map]
      conv_rhs => rw [← List.map_id results]
      apply List.map_congr_left
      intro r _
      rfl
    rwa [h2] at h1
  · unfold finalRanked arraySort
    induction results.map (rankOne prefs answers) with
    | nil => simp
    | cons a l ih => exact orderedInsert_matchCount_sorted a _ ih

/-! ## Order independence of aggregation (C8) -/

theorem unit_mul_035 : fmul (3152519739159347 / 9007199254740992) 1 = 3152519739159347 / 9007199254740992 := by
  unfold fmul
  rw [toDouble_eq_of_near ((3152519739159347 / 9007199254740992) * 1) (-2) 6305039478318694 (by norm_num) (by norm_num) (by norm_num) (by norm_num) (by norm_num)]
  norm_num

theorem unit_mul_020 : fmul (3602879701896397 / 18014398509481984) 1 = 3602879701896397 / 18014398509481984 := by
  unfold fmul
  rw [toDouble_eq_of_near ((3602879701896397 / 18014398509481984) * 1) (-3) 7205759403792794 (by norm_num) (by norm_num) (by norm_num) (by norm_num) (by norm_num)]
  norm_num

theorem unit_mul_010 : fmul (3602879701896397 / 36028797018963968) 1 = 3602879701896397 / 36028797018963968 := by
  unfold fmul
  rw [toDouble_eq_of_near ((3602879701896397 / 36028797018963968) * 1) (-4) 7205759403792794 (by norm_num) (by norm_num) (by norm_num) (by norm_num) (by norm_num)]
  norm_num

theorem unit_add_1 : fadd 0 (3152519739159347 / 9007199254740992) = 3152519739159347 / 9007199254740992 := by
  unfold fadd
  rw [toDouble_eq_of_near (0 + (3152519739159347 / 9007199254740992)) (-2) 6305039478318694 (by norm_num) (by norm_num) (by norm_num) (by norm_num) (by norm_num)]
  norm_num

theorem merge_add_2 : fadd (3152519739159347 / 9007199254740992) (3602879701896397 / 18014398509481984) = 2476979795053773 / 4503599627370496 := by
  unfold fadd
  rw [toDouble_eq_of_tie_odd ((3152519739159347 / 9007199254740992) + (3602879701896397 / 18014398509481984)) (-1) 4953959590107545 (by norm_num) (by norm_num) (by norm_num) (by norm_num) (by norm_num)]
  norm_num

theorem merge_add_3 : fadd (2476979795053773 / 4503599627370496) (3152519739159347 / 9007199254740992) = 8106479329266893 / 9007199254740992 := by
  unfold fadd
  rw [toDouble_eq_of_near ((2476979795053773 / 4503599627370496) + (3152519739159347 / 9007199254740992)) (-1) 8106479329266893 (by norm_num) (by norm_num) (by norm_num) (by norm_num) (by norm_num)]
  norm_num

theorem merge_add_4 : fadd (8106479329266893 / 9007199254740992) (3602879701896397 / 36028797018963968) = 1 := by
  unfold fadd
  rw [toDouble_eq_of_near ((8106479329266893 / 9007199254740992) + (3602879701896397 / 36028797018963968)) (0) 4503599627370496 (by norm_num) (by norm_num) (by norm_num) (by norm_num) (by norm_num)]
  norm_num

theorem unit_weightedSum :
    weightedSum [(Domain.skills, 1), (Domain.knowledge, 1), (Domain.tasks, 1),
      (Domain.occ, 1)] = 1 := by
  simp only [weightedSum, List.foldl, weightOf, WEIGHTS, Option.getD_some]
  rw [toDouble_035, toDouble_020, toDouble_010, unit_mul_035, unit_mul_020, unit_mul_010,
    unit_add_1, merge_add_2, merge_add_3, merge_add_4]

theorem unitSwapped_weightedSum :
    weightedSum [(Domain.skills, 1), (Domain.tasks, 1), (Domain.knowledge, 1),
      (Domain.occ, 1)] = 1 - 1 / 2 ^ 53 := by
  simp only [weightedSum, List.foldl, weightOf, WEIGHTS, Option.getD_some]
  rw [toDouble_035, toDouble_020, toDouble_010, unit_mul_035, unit_mul_020, unit_mul_010,
    unit_add_1, declared_add_1, declared_add_2, declared_add_3]
  norm_num

theorem zip_specCandidate {ι : Type} (key : ι) (title : String) (fs : List (Domain × Item ι)) :
    (specCandidate key title fs).domains.zip (specCandidate key title fs).scores =
      fs.map (fun e => (e.1, e.2.score)) := by
  simp [specCandidate, List.zip_map']

theorem weightedScore_eq_weightedSum {ι : Type} [DecidableEq ι]
    (tl : List (Domain × List (Item ι))) :
    ∀ c ∈ (aggregate tl).values, c.weightedScore = weightedSum (c.domains.zip c.scores) := by
  intro c hc
  obtain ⟨e, fs, -, hspec⟩ := (mem_values_aggregate tl c).1 hc
  rw [hspec, zip_specCandidate]
  rfl

theorem aggregate_perm_forward {ι : Type} [DecidableEq ι]
    (tl tl' : List (Domain × List (Item ι))) (hperm : tl.Perm tl') (hta : TitlesAgree tl) :
    ∀ c ∈ (aggregate tl).values, ∃ c' ∈ (aggregate tl').values, SameCandidate c c' := by
  intro c hc
  obtain ⟨e, fs, hfor, hspec⟩ := (mem_values_aggregate tl c).1 hc
  have hes : (entriesOf tl).Perm (entriesOf tl') := List.Perm.flatMap_right _ hperm
  have hfp : (entriesFor c.id (entriesOf tl')).Perm (e :: fs) := by
    rw [← hfor]
    exact (List.Perm.filter _ hes).symm
  cases hfor' : entriesFor c.id (entriesOf tl') with
  | nil =>
    rw [hfor'] at hfp
    exact absurd hfp.length_eq (by simp)
  | cons e' fs' =>
    rw [hfor'] at hfp
    have hin : specCandidate c.id e'.2.title (e' :: fs') ∈ (aggregate tl').values :=
      (mem_values_aggregate tl' _).2 ⟨e', fs', hfor', rfl⟩
    refine ⟨_, hin, ?_⟩
    have he' : e' ∈ entriesFor c.id (entriesOf tl') := by rw [hfor']; exact List.mem_cons_self _ _
    have he : e ∈ entriesFor c.id (entriesOf tl) := by rw [hfor]; exact List.mem_cons_self _ _
    have he'1 := List.mem_filter.1 he'
    have he1 := List.mem_filter.1 he
    have hid' : e'.2.id = c.id := by simpa using he'1.2
    have hid : e.2.id = c.id := by simpa using he1.2
    have htitle : e'.2.title = e.2.title :=
      hta e' (hes.symm.subset he'1.1) e he1.1 (hid'.trans hid.symm)
    rw [hspec]
    refine ⟨rfl, htitle, hfp.length_eq, ?_⟩
    rw [zip_specCandidate, zip_specCandidate]
    exact hfp.map (fun e : Domain × Item ι => (e.1, e.2.score))

theorem titlesAgree_perm {ι : Type} (tl tl' : List (Domain × List (Item ι)))
    (hperm : tl.Perm tl') (hta : TitlesAgree tl) : TitlesAgree tl' := by
  have hes : (entriesOf tl).Perm (entriesOf tl') := List.Perm.flatMap_right _ hperm
  intro e₁ h₁ e₂ h₂ hid
  exact hta e₁ (hes.symm.subset h₁) e₂ (hes.symm.subset h₂) hid

theorem unitLists_titlesAgree : TitlesAgree unitLists := by
  have h : ∀ e ∈ entriesOf unitLists, e.2.title = "Software Developers" := by
    intro e he
    simp only [entriesOf, unitLists, List.flatMap_cons, List.flatMap_nil, List.map_cons,
      List.map_nil, List.append_nil, List.singleton_append, List.mem_cons, List.not_mem_nil,
      or_false] at he
    rcases he with rfl | rfl | rfl | rfl <;> rfl
  intro e₁ h₁ e₂ h₂ _
  rw [h e₁ h₁, h e₂ h₂]

theorem unitLists_perm : unitLists.Perm unitListsSwapped :=
  List.Perm.cons _ (List.Perm.swap _ _ _)

/-- C8, refuted as stated.  In `unitLists` the id `7` scores 1 in each of the four
domains, always under the same title.  Merging the domains in the order skills,
knowledge, tasks, occ yields the `weightedScore` 1; merging them in the order
skills, tasks, knowledge, occ yields `1 - 2^(-53)` (0.9999999999999999): the
binary64 additions round differently, so `weightedScore` depends on the
processing order. -/
theorem weightedScore_depends_on_order :
    unitLists.Perm unitListsSwapped ∧ TitlesAgree unitLists ∧
    (aggregate unitLists).values =
      [⟨7, "Software Developers", 4,
        [Domain.skills, Domain.knowledge, Domain.tasks, Domain.occ], [1, 1, 1, 1], 1⟩] ∧
    (aggregate unitListsSwapped).values =
      [⟨7, "Software Developers", 4,
        [Domain.skills, Domain.tasks, Domain.knowledge, Domain.occ], [1, 1, 1, 1],
        1 - 1 / 2 ^ 53⟩] ∧
    (1 : ℚ) ≠ 1 - 1 / 2 ^ 53 := by
  refine ⟨unitLists_perm, unitLists_titlesAgree, ?_, ?_, by norm_num⟩
  · have h : (aggregate unitLists).values =
        [⟨7, "Software Developers", 4,
          [Domain.skills, Domain.knowledge, Domain.tasks, Domain.occ], [1, 1, 1, 1],
          weightedSum [(Domain.skills, 1), (Domain.knowledge, 1), (Domain.tasks, 1),
            (Domain.occ, 1)]⟩] := rfl
    rw [h, unit_weightedSum]
  · have h : (aggregate unitListsSwapped).values =
        [⟨7, "Software Developers", 4,
          [Domain.skills, Domain.tasks, Domain.knowledge, Domain.occ], [1, 1, 1, 1],
          weightedSum [(Domain.skills, 1), (Domain.tasks, 1), (Domain.knowledge, 1),
            (Domain.occ, 1)]⟩] := rfl
    rw [h, unitSwapped_weightedSum]

/-- C8 (amended).  When entries carrying the same id carry the same title, merging
the per-domain lists in any permuted order yields the same set of candidates:
ids are distinct within each result, and every candidate of one result has a
counterpart in the other with the same id, title and `matchCount` and the same
pairs of domain and score up to order.  The `weightedScore` of a candidate is
the binary64 sum of weight times score over its own `domains` and `scores` in
their insertion order, so it follows the processing order. -/
theorem aggregate_order_independent {ι : Type} [DecidableEq ι]
    (tl tl' : List (Domain × List (Item ι))) (hperm : tl.Perm tl') (hta : TitlesAgree tl) :
    ((aggregate tl).values.map (fun c => c.id)).Nodup ∧
    ((aggregate tl').values.map (fun c => c.id)).Nodup ∧
    (∀ c ∈ (aggregate tl).values, ∃ c' ∈ (aggregate tl').values, SameCandidate c c') ∧
    (∀ c' ∈ (aggregate tl').values, ∃ c ∈ (aggregate tl).values, SameCandidate c' c) ∧
    (∀ c ∈ (aggregate tl).values, c.weightedScore = weightedSum (c.domains.zip c.scores)) ∧
    (∀ c' ∈ (aggregate tl').values,
      c'.weightedScore = weightedSum (c'.domains.zip c'.scores)) :=
  ⟨nodup_ids_aggregate tl, nodup_ids_aggregate tl', aggregate_perm_forward tl tl' hperm hta,
    aggregate_perm_forward tl' tl hperm.symm (titlesAgree_perm tl tl' hperm hta),
    weightedScore_eq_weightedSum tl, weightedScore_eq_weightedSum tl'⟩

theorem aggregate_order_independent_witness :
    unitLists.Perm unitListsSwapped ∧ TitlesAgree unitLists ∧
    ((aggregate unitLists).values.map (fun c => c.id)).Nodup ∧
    ((aggregate unitListsSwapped).values.map (fun c => c.id)).Nodup ∧
    (∀ c ∈ (aggregate unitLists).values, ∃ c' ∈ (aggregate unitListsSwapped).values,
      SameCandidate c c') ∧
    (∀ c' ∈ (aggregate unitListsSwapped).values, ∃ c ∈ (aggregate unitLists).values,
      SameCandidate c' c) ∧
    (∀ c ∈ (aggregate unitLists).values,
      c.weightedScore = weightedSum (c.domains.zip c.scores)) ∧
    (∀ c' ∈ (aggregate unitListsSwapped).values,
      c'.weightedScore = weightedSum (c'.domains.zip c'.scores)) :=
  ⟨unitLists_perm, unitLists_titlesAgree,
    aggregate_order_independent unitLists unitListsSwapped unitLists_perm
      unitLists_titlesAgree⟩

/-! ## Title classification (C9) -/

/-- C9, refuted as stated.  The title "Health Specialties Teachers,
Postsecondary" contains "health" and "teacher": `classifyTitle` sets both
`isHealthcare` and `isEducation`, so two of the nine flags are true. -/
theorem classifyTitle_two_flags :
    classifyTitle (some healthTeacherTitle) =
      { isOffice := false, isField := false, isIndustrial := false, isMilitary := false,
        isHealthcare := true, isTech := false, isCreative := false, isEducation := true,
        isBusiness := false } ∧
    flagCount (classifyTitle (some healthTeacherTitle)) = 2 := by
  constructor <;> decide

/-- C9 (amended).  `classifyTitle` is total: for every title, missing and empty
included, at least one of the nine flags is true; `isOffice` is true exactly
when the other eight are false, and then it is the only true flag.  A missing or
empty title is classified office only. -/
theorem classifyTitle_total (title : Option String) :
    1 ≤ flagCount (classifyTitle title) ∧
    ((classifyTitle title).isOffice = true ↔
      ((classifyTitle title).isMilitary = false ∧ (classifyTitle title).isHealthcare = false ∧
       (classifyTitle title).isTech = false ∧ (classifyTitle title).isCreative = false ∧
       (classifyTitle title).isEducation = false ∧ (classifyTitle title).isBusiness = false ∧
       (classifyTitle title).isIndustrial = false ∧ (classifyTitle title).isField = false)) ∧
    ((classifyTitle title).isOffice = true → flagCount (classifyTitle title) = 1) ∧
    flagCount (classifyTitle none) = 1 ∧ (classifyTitle none).isOffice = true ∧
    flagCount (classifyTitle (some "")) = 1 ∧ (classifyTitle (some "")).isOffice = true := by
  refine ⟨?_, ?_, ?_, by decide, by decide, by decide, by decide⟩
  all_goals
    simp only [classifyTitle, flagCount]
    generalize isMilitary _ = b1
    generalize isHealthcare _ = b2
    generalize isTech _ = b3
    generalize isCreative _ = b4
    generalize isEducation _ = b5
    generalize isBusiness _ = b6
    generalize isIndustrial _ = b7
    generalize isField _ = b8
    cases b1 <;> cases b2 <;> cases b3 <;> cases b4 <;> cases b5 <;> cases b6 <;>
      cases b7 <;> cases b8 <;> decide

/-! ## Preference boost (C10) -/

theorem addIf_eq (c : Bool) (d boost : ℚ) : addIf c d boost = boost + d * (c.toNat : ℚ) := by
  cases c <;> simp [addIf]

theorem hits_add (p f : Bool) : (p && f).toNat + (!p && f).toNat = f.toNat := by
  cases p <;> cases f <;> rfl

theorem selectedHits_add_unselectedHits (prefs : Prefs) (c : TitleClass) :
    selectedHits prefs c + unselectedHits prefs c = flagCount c := by
  unfold selectedHits unselectedHits flagCount
  have h1 := hits_add prefs.office c.isOffice
  have h2 := hits_add prefs.field c.isField
  have h3 := hits_add prefs.industrial c.isIndustrial
  have h4 := hits_add prefs.military c.isMilitary
  have h5 := hits_add prefs.healthcare c.isHealthcare
  have h6 := hits_add prefs.tech c.isTech
  have h7 := hits_add prefs.creative c.isCreative
  have h8 := hits_add prefs.education c.isEducation
  have h9 := hits_add prefs.business c.isBusiness
  omega

theorem preferenceBoost_eq (title : Option String) (prefs : Prefs) (hany : prefs.any = true) :
    preferenceBoost title prefs =
      0.10 * (selectedHits prefs (classifyTitle title) : ℚ) -
        0.15 * (unselectedHits prefs (classifyTitle title) : ℚ) := by
  unfold preferenceBoost selectedHits unselectedHits
  simp only [hany, Bool.not_true, Bool.false_eq_true, if_false, Bool.and_true, addIf_eq,
    PREF_BOOST_MATCH, PREF_BOOST_MISMATCH]
  push_cast
  ring

/-- C10, refuted as stated.  With healthcare the only selected category, the
title "Health Specialties Teachers, Postsecondary" receives +0.10 for the
selected healthcare flag and -0.15 for the unselected education flag: the boost
is -0.05, which is none of 0, +0.10 and -0.15. -/
theorem preferenceBoost_stacks :
    healthcareOnly.any = true ∧
    preferenceBoost (some healthTeacherTitle) healthcareOnly = -0.05 ∧
    (-0.05 : ℚ) ≠ 0 ∧ (-0.05 : ℚ) ≠ 0.10 ∧ (-0.05 : ℚ) ≠ -0.15 := by
  refine ⟨rfl, ?_, by norm_num, by norm_num, by norm_num⟩
  rw [preferenceBoost_eq _ _ rfl]
  have h1 : selectedHits healthcareOnly (classifyTitle (some healthTeacherTitle)) = 1 := by
    decide
  have h2 : unselectedHits healthcareOnly (classifyTitle (some healthTeacherTitle)) = 1 := by
    decide
  rw [h1, h2]
  norm_num

/-- C10 (amended).  When at least one category is selected, `preferenceBoost`
returns +0.10 for each selected category whose flag is true for the title, plus
-0.15 for each unselected category whose flag is true; every true flag counts in
exactly one of the two groups.  For a title with exactly one true flag the boost
is therefore exactly +0.10 (its category is selected) or exactly -0.15 (it is
not). -/
theorem preferenceBoost_sum (title : Option String) (prefs : Prefs)
    (hany : prefs.any = true) :
    preferenceBoost title prefs =
      0.10 * (selectedHits prefs (classifyTitle title) : ℚ) -
        0.15 * (unselectedHits prefs (classifyTitle title) : ℚ) ∧
    selectedHits prefs (classifyTitle title) + unselectedHits prefs (classifyTitle title) =
      flagCount (classifyTitle title) ∧
    (flagCount (classifyTitle title) = 1 →
      (selectedHits prefs (classifyTitle title) = 1 ∧ preferenceBoost title prefs = 0.10) ∨
      (unselectedHits prefs (classifyTitle title) = 1 ∧
        preferenceBoost title prefs = -0.15)) := by
  have hb := preferenceBoost_eq title prefs hany
  have hs := selectedHits_add_unselectedHits prefs (classifyTitle title)
  refine ⟨hb, hs, fun h1 => ?_⟩
  rw [h1] at hs
  have hcases : (selectedHits prefs (classifyTitle title) = 1 ∧
      unselectedHits prefs (classifyTitle title) = 0) ∨
      (selectedHits prefs (classifyTitle title) = 0 ∧
        unselectedHits prefs (classifyTitle title) = 1) := by omega
  rcases hcases with ⟨ha, hu⟩ | ⟨ha, hu⟩
  · left
    refine ⟨ha, ?_⟩
    rw [hb, ha, hu]
    norm_num
  · right
    refine ⟨hu, ?_⟩
    rw [hb, ha, hu]
    norm_num

theorem preferenceBoost_sum_witness :
    healthcareOnly.any = true ∧
    flagCount (classifyTitle (some "Registered Nurses")) = 1 ∧
    (preferenceBoost (some "Registered Nurses") healthcareOnly =
      0.10 * (selectedHits healthcareOnly (classifyTitle (some "Registered Nurses")) : ℚ) -
        0.15 * (unselectedHits healthcareOnly (classifyTitle (some "Registered Nurses")) : ℚ) ∧
    selectedHits healthcareOnly (classifyTitle (some "Registered Nurses")) +
        unselectedHits healthcareOnly (classifyTitle (some "Registered Nurses")) =
      flagCount (classifyTitle (some "Registered Nurses")) ∧
    (flagCount (classifyTitle (some "Registered Nurses")) = 1 →
      (selectedHits healthcareOnly (classifyTitle (some "Registered Nurses")) = 1 ∧
        preferenceBoost (some "Registered Nurses") healthcareOnly = 0.10) ∨
      (unselectedHits healthcareOnly (classifyTitle (some "Registered Nurses")) = 1 ∧
        preferenceBoost (some "Registered Nurses") healthcareOnly = -0.15))) :=
  ⟨rfl, by decide, preferenceBoost_sum (some "Registered Nurses") healthcareOnly rfl⟩

/-! ## No preference selected (C11) -/

/-- C11.  For every title, `preferenceBoost` returns 0 when `prefs.any` is false;
`readPreferences` sets `any` to false exactly when none of the nine categories
is selected. -/
theorem preferenceBoost_none (title : Option String) (prefs : Prefs)
    (hany : prefs.any = false) :
    preferenceBoost title prefs = 0 ∧
    ∀ office field industrial military healthcare tech creative education business : Bool,
      (readPreferences office field industrial military healthcare tech creative education
        business).any = false ↔
      (office = false ∧ field = false ∧ industrial = false ∧ military = false ∧
        healthcare = false ∧ tech = false ∧ creative = false ∧ education = false ∧
        business = false) := by
  constructor
  · unfold preferenceBoost
    simp [hany]
  · intro o f i m h t c e b
    cases o <;> cases f <;> cases i <;> cases m <;> cases h <;> cases t <;> cases c <;>
      cases e <;> cases b <;> simp [readPreferences]

theorem preferenceBoost_none_witness :
    noPrefs.any = false ∧
    (preferenceBoost (some healthTeacherTitle) noPrefs = 0 ∧
    ∀ office field industrial military healthcare tech creative education business : Bool,
      (readPreferences office field industrial military healthcare tech creative education
        business).any = false ↔
      (office = false ∧ field = false ∧ industrial = false ∧ military = false ∧
        healthcare = false ∧ tech = false ∧ creative = false ∧ education = false ∧
        business = false)) :=
  ⟨rfl, preferenceBoost_none (some healthTeacherTitle) noPrefs rfl⟩

/-! ## Dimension mismatch (C12) -/

theorem topK_dim_error {ι : Type} (store : Store ι) (userVec : List ℚ) (domain : Domain)
    (k : Nat) (thresholdSet : ThresholdSet)
    (h : userVec.length ≠ (store domain).npy.cols) :
    topKBySimilarityDomain store userVec domain k thresholdSet =
      .error (.dimMismatch domain) := by
  unfold topKBySimilarityDomain
  simp [h]

theorem performSearch_dim_error {ι : Type} [DecidableEq ι] (store : Store ι)
    (userVecs : UserVecs) (thresholdSet : ThresholdSet) (minMatches topK : Nat)
    (hwf : store.WellFormed) (hdim : ¬ DimsMatch store userVecs) :
    ∃ d, performSearch store userVecs thresholdSet minMatches topK =
        .error (.dimMismatch d) ∧
      (userVecs.vec d).length ≠ (store d).npy.cols := by
  unfold performSearch topLists
  by_cases h1 : userVecs.skills.length = (store Domain.skills).npy.cols
  · rw [topK_eq store _ Domain.skills topK thresholdSet (hwf _) h1]
    by_cases h2 : userVecs.knowledge.length = (store Domain.knowledge).npy.cols
    · rw [topK_eq store _ Domain.knowledge topK thresholdSet (hwf _) h2]
      by_cases h3 : userVecs.tasks.length = (store Domain.tasks).npy.cols
      · rw [topK_eq store _ Domain.tasks topK thresholdSet (hwf _) h3]
        by_cases h4 : userVecs.occ.length = (store Domain.occ).npy.cols
        · exact absurd ⟨h1, h2, h3, h4⟩ hdim
        · rw [topK_dim_error store _ Domain.occ topK thresholdSet h4]
          exact ⟨Domain.occ, rfl, h4⟩
      · rw [topK_dim_error store _ Domain.tasks topK thresholdSet h3]
        exact ⟨Domain.tasks, rfl, h3⟩
    · rw [topK_dim_error store _ Domain.knowledge topK thresholdSet h2]
      exact ⟨Domain.knowledge, rfl, h2⟩
  · rw [topK_dim_error store _ Domain.skills topK thresholdSet h1]
    exact ⟨Domain.skills, rfl, h1⟩

/-- C12.  On a store whose rows all have their metadata record and matrix data,
`performSearch` fails if and only if some query vector's length differs from the
column count of its domain's matrix, and it returns a candidate list if and only
if all four lengths agree; the failure is the dimension-mismatch error of a
domain whose vector has the wrong length, so such a vector is neither truncated
nor its domain left out. -/
theorem performSearch_error_iff {ι : Type} [DecidableEq ι] (store : Store ι)
    (userVecs : UserVecs) (thresholdSet : ThresholdSet) (minMatches topK : Nat)
    (hwf : store.WellFormed) :
    ((∃ e, performSearch store userVecs thresholdSet minMatches topK = .error e) ↔
      ∃ d, (userVecs.vec d).length ≠ (store d).npy.cols) ∧
    ((∃ cs, performSearch store userVecs thresholdSet minMatches topK = .ok cs) ↔
      ∀ d, (userVecs.vec d).length = (store d).npy.cols) ∧
    ((∃ d, (userVecs.vec d).length ≠ (store d).npy.cols) →
      ∃ d, performSearch store userVecs thresholdSet minMatches topK =
          .error (.dimMismatch d) ∧
        (userVecs.vec d).length ≠ (store d).npy.cols) := by
  have hall : DimsMatch store userVecs ↔ ∀ d, (userVecs.vec d).length = (store d).npy.cols := by
    constructor
    · intro h d
      cases d
      · exact h.1
      · exact h.2.1
      · exact h.2.2.1
      · exact h.2.2.2
    · intro h
      exact ⟨h Domain.skills, h Domain.knowledge, h Domain.tasks, h Domain.occ⟩
  have hex : (∃ d, (userVecs.vec d).length ≠ (store d).npy.cols) ↔
      ¬ DimsMatch store userVecs := by
    rw [hall]
    push_neg
    rfl
  refine ⟨?_, ?_, ?_⟩
  · constructor
    · rintro ⟨e, he⟩
      rw [hex]
      intro hdim
      obtain ⟨cs, hcs⟩ := performSearch_ok store userVecs thresholdSet minMatches topK hwf hdim
      rw [hcs] at he
      cases he
    · intro h
      obtain ⟨d, hd, -⟩ := performSearch_dim_error store userVecs thresholdSet minMatches topK
        hwf (hex.1 h)
      exact ⟨_, hd⟩
  · constructor
    · rintro ⟨cs, hcs⟩
      rw [← hall]
      by_contra hdim
      obtain ⟨d, hd, -⟩ := performSearch_dim_error store userVecs thresholdSet minMatches topK
        hwf hdim
      rw [hd] at hcs
      cases hcs
    · intro h
      exact performSearch_ok store userVecs thresholdSet minMatches topK hwf (hall.2 h)
  · intro h
    exact performSearch_dim_error store userVecs thresholdSet minMatches topK hwf (hex.1 h)

theorem performSearch_error_iff_witness :
    sampleStore.WellFormed ∧
    (longTaskVecs.vec Domain.tasks).length ≠ (sampleStore Domain.tasks).npy.cols ∧
    (((∃ e, performSearch sampleStore longTaskVecs SIM_THRESHOLD_STRICT 2 5 = .error e) ↔
      ∃ d, (longTaskVecs.vec d).length ≠ (sampleStore d).npy.cols) ∧
    ((∃ cs, performSearch sampleStore longTaskVecs SIM_THRESHOLD_STRICT 2 5 = .ok cs) ↔
      ∀ d, (longTaskVecs.vec d).length = (sampleStore d).npy.cols) ∧
    ((∃ d, (longTaskVecs.vec d).length ≠ (sampleStore d).npy.cols) →
      ∃ d, performSearch sampleStore longTaskVecs SIM_THRESHOLD_STRICT 2 5 =
          .error (.dimMismatch d) ∧
        (longTaskVecs.vec d).length ≠ (sampleStore d).npy.cols)) :=
  ⟨fun _ => (⟨by decide, by decide⟩ : sampleIndex.WellFormed), by decide,
    performSearch_error_iff sampleStore longTaskVecs SIM_THRESHOLD_STRICT 2 5
      (fun _ => (⟨by decide, by decide⟩ : sampleIndex.WellFormed))⟩

/-! ## Dot product and cosine similarity (C13) -/

theorem sum_range_map_eq_finset (f : ℕ → ℚ) (n : ℕ) :
    ((List.range n).map f).sum = ∑ i in Finset.range n, f i := by
  induction n with
  | zero => simp
  | succ n ih => rw [List.range_succ, List.map_append, List.sum_append, ih,
      Finset.sum_range_succ]; simp

theorem dotProduct_eq_range (q r : List ℚ) (h : q.length = r.length) :
    dotProduct q r = ((List.range q.length).map (fun c => q.getD c 0 * r.getD c 0)).sum := by
  induction q generalizing r with
  | nil => simp [dotProduct]
  | cons a q ih =>
    cases r with
    | nil => simp at h
    | cons b r =>
      have h' : q.length = r.length := by simpa using h
      have := ih r h'
      simp only [dotProduct] at this
      simp only [dotProduct, List.zipWith_cons_cons, List.sum_cons, List.length_cons,
        List.range_succ_eq_map, List.map_cons, List.map_map, List.getD_cons_zero, this]
      rfl

theorem normSq_eq_range (q : List ℚ) :
    normSq q = ((List.range q.length).map (fun c => q.getD c 0 * q.getD c 0)).sum := by
  induction q with
  | nil => simp [normSq]
  | cons a q ih =>
    simp only [normSq] at ih
    simp only [normSq, List.map_cons, List.sum_cons, List.length_cons,
      List.range_succ_eq_map, List.map_map, List.getD_cons_zero, ih]
    rfl

theorem dotProduct_sq_le (q r : List ℚ) (h : q.length = r.length) :
    dotProduct q r ^ 2 ≤ normSq q * normSq r := by
  rw [dotProduct_eq_range q r h, normSq_eq_range q, normSq_eq_range r, ← h,
    sum_range_map_eq_finset, sum_range_map_eq_finset, sum_range_map_eq_finset]
  have := Finset.sum_mul_sq_le_sq_mul_sq (Finset.range q.length)
    (fun c => q.getD c 0) (fun c => r.getD c 0)
  simpa [sq] using this

theorem getD_row (pre r post : List ℚ) (c : ℕ) (hc : c < r.length) :
    (pre ++ r ++ post).getD (pre.length + c) 0 = r.getD c 0 := by
  rw [List.getD_eq_getElem?_getD, List.getD_eq_getElem?_getD, List.append_assoc,
    List.getElem?_append_right (Nat.le_add_right _ _), Nat.add_sub_cancel_left,
    List.getElem?_append_left hc]

/-- C13.  For a query `q` and a matrix row `r` of the same length (stored in
`data` at offset `pre.length`), `dotCosineNormalized` returns the sum of the
element-wise products of `q` and `r`; when both have unit Euclidean norm this
value lies in `[-1, 1]` and is the cosine similarity, the dot product divided by
the product of the norms, computed over the reals. -/
theorem dotCosineNormalized_cosine (q r pre post : List ℚ) (hlen : q.length = r.length) :
    dotCosineNormalized q (pre ++ r ++ post) pre.length r.length = some (dotProduct q r) ∧
    (normSq q = 1 → normSq r = 1 →
      -1 ≤ dotProduct q r ∧ dotProduct q r ≤ 1 ∧
      ((dotProduct q r : ℚ) : ℝ) / (Real.sqrt ((normSq q : ℚ) : ℝ) *
        Real.sqrt ((normSq r : ℚ) : ℝ)) = ((dotProduct q r : ℚ) : ℝ)) := by
  constructor
  · have h := dot_fold_eq q (pre ++ r ++ post) pre.length r.length (le_of_eq hlen.symm)
      (by simp) r.length (le_refl _)
    unfold dotCosineNormalized
    rw [h, dotProduct_eq_range q r hlen, hlen]
    congr 2
    apply List.map_congr_left
    intro c hc
    rw [getD_row pre r post c (List.mem_range.1 hc)]
  · intro hq hr
    have hcs := dotProduct_sq_le q r hlen
    rw [hq, hr] at hcs
    have habs : |dotProduct q r| ≤ 1 := by
      rw [← abs_one]
      apply sq_le_sq.1
      simpa using hcs
    refine ⟨(abs_le.1 habs).1, (abs_le.1 habs).2, ?_⟩
    rw [hq, hr]
    simp

theorem dotCosineNormalized_cosine_witness :
    ([3 / 5, 4 / 5] : List ℚ).length = ([4 / 5, 3 / 5] : List ℚ).length ∧
    normSq [3 / 5, 4 / 5] = 1 ∧ normSq [4 / 5, 3 / 5] = 1 ∧
    (dotCosineNormalized [3 / 5, 4 / 5] ([1, 0] ++ [4 / 5, 3 / 5] ++ [0, 1])
        ([1, 0] : List ℚ).length ([4 / 5, 3 / 5] : List ℚ).length =
      some (dotProduct [3 / 5, 4 / 5] [4 / 5, 3 / 5]) ∧
    (normSq [3 / 5, 4 / 5] = 1 → normSq [4 / 5, 3 / 5] = 1 →
      -1 ≤ dotProduct [3 / 5, 4 / 5] [4 / 5, 3 / 5] ∧
      dotProduct [3 / 5, 4 / 5] [4 / 5, 3 / 5] ≤ 1 ∧
      ((dotProduct [3 / 5, 4 / 5] [4 / 5, 3 / 5] : ℚ) : ℝ) /
        (Real.sqrt ((normSq [3 / 5, 4 / 5] : ℚ) : ℝ) *
          Real.sqrt ((normSq [4 / 5, 3 / 5] : ℚ) : ℝ)) =
        ((dotProduct [3 / 5, 4 / 5] [4 / 5, 3 / 5] : ℚ) : ℝ))) :=
  ⟨rfl, by norm_num [normSq], by norm_num [normSq],
    dotCosineNormalized_cosine [3 / 5, 4 / 5] [4 / 5, 3 / 5] [1, 0] [0, 1] rfl⟩

/-! ## Applied versus theoretical boost (C14) -/

/-- C14.  For every title and answers, `getAppliedBoost` is the sum of the
adjustments whose conditions hold: +0.15 if `mentionsPractical` and
`isAppliedTech`, -0.20 if `mentionsPractical` and `isPureTheory`, +0.10 if
`onlyTheoretical` and `isPureTheory`, where `onlyTheoretical` means that theory
language is present and the practical vocabulary is absent; it is 0 when no
condition holds. -/
theorem getAppliedBoost_sum (title : String) (userAnswers : Answers) :
    getAppliedBoost title userAnswers =
      (if mentionsPractical (allText userAnswers) = true ∧
          isAppliedTech (toLowerCase title) = true then 0.15 else 0) +
      (if mentionsPractical (allText userAnswers) = true ∧
          isPureTheory (toLowerCase title) = true then -0.20 else 0) +
      (if onlyTheoretical (allText userAnswers) = true ∧
          isPureTheory (toLowerCase title) = true then 0.10 else 0) ∧
    (onlyTheoretical (allText userAnswers) = true ↔
      (mentionsPractical (allText userAnswers) = false ∧
        (includes (allText userAnswers) "math" = true ∨
         includes (allText userAnswers) "statistic" = true ∨
         includes (allText userAnswers) "theory" = true ∨
         includes (allText userAnswers) "research" = true))) ∧
    (¬ (mentionsPractical (allText userAnswers) = true ∧
          isAppliedTech (toLowerCase title) = true) →
      ¬ (mentionsPractical (allText userAnswers) = true ∧
          isPureTheory (toLowerCase title) = true) →
      ¬ (onlyTheoretical (allText userAnswers) = true ∧
          isPureTheory (toLowerCase title) = true) →
      getAppliedBoost title userAnswers = 0) := by
  have hsum : getAppliedBoost title userAnswers =
      (if mentionsPractical (allText userAnswers) = true ∧
          isAppliedTech (toLowerCase title) = true then 0.15 else 0) +
      (if mentionsPractical (allText userAnswers) = true ∧
          isPureTheory (toLowerCase title) = true then -0.20 else 0) +
      (if onlyTheoretical (allText userAnswers) = true ∧
          isPureTheory (toLowerCase title) = true then 0.10 else 0) := by
    unfold getAppliedBoost
    simp only [addIf]
    cases mentionsPractical (allText userAnswers) <;>
      cases isAppliedTech (toLowerCase title) <;>
      cases isPureTheory (toLowerCase title) <;>
      cases onlyTheoretical (allText userAnswers) <;> norm_num
  refine ⟨hsum, ?_, ?_⟩
  · unfold onlyTheoretical
    cases mentionsPractical (allText userAnswers) <;> simp [or_assoc]
  · intro h1 h2 h3
    rw [hsum, if_neg h1, if_neg h2, if_neg h3]
    norm_num

/-! ## Role type precedence (C16) -/

theorem roleType_of_flags (m h t c e b i f : Bool) (cls : TitleClass)
    (hcls : cls = ⟨!m && !h && !t && !c && !e && !b && !i && !f, f, i, m, h, t, c, e, b⟩) :
    roleType cls = (firstCategory cls).getD "Office" ∧
    (roleType cls = "Office" ↔
      (cls.isMilitary = false ∧ cls.isHealthcare = false ∧ cls.isTech = false ∧
       cls.isCreative = false ∧ cls.isEducation = false ∧ cls.isBusiness = false ∧
       cls.isIndustrial = false ∧ cls.isField = false)) ∧
    (cls.isOffice = true ↔ roleType cls = "Office") ∧
    (firstCategory cls = none ↔ cls.isOffice = true) := by
  subst hcls
  cases m <;> cases h <;> cases t <;> cases c <;> cases e <;> cases b <;> cases i <;>
    cases f <;> decide

/-- C16.  For every title, the role type resolved by `renderCard` is the first
category in the order military, healthcare, tech, creative, education, business,
industrial, field whose flag is true, and it is office exactly when none of the
eight flags is true; `isOffice` is true in exactly that case. -/
theorem roleType_precedence (title : Option String) :
    roleType (classifyTitle title) = (firstCategory (classifyTitle title)).getD "Office" ∧
    (roleType (classifyTitle title) = "Office" ↔
      ((classifyTitle title).isMilitary = false ∧ (classifyTitle title).isHealthcare = false ∧
       (classifyTitle title).isTech = false ∧ (classifyTitle title).isCreative = false ∧
       (classifyTitle title).isEducation = false ∧ (classifyTitle title).isBusiness = false ∧
       (classifyTitle title).isIndustrial = false ∧ (classifyTitle title).isField = false)) ∧
    ((classifyTitle title).isOffice = true ↔ roleType (classifyTitle title) = "Office") ∧
    (firstCategory (classifyTitle title) = none ↔ (classifyTitle title).isOffice = true) :=
  roleType_of_flags _ _ _ _ _ _ _ _ (classifyTitle title) rfl

/-! ## Industrial wins over field (C17) -/

/-- C17.  For every title, `classifyTitle` never sets `isField` and `isIndustrial`
together: whenever the industrial flag is true, `isField` is false.  The title
"Maintenance and Repair Workers, General" matches a field keyword ("repair") and
an industrial one ("maintenance"), and is classified industrial only. -/
theorem classifyTitle_industrial_excludes_field (title : Option String) :
    ¬ ((classifyTitle title).isField = true ∧ (classifyTitle title).isIndustrial = true) ∧
    ((classifyTitle title).isIndustrial = true → (classifyTitle title).isField = false) ∧
    (classifyTitle (some "Maintenance and Repair Workers, General")).isIndustrial = true ∧
    (classifyTitle (some "Maintenance and Repair Workers, General")).isField = false ∧
    includes (toLowerCase "Maintenance and Repair Workers, General") "repair" = true ∧
    roleType (classifyTitle (some "Maintenance and Repair Workers, General")) =
      "Industrial" := by
  refine ⟨?_, ?_, by decide, by decide, by decide, by decide⟩
  all_goals
    simp only [classifyTitle, isField]
    generalize isIndustrial _ = b
    cases b <;> simp

/-! ## The comparator is not transitive (C20) -/

theorem toDouble_0008 : toDouble 0.008 = 1152921504606847 / 144115188075855872 := by
  rw [toDouble_eq_of_near (0.008) (-7) 4611686018427388 (by norm_num) (by norm_num) (by norm_num) (by norm_num) (by norm_num)]
  norm_num

theorem toDouble_0016 : toDouble 0.016 = 1152921504606847 / 72057594037927936 := by
  rw [toDouble_eq_of_near (0.016) (-6) 4611686018427388 (by norm_num) (by norm_num) (by norm_num) (by norm_num) (by norm_num)]
  norm_num

theorem toDouble_09 : toDouble 0.9 = 8106479329266893 / 9007199254740992 := by
  rw [toDouble_eq_of_near (0.9) (-1) 8106479329266893 (by norm_num) (by norm_num) (by norm_num) (by norm_num) (by norm_num)]
  norm_num

theorem toDouble_05 : toDouble 0.5 = 1 / 2 := by
  rw [toDouble_eq_of_near (0.5) (-1) 4503599627370496 (by norm_num) (by norm_num) (by norm_num) (by norm_num) (by norm_num)]
  norm_num

theorem toDouble_01 : toDouble 0.1 = 3602879701896397 / 36028797018963968 := by
  rw [toDouble_eq_of_near (0.1) (-4) 7205759403792794 (by norm_num) (by norm_num) (by norm_num) (by norm_num) (by norm_num)]
  norm_num

theorem cycle_gap_ab : fsub (1152921504606847 / 144115188075855872) 0 = 1152921504606847 / 144115188075855872 := by
  unfold fsub
  rw [toDouble_eq_of_near ((1152921504606847 / 144115188075855872) - 0) (-7) 4611686018427388 (by norm_num) (by norm_num) (by norm_num) (by norm_num) (by norm_num)]
  norm_num

theorem cycle_gap_bc : fsub (1152921504606847 / 72057594037927936) (1152921504606847 / 144115188075855872) = 1152921504606847 / 144115188075855872 := by
  unfold fsub
  rw [toDouble_eq_of_near ((1152921504606847 / 72057594037927936) - (1152921504606847 / 144115188075855872)) (-7) 4611686018427388 (by norm_num) (by norm_num) (by norm_num) (by norm_num) (by norm_num)]
  norm_num

theorem cycle_gap_ac : fsub (1152921504606847 / 72057594037927936) 0 = 1152921504606847 / 72057594037927936 := by
  unfold fsub
  rw [toDouble_eq_of_near ((1152921504606847 / 72057594037927936) - 0) (-6) 4611686018427388 (by norm_num) (by norm_num) (by norm_num) (by norm_num) (by norm_num)]
  norm_num

/-- C20.  The final comparator is not transitive: for the three results of equal
`matchCount` with `finalScore` 0, 0.008, 0.016 and `avgScore` 0.9, 0.5, 0.1 it
orders the first before the second, the second before the third and the third
before the first.  The sorted order then depends on the input order: sorting
`[a, b, c]` keeps it, and sorting `[c, a, b]` keeps that too. -/
theorem finalCompare_not_transitive :
    cycleA.matchCount = cycleB.matchCount ∧ cycleB.matchCount = cycleC.matchCount ∧
    finalCompare cycleA cycleB < 0 ∧ finalCompare cycleB cycleC < 0 ∧
    finalCompare cycleC cycleA < 0 ∧
    ¬ (∀ a b c : RankedResult Nat, finalCompare a b < 0 → finalCompare b c < 0 →
        finalCompare a c < 0) ∧
    arraySort finalCompare [cycleA, cycleB, cycleC] = [cycleA, cycleB, cycleC] ∧
    arraySort finalCompare [cycleC, cycleA, cycleB] = [cycleC, cycleA, cycleB] := by
  have hab : finalCompare cycleA cycleB < 0 := by
    have hclose : |fsub cycleB.finalScore cycleA.finalScore| ≤ toDouble 0.01 := by
      show |fsub (toDouble 0.008) 0| ≤ toDouble 0.01
      rw [toDouble_0008, cycle_gap_ab, toDouble_001]
      norm_num [abs_le]
    rw [finalCompare_of_close cycleA cycleB rfl hclose]
    show fsub (toDouble 0.5) (toDouble 0.9) < 0
    apply fsub_neg_of_lt (toDouble_isDouble _) (toDouble_isDouble _)
    rw [toDouble_05, toDouble_09]
    norm_num
  have hbc : finalCompare cycleB cycleC < 0 := by
    have hclose : |fsub cycleC.finalScore cycleB.finalScore| ≤ toDouble 0.01 := by
      show |fsub (toDouble 0.016) (toDouble 0.008)| ≤ toDouble 0.01
      rw [toDouble_0016, toDouble_0008, cycle_gap_bc, toDouble_001]
      norm_num [abs_le]
    rw [finalCompare_of_close cycleB cycleC rfl hclose]
    show fsub (toDouble 0.1) (toDouble 0.5) < 0
    apply fsub_neg_of_lt (toDouble_isDouble _) (toDouble_isDouble _)
    rw [toDouble_01, toDouble_05]
    norm_num
  have hgap : toDouble 0.01 < |fsub (toDouble 0.016) 0| := by
    rw [toDouble_0016, cycle_gap_ac, toDouble_001]
    norm_num [lt_abs]
  have hca : finalCompare cycleC cycleA < 0 := by
    have hgap' : toDouble 0.01 < |fsub cycleA.finalScore cycleC.finalScore| := by
      show toDouble 0.01 < |fsub 0 (toDouble 0.016)|
      rw [abs_fsub_comm]
      exact hgap
    rw [finalCompare_of_gap cycleC cycleA rfl hgap']
    show fsub 0 (toDouble 0.016) < 0
    rw [fsub_antisymm (toDouble 0.016) 0, toDouble_0016, cycle_gap_ac]
    norm_num
  have hac : ¬ finalCompare cycleA cycleC < 0 := by
    rw [finalCompare_of_gap cycleA cycleC rfl hgap]
    show ¬ fsub (toDouble 0.016) 0 < 0
    rw [toDouble_0016, cycle_gap_ac]
    norm_num
  refine ⟨rfl, rfl, hab, hbc, hca, fun h => hac (h _ _ _ hab hbc), ?_, ?_⟩
  · simp [arraySort, List.insertionSort, List.orderedInsert, le_of_lt hab, le_of_lt hbc]
  · simp [arraySort, List.insertionSort, List.orderedInsert, le_of_lt hab, le_of_lt hca]

/-! ## Diversity scoring (C15) -/

theorem card_filter_cons_new (P : String → Prop) [DecidablePred P] (w : String)
    (ws : List String) (hw : P w) :
    ((List.filter (fun x => decide (P x)) (w :: ws)).toFinset).card =
      ((List.filter (fun x => decide (P x ∧ x ≠ w)) ws).toFinset).card + 1 := by
  have h1 : (List.filter (fun x => decide (P x)) (w :: ws)).toFinset =
      insert w ((List.filter (fun x => decide (P x ∧ x ≠ w)) ws).toFinset) := by
    ext a
    simp only [List.mem_toFinset, List.mem_filter, List.mem_cons, decide_eq_true_eq,
      Finset.mem_insert]
    constructor
    · rintro ⟨rfl | ha, hp⟩
      · left; rfl
      · by_cases e : a = w
        · left; exact e
        · right; exact ⟨ha, hp, e⟩
    · rintro (rfl | ⟨ha, hp, -⟩)
      · exact ⟨Or.inl rfl, hw⟩
      · exact ⟨Or.inr ha, hp⟩
  rw [h1, Finset.card_insert_of_not_mem]
  simp

theorem novelty_fold (ws : List String) :
    ∀ (n0 : Nat) (S : List String),
      (ws.foldl noveltyStep (n0, S)).1 =
        n0 + ((ws.filter (fun w => decide (3 < jsLength w ∧ w ∉ S))).toFinset).card ∧
      ∀ w, w ∈ (ws.foldl noveltyStep (n0, S)).2 ↔ w ∈ S ∨ (w ∈ ws ∧ 3 < jsLength w) := by
  induction ws with
  | nil => intro n0 S; simp
  | cons w ws ih =>
    intro n0 S
    by_cases hw : 3 < jsLength w ∧ w ∉ S
    · have hstep : noveltyStep (n0, S) w = (n0 + 1, S ++ [w]) := by
        simp only [noveltyStep]
        rw [if_pos hw]
      rw [List.foldl_cons, hstep]
      obtain ⟨h1, h2⟩ := ih (n0 + 1) (S ++ [w])
      constructor
      · rw [h1, card_filter_cons_new (fun x => 3 < jsLength x ∧ x ∉ S) w ws hw]
        have hf : List.filter (fun x => decide (3 < jsLength x ∧ x ∉ S ++ [w])) ws =
            List.filter (fun x => decide ((3 < jsLength x ∧ x ∉ S) ∧ x ≠ w)) ws := by
          apply List.filter_congr
          intro x _
          simp only [List.mem_append, List.mem_singleton, not_or, decide_eq_decide]
          tauto
        rw [hf]
        omega
      · intro x
        rw [h2]
        simp only [List.mem_append, List.mem_cons, List.not_mem_nil, or_false]
        constructor
        · rintro ((hx | rfl) | ⟨hx, hl⟩)
          · exact Or.inl hx
          · exact Or.inr ⟨Or.inl rfl, hw.1⟩
          · exact Or.inr ⟨Or.inr hx, hl⟩
        · rintro (hx | ⟨rfl | hx, hl⟩)
          · exact Or.inl (Or.inl hx)
          · exact Or.inl (Or.inr rfl)
          · exact Or.inr ⟨hx, hl⟩
    · have hstep : noveltyStep (n0, S) w = (n0, S) := by
        simp only [noveltyStep]
        rw [if_neg hw]
      rw [List.foldl_cons, hstep]
      obtain ⟨h1, h2⟩ := ih n0 S
      constructor
      · rw [h1, List.filter_cons]
        simp [hw]
      · intro x
        rw [h2]
        simp only [List.mem_cons]
        constructor
        · rintro (hx | ⟨hx, hl⟩)
          · exact Or.inl hx
          · exact Or.inr ⟨Or.inr hx, hl⟩
        · rintro (hx | ⟨rfl | hx, hl⟩)
          · exact Or.inl hx
          · by_contra hcon
            exact hw ⟨hl, fun hm => hcon (Or.inl hm)⟩
          · exact Or.inr ⟨hx, hl⟩

theorem diversityStep_spec {ι : Type} (lower : String → String) (acc : List (Scored ι) × List String)
    (earlier : List String) (r : Candidate ι) (hinv : SeenWords lower acc.2 earlier) :
    (diversityStep lower acc r).1 =
      acc.1 ++ [{ r with diversityScore := noveltyCount lower earlier r.title }] ∧
    SeenWords lower (diversityStep lower acc r).2 (earlier ++ [r.title]) := by
  obtain ⟨h1, h2⟩ := novelty_fold (titleWordsOf lower r.title) 0 acc.2
  constructor
  · simp only [diversityStep, h1, Nat.zero_add, noveltyCount]
    have hf : List.filter (fun w => decide (3 < jsLength w ∧ w ∉ acc.2)) (titleWordsOf lower r.title) =
        List.filter (fun w => decide (3 < jsLength w ∧ ∀ t ∈ earlier, w ∉ titleWordsOf lower t))
          (titleWordsOf lower r.title) := by
      apply List.filter_congr
      intro w _
      rw [decide_eq_decide, hinv w]
      constructor
      · rintro ⟨hl, hn⟩
        exact ⟨hl, fun t ht hw => hn ⟨hl, t, ht, hw⟩⟩
      · rintro ⟨hl, hn⟩
        exact ⟨hl, fun ⟨_, t, ht, hw⟩ => hn t ht hw⟩
    rw [hf]
  · intro w
    simp only [diversityStep]
    rw [h2 w, hinv w]
    simp only [List.mem_append, List.mem_cons, List.not_mem_nil, or_false]
    constructor
    · rintro (⟨hl, t, ht, hw⟩ | ⟨hw, hl⟩)
      · exact ⟨hl, t, Or.inl ht, hw⟩
      · exact ⟨hl, r.title, Or.inr rfl, hw⟩
    · rintro ⟨hl, t, ht | rfl, hw⟩
      · exact Or.inl ⟨hl, t, ht, hw⟩
      · exact Or.inr ⟨hw, hl⟩

theorem diversity_fold_spec {ι : Type} (lower : String → String) (rs : List (Candidate ι)) :
    ∀ (acc : List (Scored ι) × List String) (earlier : List String),
      SeenWords lower acc.2 earlier →
      (rs.foldl (diversityStep lower) acc).1 = acc.1 ++ noveltyList lower earlier rs := by
  induction rs with
  | nil => intro acc earlier _; simp [noveltyList]
  | cons r rs ih =>
    intro acc earlier hinv
    obtain ⟨h1, h2⟩ := diversityStep_spec lower acc earlier r hinv
    rw [List.foldl_cons, ih _ _ h2, h1, noveltyList, List.append_assoc]
    rfl

theorem calculateDiversity_eq {ι : Type} (lower : String → String) (results : List (Candidate ι)) :
    calculateDiversity lower results = noveltyList lower [] results := by
  have h := diversity_fold_spec lower results ([], []) [] (by intro w; simp)
  simpa [calculateDiversity] using h

theorem noveltyList_getElem? {ι : Type} (lower : String → String) (rs : List (Candidate ι)) :
    ∀ (earlier : List String) (i : Nat) (r : Candidate ι), rs[i]? = some r →
      (noveltyList lower earlier rs)[i]? =
        some { r with
          diversityScore :=
            noveltyCount lower (earlier ++ (rs.take i).map (fun x => x.title)) r.title } := by
  induction rs with
  | nil => intro earlier i r h; simp at h
  | cons a rs ih =>
    intro earlier i r h
    cases i with
    | zero =>
      simp only [List.getElem?_cons_zero, Option.some.injEq] at h
      subst h
      simp [noveltyList]
    | succ i =>
      simp only [List.getElem?_cons_succ] at h
      simp only [noveltyList, List.getElem?_cons_succ, List.take_succ_cons, List.map_cons]
      rw [ih (earlier ++ [a.title]) i r h, List.append_assoc]
      rfl

theorem noveltyList_map {ι : Type} (lower : String → String) (rs : List (Candidate ι)) :
    ∀ earlier : List String,
      (noveltyList lower earlier rs).map (fun s => s.toCandidate) = rs := by
  induction rs with
  | nil => intro _; rfl
  | cons a rs ih =>
    intro earlier
    simp only [noveltyList, List.map_cons, ih]

theorem firstWord_nil (cur w : List Char) : FirstWord [] cur w ↔ w = cur.reverse := by
  constructor
  · rintro ⟨run, rest, h, -, -, hw⟩
    have hr : run = [] := (List.append_eq_nil.1 h.symm).1
    rw [hw, hr, List.append_nil]
  · intro hw
    exact ⟨[], [], rfl, by simp, by simp, by simp [hw]⟩

theorem laterWord_nil (w : List Char) : ¬ LaterWord [] w := by
  rintro ⟨pre, post, h, ⟨c, hc, -⟩, -, -⟩
  have hp : pre = [] := by
    have h1 := (List.append_eq_nil.1 h.symm).1
    exact (List.append_eq_nil.1 h1).1
  rw [hp] at hc
  simp at hc

theorem firstWord_cons_ws (c : Char) (cs cur w : List Char) (hc : isWhiteSpace c = true) :
    FirstWord (c :: cs) cur w ↔ w = cur.reverse := by
  constructor
  · rintro ⟨run, rest, h, hn, -, hw⟩
    cases run with
    | nil => rw [hw, List.append_nil]
    | cons r run =>
      have hr : c = r := by
        have := congrArg List.head? h
        simpa using this
      have := hn r (List.mem_cons_self _ _)
      rw [← hr, hc] at this
      cases this
  · intro hw
    refine ⟨[], c :: cs, rfl, by simp, ?_, by simp [hw]⟩
    intro d hd
    simp only [List.head?_cons, Option.some.injEq] at hd
    rw [← hd]
    exact hc

theorem firstWord_cons_nws (c : Char) (cs cur w : List Char) (hc : isWhiteSpace c = false) :
    FirstWord (c :: cs) cur w ↔ FirstWord cs (c :: cur) w := by
  constructor
  · rintro ⟨run, rest, h, hn, he, hw⟩
    cases run with
    | nil =>
      rw [List.nil_append] at h
      have := he c (by rw [← h]; rfl)
      rw [hc] at this
      cases this
    | cons r run =>
      have hr : c = r ∧ cs = run ++ rest := by
        simpa using h
      refine ⟨run, rest, hr.2, fun d hd => hn d (List.mem_cons_of_mem _ hd), he, ?_⟩
      rw [hw, hr.1]
      simp
  · rintro ⟨run, rest, h, hn, he, hw⟩
    refine ⟨c :: run, rest, by rw [h]; rfl, ?_, he, ?_⟩
    · intro d hd
      rcases List.mem_cons.1 hd with rfl | hd'
      · exact hc
      · exact hn d hd'
    · rw [hw]
      simp

theorem laterWord_cons_ws (c : Char) (cs w : List Char) (hc : isWhiteSpace c = true) :
    LaterWord (c :: cs) w ↔ FirstWord cs [] w ∨ LaterWord cs w := by
  constructor
  · rintro ⟨pre, post, h, ⟨d, hd, hdw⟩, hn, he⟩
    cases pre with
    | nil => simp at hd
    | cons p pre =>
      have hp : c = p ∧ cs = pre ++ w ++ post := by
        simpa using h
      cases pre with
      | nil =>
        left
        refine ⟨w, post, by simpa using hp.2, hn, he, by simp⟩
      | cons q pre =>
        right
        refine ⟨q :: pre, post, hp.2, ⟨d, ?_, hdw⟩, hn, he⟩
        rw [List.getLast?_cons_cons] at hd
        exact hd
  · rintro (⟨run, rest, h, hn, he, hw⟩ | ⟨pre, post, h, ⟨d, hd, hdw⟩, hn, he⟩)
    · have hwr : w = run := by simpa using hw
      refine ⟨[c], rest, by rw [h, hwr]; rfl, ⟨c, rfl, hc⟩, by rw [hwr]; exact hn, he⟩
    · cases pre with
      | nil => simp at hd
      | cons q pre =>
        refine ⟨c :: q :: pre, post, by rw [h]; rfl, ⟨d, ?_, hdw⟩, hn, he⟩
        rw [List.getLast?_cons_cons]
        exact hd

theorem laterWord_cons_nws (c : Char) (cs w : List Char) (hc : isWhiteSpace c = false) :
    LaterWord (c :: cs) w ↔ LaterWord cs w := by
  constructor
  · rintro ⟨pre, post, h, ⟨d, hd, hdw⟩, hn, he⟩
    cases pre with
    | nil => simp at hd
    | cons p pre =>
      have hp : c = p ∧ cs = pre ++ w ++ post := by
        simpa using h
      cases pre with
      | nil =>
        simp only [List.getLast?_singleton, Option.some.injEq] at hd
        rw [← hd, ← hp.1, hc] at hdw
        cases hdw
      | cons q pre =>
        refine ⟨q :: pre, post, hp.2, ⟨d, ?_, hdw⟩, hn, he⟩
        rw [List.getLast?_cons_cons] at hd
        exact hd
  · rintro ⟨pre, post, h, ⟨d, hd, hdw⟩, hn, he⟩
    cases pre with
    | nil => simp at hd
    | cons q pre =>
      refine ⟨c :: q :: pre, post, by rw [h]; rfl, ⟨d, ?_, hdw⟩, hn, he⟩
      rw [List.getLast?_cons_cons]
      exact hd

theorem string_eq_mk_iff (w : String) (l : List Char) : w = ⟨l⟩ ↔ w.data = l := by
  constructor
  · intro h
    rw [h]
  · intro h
    exact String.ext h

theorem mem_splitAux_iff (cs : List Char) :
    ∀ (cur : List Char) (sep : Bool), (sep = true → cur = []) →
      ∀ w : String, w.data ≠ [] →
        (w ∈ splitAux cs cur sep ↔ FirstWord cs cur w.data ∨ LaterWord cs w.data) := by
  induction cs with
  | nil =>
    intro cur sep _ w _
    simp only [splitAux, List.mem_singleton, string_eq_mk_iff, firstWord_nil]
    constructor
    · intro h
      exact Or.inl h
    · rintro (h | h)
      · exact h
      · exact absurd h (laterWord_nil _)
  | cons c cs ih =>
    intro cur sep hsep w hw
    by_cases hc : isWhiteSpace c = true
    · rw [firstWord_cons_ws c cs cur w.data hc, laterWord_cons_ws c cs w.data hc]
      cases sep with
      | true =>
        have hcur : cur = [] := hsep rfl
        subst hcur
        simp only [splitAux, hc, if_true]
        rw [ih [] true (fun _ => rfl) w hw]
        constructor
        · intro h
          exact Or.inr h
        · rintro (h | h)
          · exact absurd h hw
          · exact h
      | false =>
        simp only [splitAux, hc, if_true, Bool.false_eq_true, if_false, List.mem_cons,
          string_eq_mk_iff]
        rw [ih [] true (fun _ => rfl) w hw]
    · have hc' : isWhiteSpace c = false := by simpa using hc
      rw [firstWord_cons_nws c cs cur w.data hc', laterWord_cons_nws c cs w.data hc']
      simp only [splitAux, hc', Bool.false_eq_true, if_false]
      exact ih (c :: cur) false (fun h => by cases h) w hw

theorem mem_splitWhiteSpace_iff (s w : String) (hw : w.data ≠ []) :
    w ∈ splitWhiteSpace s ↔ IsWordOf w s := by
  unfold splitWhiteSpace
  rw [mem_splitAux_iff s.data [] false (fun h => by cases h) w hw]
  constructor
  · rintro (⟨run, rest, h, hn, he, hwr⟩ | ⟨pre, post, h, ⟨d, hd, hdw⟩, hn, he⟩)
    · have hwr' : w.data = run := by simpa using hwr
      refine ⟨hw, by rw [hwr']; exact hn, [], rest, by rw [h, hwr']; rfl, by simp, he⟩
    · refine ⟨hw, hn, pre, post, h, ?_, he⟩
      intro c hcl
      rw [hd] at hcl
      cases hcl
      exact hdw
  · rintro ⟨-, hn, pre, post, h, hp, he⟩
    cases hpl : pre.getLast? with
    | none =>
      have hpre : pre = [] := List.getLast?_eq_none_iff.1 hpl
      subst hpre
      left
      exact ⟨w.data, post, by simpa using h, hn, he, by simp⟩
    | some d =>
      right
      exact ⟨pre, post, h, ⟨d, hpl, hp d hpl⟩, hn, he⟩

theorem data_ne_nil_of_jsLength (w : String) (h : 3 < jsLength w) : w.data ≠ [] := by
  intro he
  unfold jsLength at h
  rw [he] at h
  simp at h

theorem jsLength_eq (w : String) :
    jsLength w =
      w.data.length + (w.data.filter (fun c => decide (65536 ≤ c.toNat))).length := by
  unfold jsLength
  induction w.data with
  | nil => rfl
  | cons c cs ih =>
    by_cases h : c.toNat < 65536
    · have h' : ¬ 65536 ≤ c.toNat := by omega
      simp only [List.map_cons, List.sum_cons, h, if_true, ih, List.length_cons,
        List.filter_cons, h', decide_False]
      simp only [Bool.false_eq_true, if_false]
      omega
    · have h' : 65536 ≤ c.toNat := by omega
      simp only [List.map_cons, List.sum_cons, h, if_false, ih, List.length_cons,
        List.filter_cons, h', decide_True, if_true]
      omega

theorem mem_titleWordsOf_iff (lower : String → String) (t w : String) (hw : 3 < jsLength w) :
    w ∈ titleWordsOf lower t ↔ IsWordOf w (lower t) :=
  mem_splitWhiteSpace_iff (lower t) w (data_ne_nil_of_jsLength w hw)

/-- C15.  For every lower-casing function and every ordered result sequence,
`calculateDiversity` returns a sequence of the same length and order in which
every result keeps its other fields, and the `diversityScore` at position `i`
is the number of elements of the set of the white-space separated words of
length above 3 of the lower-cased title at `i` that are a word of none of the
lower-cased titles at the positions before `i`.  A word of a text is a
non-empty run of its characters without white space, preceded by white space
or the start of the text and followed by white space or its end; its length
is its number of UTF-16 code units, one per character and one more for each
character from U+10000 on. -/
theorem calculateDiversity_spec {ι : Type} (lower : String → String)
    (results : List (Candidate ι)) :
    (calculateDiversity lower results).length = results.length ∧
    (calculateDiversity lower results).map (fun s => s.toCandidate) = results ∧
    (∀ (i : Nat) (r : Candidate ι), results[i]? = some r →
      ∃ novel : Finset String,
        (∀ w, w ∈ novel ↔
          IsWordOf w (lower r.title) ∧ 3 < jsLength w ∧
            ∀ t ∈ (results.take i).map (fun x => x.title), ¬ IsWordOf w (lower t)) ∧
        (calculateDiversity lower results)[i]? =
          some { r with diversityScore := novel.card }) ∧
    ∀ w : String, jsLength w =
      w.data.length + (w.data.filter (fun c => decide (65536 ≤ c.toNat))).length := by
  rw [calculateDiversity_eq]
  have hmap := noveltyList_map lower results []
  refine ⟨?_, hmap, ?_, jsLength_eq⟩
  · have := congrArg List.length hmap
    simpa using this
  · intro i r h
    have hget := noveltyList_getElem? lower results [] i r h
    rw [List.nil_append] at hget
    refine ⟨_, ?_, hget⟩
    intro w
    simp only [List.mem_toFinset, List.mem_filter, decide_eq_true_eq]
    constructor
    · rintro ⟨hmem, hlen, hno⟩
      refine ⟨(mem_titleWordsOf_iff lower r.title w hlen).1 hmem, hlen, ?_⟩
      intro t ht hword
      exact hno t ht ((mem_titleWordsOf_iff lower t w hlen).2 hword)
    · rintro ⟨hword, hlen, hno⟩
      refine ⟨(mem_titleWordsOf_iff lower r.title w hlen).2 hword, hlen, ?_⟩
      intro t ht hmem
      exact hno t ht ((mem_titleWordsOf_iff lower t w hlen).1 hmem)

theorem calculateDiversity_sample :
    (calculateDiversity toLowerCase diversityInput).map (fun s => s.diversityScore) =
      [2, 1, 1] ∧
    titleWordsOf toLowerCase " Web  Developers " = ["", "web", "developers", ""] := by
  constructor <;> decide

/-! ## Lemmas on the matrix file reader -/

theorem getUint8_eq (buf : Buffer) (off : Nat) :
    getUint8 buf off =
      if off < buf.length then .ok (buf.getD off 0).toNat else .error .rangeError := by
  unfold getUint8
  by_cases h : off < buf.length
  · simp [h, List.getElem?_eq_getElem h, List.getD_eq_getElem?_getD]
  · simp [h, List.getElem?_eq_none (not_lt.1 h)]

theorem getUint16_eq (buf : Buffer) (off : Nat) :
    getUint16 buf off =
      if off + 1 < buf.length then
        .ok ((buf.getD off 0).toNat + 256 * (buf.getD (off + 1) 0).toNat)
      else .error .rangeError := by
  unfold getUint16
  rw [getUint8_eq, getUint8_eq]
  by_cases h : off + 1 < buf.length
  · have h0 : off < buf.length := by omega
    simp [h, h0, bind, Except.bind, pure, Except.pure]
  · by_cases h0 : off < buf.length
    · simp [h, h0, bind, Except.bind]
    · simp [h, h0, bind, Except.bind]

theorem getUint32_eq (buf : Buffer) (off : Nat) :
    getUint32 buf off =
      if off + 3 < buf.length then
        .ok ((buf.getD off 0).toNat + 256 * (buf.getD (off + 1) 0).toNat +
          65536 * (buf.getD (off + 2) 0).toNat + 16777216 * (buf.getD (off + 3) 0).toNat)
      else .error .rangeError := by
  unfold getUint32
  rw [getUint8_eq, getUint8_eq, getUint8_eq, getUint8_eq]
  by_cases h3 : off + 3 < buf.length
  · have h0 : off < buf.length := by omega
    have h1 : off + 1 < buf.length := by omega
    have h2 : off + 2 < buf.length := by omega
    simp [h0, h1, h2, h3, bind, Except.bind, pure, Except.pure]
  · by_cases h0 : off < buf.length
    · by_cases h1 : off + 1 < buf.length
      · by_cases h2 : off + 2 < buf.length
        · simp [h0, h1, h2, h3, bind, Except.bind]
        · simp [h0, h1, h2, h3, bind, Except.bind]
      · simp [h0, h1, h3, bind, Except.bind]
    · simp [h0, h3, bind, Except.bind]

theorem readLen_eq (buf : Buffer) (h : headerStartOf buf ≤ buf.length) :
    (if majorOf buf ≤ 1 then getUint16 buf 8 else getUint32 buf 8) =
      .ok (headerLenOf buf) := by
  unfold headerStartOf at h
  unfold headerLenOf
  by_cases hm : majorOf buf ≤ 1
  · rw [if_pos hm] at h
    rw [if_pos hm, if_pos hm, getUint16_eq, if_pos (by omega)]
  · rw [if_neg hm] at h
    rw [if_neg hm, if_neg hm, getUint32_eq, if_pos (by omega)]

theorem readLen_error (buf : Buffer) (h : ¬ headerStartOf buf ≤ buf.length) :
    (if majorOf buf ≤ 1 then getUint16 buf 8 else getUint32 buf 8) =
      .error .rangeError := by
  unfold headerStartOf at h
  by_cases hm : majorOf buf ≤ 1
  · rw [if_pos hm] at h
    rw [if_pos hm, getUint16_eq, if_neg (by omega)]
  · rw [if_neg hm] at h
    rw [if_neg hm, getUint32_eq, if_neg (by omega)]

theorem headerStart_ge (buf : Buffer) : 10 ≤ headerStartOf buf := by
  unfold headerStartOf
  split <;> omega

theorem loadNPY_eq (decode : List UInt8 → String) (ok : Bool) (buf : Buffer) :
    loadNPY decode ok buf =
      if ok = false then .error .fetchFailed
      else if dataStartOf buf ≤ buf.length then afterHeader decode buf
      else .error .rangeError := by
  cases ok with
  | false => rfl
  | true =>
    simp only [Bool.true_eq_false, if_false]
    have hge := headerStart_ge buf
    unfold loadNPY
    simp only [Bool.not_true, Bool.false_eq_true, if_false]
    by_cases h6 : 6 < buf.length
    · have e6 : getUint8 buf 6 = .ok (majorOf buf) := by
        rw [getUint8_eq, if_pos h6]
        rfl
      by_cases hst : headerStartOf buf ≤ buf.length
      · have el := readLen_eq buf hst
        by_cases hm : majorOf buf ≤ 1
        · have hs10 : headerStartOf buf = 10 := by simp only [headerStartOf, if_pos hm]
          rw [if_pos hm] at el
          by_cases hh : dataStartOf buf ≤ buf.length
          · have hh' : 10 + headerLenOf buf ≤ buf.length := by
              rw [← hs10]; exact hh
            simp only [e6, el, hm, hh, hh', uint8Array, if_true, bind, Except.bind, pure,
              Except.pure, afterHeader, headerTextOf, dataStartOf, hs10]
            generalize matchShape _ = o
            cases o with
            | none => rfl
            | some p =>
              cases p with
              | mk d1 d2 =>
                simp only []
                cases float32Array buf (10 + headerLenOf buf) (parseInt d1 * parseInt d2) <;> rfl
          · have hh' : ¬ 10 + headerLenOf buf ≤ buf.length := by
              rw [← hs10]; exact hh
            simp only [e6, el, hm, hh, hh', uint8Array, if_true, if_false, bind, Except.bind,
              pure, Except.pure]
        · have hs12 : headerStartOf buf = 12 := by simp only [headerStartOf, if_neg hm]
          rw [if_neg hm] at el
          by_cases hh : dataStartOf buf ≤ buf.length
          · have hh' : 12 + headerLenOf buf ≤ buf.length := by
              rw [← hs12]; exact hh
            simp only [e6, el, hm, hh, hh', uint8Array, if_true, if_false, bind, Except.bind,
              pure, Except.pure, afterHeader, headerTextOf, dataStartOf, hs12]
            generalize matchShape _ = o
            cases o with
            | none => rfl
            | some p =>
              cases p with
              | mk d1 d2 =>
                simp only []
                cases float32Array buf (12 + headerLenOf buf) (parseInt d1 * parseInt d2) <;> rfl
          · have hh' : ¬ 12 + headerLenOf buf ≤ buf.length := by
              rw [← hs12]; exact hh
            simp only [e6, el, hm, hh, hh', uint8Array, if_true, if_false, bind, Except.bind,
              pure, Except.pure]
      · have el := readLen_error buf hst
        have hh : ¬ dataStartOf buf ≤ buf.length := by
          unfold dataStartOf
          omega
        by_cases hm : majorOf buf ≤ 1
        · rw [if_pos hm] at el
          simp only [e6, el, hm, hh, if_true, if_false, bind, Except.bind, pure, Except.pure]
        · rw [if_neg hm] at el
          simp only [e6, el, hm, hh, if_false, bind, Except.bind, pure, Except.pure]
    · have e6 : getUint8 buf 6 = .error .rangeError := by
        rw [getUint8_eq, if_neg h6]
      have hh : ¬ dataStartOf buf ≤ buf.length := by
        unfold dataStartOf
        omega
      simp only [e6, hh, if_false, bind, Except.bind, pure, Except.pure]

/-! ## Lemmas on the shape pattern -/

theorem isDigit_false_of_space (c : Char) (h : isWhiteSpace c = true) : isDigit c = false := by
  simp only [isWhiteSpace, Bool.or_eq_true, Bool.and_eq_true, decide_eq_true_eq] at h
  simp only [isDigit, Bool.and_eq_false_iff, decide_eq_false_iff_not]
  omega

theorem isWhiteSpace_false_of_digit (c : Char) (h : isDigit c = true) :
    isWhiteSpace c = false := by
  cases hs : isWhiteSpace c with
  | false => rfl
  | true =>
    rw [isDigit_false_of_space c hs] at h
    cases h

theorem dropWhile_of_head {p : Char → Bool} (rest : List Char)
    (h : ∀ c, rest.head? = some c → p c = false) : rest.dropWhile p = rest := by
  cases rest with
  | nil => rfl
  | cons a t =>
    have := h a rfl
    simp [List.dropWhile_cons, this]

theorem takeWhile_of_head {p : Char → Bool} (rest : List Char)
    (h : ∀ c, rest.head? = some c → p c = false) : rest.takeWhile p = [] := by
  cases rest with
  | nil => rfl
  | cons a t =>
    have := h a rfl
    simp [List.takeWhile_cons, this]

theorem skipSpaces_append (ws rest : List Char) (hws : ∀ c ∈ ws, isWhiteSpace c = true)
    (hrest : ∀ c, rest.head? = some c → isWhiteSpace c = false) :
    skipSpaces (ws ++ rest) = rest := by
  unfold skipSpaces
  rw [List.dropWhile_append_of_pos hws, dropWhile_of_head rest hrest]

theorem takeDigits_append (d rest : List Char) (hne : d ≠ [])
    (hd : ∀ c ∈ d, isDigit c = true)
    (hrest : ∀ c, rest.head? = some c → isDigit c = false) :
    takeDigits (d ++ rest) = some (d, rest) := by
  unfold takeDigits
  rw [List.takeWhile_append_of_pos hd, List.dropWhile_append_of_pos hd,
    dropWhile_of_head rest hrest, takeWhile_of_head rest hrest, List.append_nil]
  cases d with
  | nil => exact absurd rfl hne
  | cons a t => rfl

theorem head_append_cons (ws t : List Char) (c x : Char)
    (h : (ws ++ c :: t).head? = some x) : x ∈ ws ∨ x = c := by
  cases ws with
  | nil =>
    right
    simpa using h.symm
  | cons a ws =>
    left
    have : a = x := by simpa using h
    rw [← this]
    exact List.mem_cons_self _ _

theorem head_append_digits (d t : List Char) (x : Char) (hne : d ≠ [])
    (h : (d ++ t).head? = some x) : x ∈ d := by
  cases d with
  | nil => exact absurd rfl hne
  | cons a d =>
    have : a = x := by simpa using h
    rw [← this]
    exact List.mem_cons_self _ _

theorem matchShapeAt_of_descriptor (s d1 d2 : List Char) (h : IsShapeDescriptor s d1 d2) :
    matchShapeAt s = some (d1, d2) := by
  obtain ⟨ws1, ws2, ws3, ws4, post, rfl, h1, h2, h3, h4, hn1, hn2, hd1, hd2⟩ := h
  have hcomma : isDigit ',' = false ∧ isWhiteSpace ',' = false := by decide
  have hclose : isDigit ')' = false ∧ isWhiteSpace ')' = false := by decide
  have e1 : skipSpaces (ws1 ++ (d1 ++ (ws2 ++ ',' :: (ws3 ++ (d2 ++ (ws4 ++ ')' :: post)))))) =
      d1 ++ (ws2 ++ ',' :: (ws3 ++ (d2 ++ (ws4 ++ ')' :: post)))) :=
    skipSpaces_append _ _ h1 (fun c hc =>
      isWhiteSpace_false_of_digit c (hd1 c (head_append_digits _ _ c hn1 hc)))
  have e2 : takeDigits (d1 ++ (ws2 ++ ',' :: (ws3 ++ (d2 ++ (ws4 ++ ')' :: post))))) =
      some (d1, ws2 ++ ',' :: (ws3 ++ (d2 ++ (ws4 ++ ')' :: post)))) :=
    takeDigits_append _ _ hn1 hd1 (fun c hc => by
      rcases head_append_cons _ _ _ c hc with hm | rfl
      · exact isDigit_false_of_space c (h2 c hm)
      · exact hcomma.1)
  have e3 : skipSpaces (ws2 ++ ',' :: (ws3 ++ (d2 ++ (ws4 ++ ')' :: post)))) =
      ',' :: (ws3 ++ (d2 ++ (ws4 ++ ')' :: post))) :=
    skipSpaces_append _ _ h2 (fun c hc => by
      have : ',' = c := by simpa using hc
      rw [← this]
      exact hcomma.2)
  have e4 : skipSpaces (ws3 ++ (d2 ++ (ws4 ++ ')' :: post))) = d2 ++ (ws4 ++ ')' :: post) :=
    skipSpaces_append _ _ h3 (fun c hc =>
      isWhiteSpace_false_of_digit c (hd2 c (head_append_digits _ _ c hn2 hc)))
  have e5 : takeDigits (d2 ++ (ws4 ++ ')' :: post)) = some (d2, ws4 ++ ')' :: post) :=
    takeDigits_append _ _ hn2 hd2 (fun c hc => by
      rcases head_append_cons _ _ _ c hc with hm | rfl
      · exact isDigit_false_of_space c (h4 c hm)
      · exact hclose.1)
  have e6 : skipSpaces (ws4 ++ ')' :: post) = ')' :: post :=
    skipSpaces_append _ _ h4 (fun c hc => by
      have : ')' = c := by simpa using hc
      rw [← this]
      exact hclose.2)
  simp only [matchShapeAt, if_true, e1, e2, e3, e4, e5, e6]

theorem matchShape_append (pre s : List Char) (m : List Char × List Char)
    (hpre : ∀ c ∈ pre, c ≠ '(') (hs : matchShapeAt s = some m) :
    matchShape (pre ++ s) = some m := by
  induction pre with
  | nil =>
    cases s with
    | nil => simp [matchShapeAt] at hs
    | cons c t =>
      simp only [List.nil_append, matchShape, hs]
  | cons p pre ih =>
    have hp : p ≠ '(' := hpre p (List.mem_cons_self _ _)
    have hnone : matchShapeAt (p :: (pre ++ s)) = none := by
      simp only [matchShapeAt, hp, if_false]
    show matchShape (p :: (pre ++ s)) = some m
    rw [matchShape, hnone]
    exact ih (fun c hc => hpre c (List.mem_cons_of_mem _ hc))

theorem skipSpaces_split (s : List Char) :
    ∃ ws, s = ws ++ skipSpaces s ∧ ∀ c ∈ ws, isWhiteSpace c = true :=
  ⟨s.takeWhile isWhiteSpace, (List.takeWhile_append_dropWhile isWhiteSpace s).symm,
    fun _ hc => List.mem_takeWhile_imp hc⟩

theorem takeDigits_some (t d r : List Char) (h : takeDigits t = some (d, r)) :
    t = d ++ r ∧ d ≠ [] ∧ ∀ c ∈ d, isDigit c = true := by
  unfold takeDigits at h
  have hsplit := List.takeWhile_append_dropWhile isDigit t
  have hall : ∀ c ∈ t.takeWhile isDigit, isDigit c = true := fun _ hc =>
    List.mem_takeWhile_imp hc
  cases htw : t.takeWhile isDigit with
  | nil => simp [htw] at h
  | cons a ds =>
    rw [htw] at h hsplit hall
    simp only [Option.some.injEq, Prod.mk.injEq] at h
    obtain ⟨rfl, rfl⟩ := h
    exact ⟨hsplit.symm, by simp, hall⟩

theorem matchShapeAt_sound (s d1 d2 : List Char) (h : matchShapeAt s = some (d1, d2)) :
    IsShapeDescriptor s d1 d2 := by
  cases s with
  | nil => simp [matchShapeAt] at h
  | cons c s1 =>
    unfold matchShapeAt at h
    by_cases hc : c = '('
    · simp only [hc, if_true] at h
      obtain ⟨ws1, hs1, hw1⟩ := skipSpaces_split s1
      cases ht1 : takeDigits (skipSpaces s1) with
      | none => simp [ht1] at h
      | some p1 =>
        obtain ⟨e1, s2⟩ := p1
        simp only [ht1] at h
        obtain ⟨hsp1, hne1, hdig1⟩ := takeDigits_some _ _ _ ht1
        obtain ⟨ws2, hs2, hw2⟩ := skipSpaces_split s2
        cases hk2 : skipSpaces s2 with
        | nil => simp [hk2] at h
        | cons c2 s3 =>
          simp only [hk2] at h
          by_cases hc2 : c2 = ','
          · simp only [hc2, if_true] at h
            obtain ⟨ws3, hs3, hw3⟩ := skipSpaces_split s3
            cases ht2 : takeDigits (skipSpaces s3) with
            | none => simp [ht2] at h
            | some p2 =>
              obtain ⟨e2, s4⟩ := p2
              simp only [ht2] at h
              obtain ⟨hsp2, hne2, hdig2⟩ := takeDigits_some _ _ _ ht2
              obtain ⟨ws4, hs4, hw4⟩ := skipSpaces_split s4
              cases hk4 : skipSpaces s4 with
              | nil => simp [hk4] at h
              | cons c3 post =>
                simp only [hk4] at h
                by_cases hc3 : c3 = ')'
                · simp only [hc3, if_true, Option.some.injEq, Prod.mk.injEq] at h
                  obtain ⟨rfl, rfl⟩ := h
                  refine ⟨ws1, ws2, ws3, ws4, post, ?_, hw1, hw2, hw3, hw4, hne1, hne2,
                    hdig1, hdig2⟩
                  rw [hc, hs1, hsp1, hs2, hk2, hc2, hs3, hsp2, hs4, hk4, hc3]
                · simp [hc3] at h
          · simp [hc2] at h
    · simp [hc] at h

theorem matchShape_sound (text d1 d2 : List Char) (h : matchShape text = some (d1, d2)) :
    ∃ pre s, text = pre ++ s ∧ IsShapeDescriptor s d1 d2 := by
  induction text with
  | nil => simp [matchShape] at h
  | cons c t ih =>
    rw [matchShape] at h
    cases hm : matchShapeAt (c :: t) with
    | some m =>
      rw [hm] at h
      simp only [Option.some.injEq] at h
      subst h
      exact ⟨[], c :: t, rfl, matchShapeAt_sound _ _ _ hm⟩
    | none =>
      rw [hm] at h
      obtain ⟨pre, s, hps, hdesc⟩ := ih h
      exact ⟨c :: pre, s, by rw [hps]; rfl, hdesc⟩

theorem parseInt_fold (ds : List Char) :
    ∀ n : Nat, ds.foldl (fun n c => 10 * n + (c.toNat - 48)) n =
      n * 10 ^ ds.length + decimalValue ds := by
  induction ds with
  | nil => intro n; simp [decimalValue]
  | cons d ds ih =>
    intro n
    rw [List.foldl_cons, ih]
    simp only [decimalValue, List.map_cons, List.reverse_cons, Nat.ofDigits_append,
      Nat.ofDigits_singleton, List.length_reverse, List.length_map, List.length_cons]
    ring

theorem parseInt_eq (ds : List Char) : parseInt ds = decimalValue ds := by
  unfold parseInt
  rw [parseInt_fold]
  simp

theorem matchShape_of_shapeIs (text : List Char) (rows cols : Nat)
    (h : ShapeIs text rows cols) :
    ∃ d1 d2, matchShape text = some (d1, d2) ∧ parseInt d1 = rows ∧ parseInt d2 = cols := by
  obtain ⟨pre, s, d1, d2, rfl, hpre, hdesc, hr, hc⟩ := h
  refine ⟨d1, d2, matchShape_append pre s _ hpre (matchShapeAt_of_descriptor s d1 d2 hdesc),
    ?_, ?_⟩
  · rw [parseInt_eq, hr]
  · rw [parseInt_eq, hc]

/-! ## Loading a well-formed matrix file (C18) -/

theorem afterHeader_of_shapeIs (decode : List UInt8 → String) (buf : Buffer) (rows cols : Nat)
    (h : ShapeIs (headerTextOf decode buf) rows cols) :
    afterHeader decode buf =
      match float32Array buf (dataStartOf buf) (rows * cols) with
      | .error e => .error e
      | .ok floats => .ok { rows := rows, cols := cols, data := floats } := by
  obtain ⟨d1, d2, hm, hr, hc⟩ := matchShape_of_shapeIs _ rows cols h
  unfold afterHeader
  rw [hm]
  simp only [hr, hc]

/-- C18.  For a well-formed matrix file, `loadNPY` returns the shape written in the
header and the `rows*cols` little-endian 32-bit words that follow the header, in
row-major order: the entry of row `r` and column `c` is the word at byte
`dataStart + 4*(r*cols + c)`.  The major version is byte 6; up to version 1 the
header text starts at offset 10 and its length is the little-endian 16-bit
integer at offset 8, otherwise it starts at offset 12 and its length is the
little-endian 32-bit integer at offset 8; the data start right after the
header. -/
theorem loadNPY_wellFormed (decode : List UInt8 → String) (buf : Buffer) (rows cols : Nat)
    (h : WellFormedFile decode buf rows cols) :
    loadNPY decode true buf =
      .ok { rows := rows, cols := cols,
            data := (List.range (rows * cols)).map
              (fun i => wordAt buf (dataStartOf buf + 4 * i)) } ∧
    (∀ r c, r < rows → c < cols →
      ((List.range (rows * cols)).map
        (fun i => wordAt buf (dataStartOf buf + 4 * i)))[r * cols + c]? =
        some (wordAt buf (dataStartOf buf + 4 * (r * cols + c)))) ∧
    majorOf buf = (buf.getD 6 0).toNat ∧
    (majorOf buf ≤ 1 → headerStartOf buf = 10 ∧
      headerLenOf buf = (buf.getD 8 0).toNat + 256 * (buf.getD 9 0).toNat) ∧
    (¬ majorOf buf ≤ 1 → headerStartOf buf = 12 ∧
      headerLenOf buf = (buf.getD 8 0).toNat + 256 * (buf.getD 9 0).toNat +
        65536 * (buf.getD 10 0).toNat + 16777216 * (buf.getD 11 0).toNat) ∧
    dataStartOf buf = headerStartOf buf + headerLenOf buf ∧
    headerTextOf decode buf =
      (decode ((buf.drop (headerStartOf buf)).take (headerLenOf buf))).data := by
  obtain ⟨hfit, hshape, halign, hdata⟩ := h
  refine ⟨?_, ?_, rfl, ?_, ?_, rfl, rfl⟩
  · rw [loadNPY_eq]
    simp only [Bool.true_eq_false, if_false, if_pos hfit]
    rw [afterHeader_of_shapeIs decode buf rows cols hshape]
    unfold float32Array
    simp only [halign, ne_eq, not_true_eq_false, if_false, if_pos hdata]
  · intro r c hr hc
    have hlt : r * cols + c < rows * cols := by
      have h1 : (r + 1) * cols ≤ rows * cols := Nat.mul_le_mul_right _ hr
      rw [Nat.succ_mul] at h1
      omega
    rw [List.getElem?_map, List.getElem?_range hlt]
    rfl
  · intro hm
    simp only [headerStartOf, headerLenOf, if_pos hm, and_self]
  · intro hm
    simp only [headerStartOf, headerLenOf, if_neg hm, and_self]

theorem flatten_replicate_length (n : Nat) :
    ((List.replicate n [(0 : UInt8), 0, 128, 63]).flatten).length = 4 * n := by
  rw [List.length_flatten, List.map_replicate, List.sum_replicate]
  simp [Nat.mul_comm]

theorem file64x8_length : file64x8.length = 2176 := by
  have h : (asciiBytes header64x8).length = 118 := by decide
  simp only [file64x8, List.length_append, h, flatten_replicate_length]
  rfl

theorem file64_length : file64.length = 384 := by
  have h : (asciiBytes header64).length = 118 := by decide
  simp only [file64, List.length_append, h, flatten_replicate_length]
  rfl

theorem fileTruncated_length : fileTruncated.length = 2172 := by
  have h : (asciiBytes header64x8).length = 118 := by decide
  simp only [fileTruncated, List.length_append, h, flatten_replicate_length]
  rfl

set_option maxRecDepth 4000 in
theorem file64x8_headerText : headerTextOf asciiDecode file64x8 = header64x8 := by decide

set_option maxRecDepth 4000 in
theorem file64_headerText : headerTextOf asciiDecode file64 = header64 := by decide

set_option maxRecDepth 4000 in
theorem fileTruncated_headerText : headerTextOf asciiDecode fileTruncated = header64x8 := by
  decide

theorem header64x8_shape : ShapeIs header64x8 64 8 :=
  ⟨headerPrefix,
    "(64, 8), \x7d".data ++ List.replicate 57 (Char.ofNat 32) ++ [Char.ofNat 10],
    "64".data, "8".data, by decide, by decide,
    ⟨[], [], [Char.ofNat 32], [],
      ", \x7d".data ++ List.replicate 57 (Char.ofNat 32) ++ [Char.ofNat 10],
      by decide, by decide, by decide, by decide, by decide, by decide, by decide, by decide,
      by decide⟩,
    by decide, by decide⟩

theorem file64x8_wellFormed : WellFormedFile asciiDecode file64x8 64 8 := by
  have hd : dataStartOf file64x8 = 128 := by decide
  refine ⟨?_, ?_, ?_, ?_⟩
  · rw [hd, file64x8_length]
    decide
  · rw [file64x8_headerText]
    exact header64x8_shape
  · rw [hd]
  · rw [hd, file64x8_length]

theorem loadNPY_wellFormed_witness :
    WellFormedFile asciiDecode file64x8 64 8 ∧
    loadNPY asciiDecode true file64x8 =
      .ok { rows := 64, cols := 8,
            data := (List.range (64 * 8)).map
              (fun i => wordAt file64x8 (dataStartOf file64x8 + 4 * i)) } ∧
    ((List.range (64 * 8)).map
      (fun i => wordAt file64x8 (dataStartOf file64x8 + 4 * i))).length = 512 ∧
    majorOf file64x8 = 1 ∧ headerStartOf file64x8 = 10 ∧ headerLenOf file64x8 = 118 ∧
    wordAt file64x8 (dataStartOf file64x8 + 4 * 0) = 1065353216 ∧
    float32Value 1065353216 = some 1 :=
  ⟨file64x8_wellFormed,
    (loadNPY_wellFormed asciiDecode file64x8 64 8 file64x8_wellFormed).1,
    by simp, by decide, by decide, by decide, by decide, by norm_num [float32Value]⟩

/-! ## Failures of the matrix file reader (C19) -/

theorem matchShape_isSome_append (pre s : List Char) (m : List Char × List Char)
    (hs : matchShapeAt s = some m) : (matchShape (pre ++ s)).isSome = true := by
  induction pre with
  | nil =>
    cases s with
    | nil => simp [matchShapeAt] at hs
    | cons c t =>
      show (matchShape (c :: t)).isSome = true
      rw [matchShape, hs]
      rfl
  | cons p pre ih =>
    show (matchShape (p :: (pre ++ s))).isSome = true
    rw [matchShape]
    cases matchShapeAt (p :: (pre ++ s)) with
    | some m' => rfl
    | none => exact ih

theorem matchShape_none_iff (text : List Char) :
    matchShape text = none ↔ ¬ HasShapeDescriptor text := by
  constructor
  · rintro hnone ⟨pre, s, d1, d2, rfl, hdesc⟩
    have := matchShape_isSome_append pre s _ (matchShapeAt_of_descriptor s d1 d2 hdesc)
    rw [hnone] at this
    cases this
  · intro hno
    cases hm : matchShape text with
    | none => rfl
    | some m =>
      obtain ⟨d1, d2⟩ := m
      obtain ⟨pre, s, hps, hdesc⟩ := matchShape_sound text d1 d2 hm
      exact absurd ⟨pre, s, d1, d2, hps, hdesc⟩ hno

theorem float32Array_ok (buf : Buffer) (off n : Nat) (floats : List Nat)
    (h : float32Array buf off n = .ok floats) :
    floats.length = n ∧ off % 4 = 0 ∧ off + 4 * n ≤ buf.length := by
  unfold float32Array at h
  by_cases ha : off % 4 = 0
  · by_cases hf : off + 4 * n ≤ buf.length
    · simp only [ha, ne_eq, not_true_eq_false, if_false, if_pos hf, Except.ok.injEq] at h
      subst h
      exact ⟨by simp, ha, hf⟩
    · simp [ha, hf] at h
  · simp [ha] at h

theorem loadNPY_ok (decode : List UInt8 → String) (ok : Bool) (buf : Buffer) (npy : LoadedNpy)
    (h : loadNPY decode ok buf = .ok npy) :
    ok = true ∧ dataStartOf buf ≤ buf.length ∧
    HasShapeDescriptor (headerTextOf decode buf) ∧
    npy.data.length = npy.rows * npy.cols ∧ dataStartOf buf % 4 = 0 ∧
    dataStartOf buf + 4 * (npy.rows * npy.cols) ≤ buf.length := by
  rw [loadNPY_eq] at h
  cases ok with
  | false => simp at h
  | true =>
    simp only [Bool.true_eq_false, if_false] at h
    by_cases hfit : dataStartOf buf ≤ buf.length
    · rw [if_pos hfit] at h
      unfold afterHeader at h
      cases hm : matchShape (headerTextOf decode buf) with
      | none => simp [hm] at h
      | some m =>
        obtain ⟨d1, d2⟩ := m
        simp only [hm] at h
        have hhas : HasShapeDescriptor (headerTextOf decode buf) := by
          by_contra hno
          rw [(matchShape_none_iff _).2 hno] at hm
          cases hm
        cases hf : float32Array buf (dataStartOf buf) (parseInt d1 * parseInt d2) with
        | error e => simp [hf] at h
        | ok floats =>
          simp only [hf, Except.ok.injEq] at h
          subst h
          obtain ⟨h1, h2, h3⟩ := float32Array_ok _ _ _ _ hf
          exact ⟨rfl, hfit, hhas, h1, h2, h3⟩
    · rw [if_neg hfit] at h
      cases h

/-- C19.  `loadNPY` fails whenever the header text contains no shape descriptor of
two integers, and whenever fewer than `rows*cols` 32-bit floats follow the header
of a file whose shape descriptor is `(rows, cols)`; a matrix it returns always
holds exactly `rows*cols` floats, all of them inside the file.  The file with
shape `(64,)` and the 64 by 8 file cut after 511 floats are both rejected. -/
theorem loadNPY_failures (decode : List UInt8 → String) (ok : Bool) (buf : Buffer) :
    (¬ HasShapeDescriptor (headerTextOf decode buf) →
      ∃ e, loadNPY decode ok buf = .error e) ∧
    (∀ rows cols, ShapeIs (headerTextOf decode buf) rows cols →
      buf.length < dataStartOf buf + 4 * (rows * cols) →
      ∃ e, loadNPY decode ok buf = .error e) ∧
    (∀ npy, loadNPY decode ok buf = .ok npy →
      HasShapeDescriptor (headerTextOf decode buf) ∧
      npy.data.length = npy.rows * npy.cols ∧
      dataStartOf buf + 4 * (npy.rows * npy.cols) ≤ buf.length) ∧
    (¬ HasShapeDescriptor (headerTextOf asciiDecode file64) ∧
      loadNPY asciiDecode true file64 = .error .shapeError) ∧
    (ShapeIs (headerTextOf asciiDecode fileTruncated) 64 8 ∧
      fileTruncated.length < dataStartOf fileTruncated + 4 * (64 * 8) ∧
      loadNPY asciiDecode true fileTruncated = .error .rangeError) := by
  refine ⟨?_, ?_, ?_, ⟨?_, ?_⟩, ⟨?_, ?_, ?_⟩⟩
  · intro hno
    cases h : loadNPY decode ok buf with
    | error e => exact ⟨e, rfl⟩
    | ok npy => exact absurd (loadNPY_ok decode ok buf npy h).2.2.1 hno
  · intro rows cols hshape hshort
    cases h : loadNPY decode ok buf with
    | error e => exact ⟨e, rfl⟩
    | ok npy =>
      exfalso
      obtain ⟨hok, hfit, -, -, -, hdata⟩ := loadNPY_ok decode ok buf npy h
      rw [loadNPY_eq, hok] at h
      simp only [Bool.true_eq_false, if_false, if_pos hfit] at h
      rw [afterHeader_of_shapeIs decode buf rows cols hshape] at h
      cases hf : float32Array buf (dataStartOf buf) (rows * cols) with
      | error e => simp [hf] at h
      | ok floats =>
        obtain ⟨-, -, h3⟩ := float32Array_ok _ _ _ _ hf
        omega
  · intro npy h
    obtain ⟨-, -, h1, h2, -, h3⟩ := loadNPY_ok decode ok buf npy h
    exact ⟨h1, h2, h3⟩
  · rw [file64_headerText, ← matchShape_none_iff]
    decide
  · have hd : dataStartOf file64 = 128 := by decide
    have hm : matchShape (headerTextOf asciiDecode file64) = none := by
      rw [file64_headerText]
      decide
    rw [loadNPY_eq]
    simp only [Bool.true_eq_false, if_false, hd, file64_length, afterHeader, hm]
    rfl
  · rw [fileTruncated_headerText]
    exact header64x8_shape
  · have hd : dataStartOf fileTruncated = 128 := by decide
    rw [hd, fileTruncated_length]
    decide
  · have hd : dataStartOf fileTruncated = 128 := by decide
    have hshape : ShapeIs (headerTextOf asciiDecode fileTruncated) 64 8 := by
      rw [fileTruncated_headerText]
      exact header64x8_shape
    rw [loadNPY_eq]
    simp only [Bool.true_eq_false, if_false, hd, fileTruncated_length]
    rw [if_pos (by decide), afterHeader_of_shapeIs asciiDecode fileTruncated 64 8 hshape]
    simp only [float32Array, hd, fileTruncated_length]
    rfl

/-! ## Candidates have at least one score (C22) -/

/-- C22.  Every candidate returned by `performSearch`, whatever `minMatches` is,
has `matchCount` equal to the length of `domains` and to the length of `scores`,
and at least 1; so the ranker's `avgScore`, the binary64 sum of the scores
divided by `scores.length`, divides by a non-zero number. -/
theorem performSearch_lengths {ι : Type} [DecidableEq ι] (store : Store ι)
    (userVecs : UserVecs) (thresholdSet : ThresholdSet) (minMatches topK : Nat)
    (tl : List (Domain × List (Item ι)))
    (htl : topLists store userVecs thresholdSet topK = .ok tl) :
    ∃ cs, performSearch store userVecs thresholdSet minMatches topK = .ok cs ∧
      ∀ c ∈ cs, c.matchCount = c.domains.length ∧ c.matchCount = c.scores.length ∧
        1 ≤ c.matchCount ∧ (c.scores.length : ℚ) ≠ 0 ∧
        ∀ (prefs : Prefs) (answers : Answers) (d : Nat),
          (rankOne prefs answers { toCandidate := c, diversityScore := d }).avgScore =
            fdiv (c.scores.foldl (fun x y => fadd x y) 0) (c.scores.length : ℚ) := by
  refine ⟨_, performSearch_of_topLists store userVecs thresholdSet minMatches topK tl htl, ?_⟩
  intro c hc
  obtain ⟨e, fs, hfor, hspec⟩ := (mem_values_aggregate tl c).1 (List.mem_filter.1 hc).1
  have hd : c.matchCount = c.domains.length := by
    rw [hspec]
    simp [specCandidate]
  have hs : c.matchCount = c.scores.length := by
    rw [hspec]
    simp [specCandidate]
  have h1 : 1 ≤ c.matchCount := by
    rw [hspec]
    simp [specCandidate]
  have hne : (c.scores.length : ℚ) ≠ 0 := by
    rw [← hs]
    exact_mod_cast Nat.one_le_iff_ne_zero.1 h1
  exact ⟨hd, hs, h1, hne, fun _ _ _ => rfl⟩

theorem performSearch_lengths_witness :
    topLists sampleStore sampleVecs SIM_THRESHOLD_STRICT 5 = .ok sampleLists ∧
    ∃ cs, performSearch sampleStore sampleVecs SIM_THRESHOLD_STRICT 0 5 = .ok cs ∧
      ∀ c ∈ cs, c.matchCount = c.domains.length ∧ c.matchCount = c.scores.length ∧
        1 ≤ c.matchCount ∧ (c.scores.length : ℚ) ≠ 0 ∧
        ∀ (prefs : Prefs) (answers : Answers) (d : Nat),
          (rankOne prefs answers { toCandidate := c, diversityScore := d }).avgScore =
            fdiv (c.scores.foldl (fun x y => fadd x y) 0) (c.scores.length : ℚ) :=
  ⟨sample_topLists_strict,
    performSearch_lengths sampleStore sampleVecs SIM_THRESHOLD_STRICT 0 5 sampleLists
      sample_topLists_strict⟩

/-! ## Monotone relaxation (C21) -/

theorem survivorAt_filter {ι : Type} (userVec : List ℚ) (idx : DomainIndex ι) (lo hi : ℚ)
    (h : lo ≤ hi) (r : Nat) :
    (survivorAt userVec idx lo r).filter (fun it => decide (hi ≤ it.score)) =
      survivorAt userVec idx hi r := by
  unfold survivorAt
  cases idx.meta[r]? with
  | none => rfl
  | some m =>
    simp only
    by_cases hhi : hi ≤ rowScore userVec idx.npy.data idx.npy.cols r
    · have hlo : lo ≤ rowScore userVec idx.npy.data idx.npy.cols r := le_trans h hhi
      simp [Option.filter, hhi, hlo]
    · by_cases hlo : lo ≤ rowScore userVec idx.npy.data idx.npy.cols r
      · simp [Option.filter, hhi, hlo]
      · simp [Option.filter, hhi, hlo]

theorem survivors_filter {ι : Type} (userVec : List ℚ) (idx : DomainIndex ι) (lo hi : ℚ)
    (h : lo ≤ hi) :
    survivors userVec idx hi =
      (survivors userVec idx lo).filter (fun it => decide (hi ≤ it.score)) := by
  unfold survivors
  rw [List.filter_filterMap]
  congr 1
  funext r
  exact (survivorAt_filter userVec idx lo hi h r).symm

theorem isStableSortDesc_filter {α : Type} (key : α → ℚ) (p : α → Bool) (l s : List α)
    (h : IsStableSortDesc key l s) : IsStableSortDesc key (l.filter p) (s.filter p) := by
  refine ⟨h.1.filter p, h.2.1.filter p, ?_⟩
  intro v
  have e : ∀ t : List α, (t.filter p).filter (fun a => decide (key a = v)) =
      (t.filter (fun a => decide (key a = v))).filter p := by
    intro t
    rw [List.filter_filter, List.filter_filter]
    congr 1
    funext a
    exact Bool.and_comm _ _
  rw [e s, e l, h.2.2 v]

theorem sorted_split {α : Type} (key : α → ℚ) (th : ℚ) (s : List α)
    (h : s.Pairwise (fun a b => key b ≤ key a)) :
    s = s.filter (fun a => decide (th ≤ key a)) ++
      s.filter (fun a => !decide (th ≤ key a)) := by
  induction s with
  | nil => rfl
  | cons a t ih =>
    have ht := List.pairwise_cons.1 h
    by_cases ha : th ≤ key a
    · simp only [List.filter_cons, ha, decide_True, if_true, Bool.not_true,
        Bool.false_eq_true, if_false, List.cons_append]
      rw [← ih ht.2]
    · have hall : ∀ b ∈ t, ¬ th ≤ key b := fun b hb hle => ha (le_trans hle (ht.1 b hb))
      have h1 : t.filter (fun a => decide (th ≤ key a)) = [] := by
        rw [List.filter_eq_nil_iff]
        intro b hb
        simpa using hall b hb
      have h2 : t.filter (fun a => !decide (th ≤ key a)) = t := by
        rw [List.filter_eq_self]
        intro b hb
        simpa using hall b hb
      simp [List.filter_cons, ha, h1, h2]

theorem arraySort_survivors_append {ι : Type} (userVec : List ℚ) (idx : DomainIndex ι)
    (lo hi : ℚ) (h : lo ≤ hi) :
    ∃ rest, arraySort (fun a b => b.score - a.score) (survivors userVec idx lo) =
      arraySort (fun a b : Item ι => b.score - a.score) (survivors userVec idx hi) ++ rest := by
  have hst := arraySort_stable Item.score (survivors userVec idx lo)
  have hf := isStableSortDesc_filter Item.score (fun it => decide (hi ≤ it.score)) _ _ hst
  rw [← survivors_filter userVec idx lo hi h] at hf
  have hu := stableSortDesc_unique Item.score _ _ _
    (arraySort_stable Item.score (survivors userVec idx hi)) hf
  refine ⟨(arraySort (fun a b => b.score - a.score) (survivors userVec idx lo)).filter
    (fun a => !decide (hi ≤ a.score)), ?_⟩
  have hsplit := sorted_split Item.score hi _ hst.2.1
  rw [← hu] at hsplit
  exact hsplit

theorem topListOf_append {ι : Type} (store : Store ι) (userVec : List ℚ) (domain : Domain)
    (k : Nat) (lower upper : ThresholdSet) (h : ThresholdsBelow lower upper) :
    ∃ rest, topListOf store userVec domain k lower =
      topListOf store userVec domain k upper ++ rest := by
  obtain ⟨rest, hrest⟩ := arraySort_survivors_append userVec (store domain) _ _ (h domain)
  unfold topListOf
  rw [hrest, List.take_append_eq_append_take]
  exact ⟨_, rfl⟩

theorem topK_ok_dim {ι : Type} (store : Store ι) (userVec : List ℚ) (domain : Domain)
    (k : Nat) (thresholdSet : ThresholdSet) (ls : List (Item ι))
    (h : topKBySimilarityDomain store userVec domain k thresholdSet = .ok ls) :
    userVec.length = (store domain).npy.cols := by
  by_contra hne
  rw [topK_dim_error store userVec domain k thresholdSet hne] at h
  cases h

theorem topK_relax {ι : Type} (store : Store ι) (userVec : List ℚ) (domain : Domain)
    (k : Nat) (lower upper : ThresholdSet) (hwf : store.WellFormed)
    (h : ThresholdsBelow lower upper) (ls : List (Item ι))
    (hls : topKBySimilarityDomain store userVec domain k upper = .ok ls) :
    ∃ rest, topKBySimilarityDomain store userVec domain k lower = .ok (ls ++ rest) := by
  have hdim := topK_ok_dim store userVec domain k upper ls hls
  rw [topK_eq store userVec domain k upper (hwf _) hdim] at hls
  have hl : ls = topListOf store userVec domain k upper := by
    cases hls
    rfl
  obtain ⟨rest, hrest⟩ := topListOf_append store userVec domain k lower upper h
  refine ⟨rest, ?_⟩
  rw [topK_eq store userVec domain k lower (hwf _) hdim, hl, ← hrest]
  rfl

theorem topLists_explicit {ι : Type} (store : Store ι) (userVecs : UserVecs)
    (thresholdSet : ThresholdSet) (topK : Nat) (hwf : store.WellFormed)
    (hdim : DimsMatch store userVecs) :
    topLists store userVecs thresholdSet topK =
      .ok [(Domain.skills, topListOf store userVecs.skills Domain.skills topK thresholdSet),
        (Domain.knowledge,
          topListOf store userVecs.knowledge Domain.knowledge topK thresholdSet),
        (Domain.tasks, topListOf store userVecs.tasks Domain.tasks topK thresholdSet),
        (Domain.occ, topListOf store userVecs.occ Domain.occ topK thresholdSet)] := by
  unfold topLists
  rw [topK_eq store _ Domain.skills topK thresholdSet (hwf _) hdim.1,
    topK_eq store _ Domain.knowledge topK thresholdSet (hwf _) hdim.2.1,
    topK_eq store _ Domain.tasks topK thresholdSet (hwf _) hdim.2.2.1,
    topK_eq store _ Domain.occ topK thresholdSet (hwf _) hdim.2.2.2]
  rfl

theorem entriesOf_sublist {ι : Type} (tl₁ tl₂ : List (Domain × List (Item ι)))
    (h : List.Forall₂ (fun a b => a.1 = b.1 ∧ ∃ r, b.2 = a.2 ++ r) tl₁ tl₂) :
    (entriesOf tl₁).Sublist (entriesOf tl₂) := by
  induction h with
  | nil => exact List.Sublist.refl _
  | @cons a b l₁ l₂ hab _ ih =>
    obtain ⟨hd, r, hr⟩ := hab
    unfold entriesOf at ih ⊢
    rw [List.flatMap_cons, List.flatMap_cons, hr, hd]
    refine List.Sublist.append ?_ ih
    exact (List.sublist_append_left a.2 r).map _

theorem performSearch_relax {ι : Type} [DecidableEq ι] (store : Store ι) (userVecs : UserVecs)
    (lower upper : ThresholdSet) (minLower minUpper topK : Nat) (hwf : store.WellFormed)
    (h : ThresholdsBelow lower upper) (hmin : minLower ≤ minUpper)
    (cs : List (Candidate ι))
    (hcs : performSearch store userVecs upper minUpper topK = .ok cs) :
    ∃ cr, performSearch store userVecs lower minLower topK = .ok cr ∧
      ∀ c ∈ cs, ∃ c' ∈ cr, c'.id = c.id ∧ c.matchCount ≤ c'.matchCount := by
  have hdim : DimsMatch store userVecs := by
    by_contra hno
    obtain ⟨d, hd, -⟩ := performSearch_dim_error store userVecs upper minUpper topK hwf hno
    rw [hd] at hcs
    cases hcs
  have hu := topLists_explicit store userVecs upper topK hwf hdim
  have hl := topLists_explicit store userVecs lower topK hwf hdim
  have hsub : (entriesOf
      [(Domain.skills, topListOf store userVecs.skills Domain.skills topK upper),
        (Domain.knowledge, topListOf store userVecs.knowledge Domain.knowledge topK upper),
        (Domain.tasks, topListOf store userVecs.tasks Domain.tasks topK upper),
        (Domain.occ, topListOf store userVecs.occ Domain.occ topK upper)]).Sublist
      (entriesOf
      [(Domain.skills, topListOf store userVecs.skills Domain.skills topK lower),
        (Domain.knowledge, topListOf store userVecs.knowledge Domain.knowledge topK lower),
        (Domain.tasks, topListOf store userVecs.tasks Domain.tasks topK lower),
        (Domain.occ, topListOf store userVecs.occ Domain.occ topK lower)]) := by
    apply entriesOf_sublist
    refine List.Forall₂.cons ⟨rfl, ?_⟩ (List.Forall₂.cons ⟨rfl, ?_⟩
      (List.Forall₂.cons ⟨rfl, ?_⟩ (List.Forall₂.cons ⟨rfl, ?_⟩ List.Forall₂.nil)))
    · exact topListOf_append store userVecs.skills Domain.skills topK lower upper h
    · exact topListOf_append store userVecs.knowledge Domain.knowledge topK lower upper h
    · exact topListOf_append store userVecs.tasks Domain.tasks topK lower upper h
    · exact topListOf_append store userVecs.occ Domain.occ topK lower upper h
  rw [performSearch_of_topLists store userVecs upper minUpper topK _ hu] at hcs
  cases hcs
  refine ⟨_, performSearch_of_topLists store userVecs lower minLower topK _ hl, ?_⟩
  intro c hc
  have hmem := List.mem_filter.1 hc
  obtain ⟨e, fs, hfor, hspec⟩ := (mem_values_aggregate _ c).1 hmem.1
  have hmc : c.matchCount = (e :: fs).length := by
    conv_lhs => rw [hspec]
    rfl
  have hge : minUpper ≤ c.matchCount := by simpa using hmem.2
  have hfs := (hsub.filter (fun x => decide (x.2.id = c.id))).length_le
  have hfor' : entriesFor c.id (entriesOf
      [(Domain.skills, topListOf store userVecs.skills Domain.skills topK upper),
        (Domain.knowledge, topListOf store userVecs.knowledge Domain.knowledge topK upper),
        (Domain.tasks, topListOf store userVecs.tasks Domain.tasks topK upper),
        (Domain.occ, topListOf store userVecs.occ Domain.occ topK upper)]) = e :: fs := hfor
  unfold entriesFor at hfor'
  rw [hfor'] at hfs
  cases hlow : entriesFor c.id (entriesOf
      [(Domain.skills, topListOf store userVecs.skills Domain.skills topK lower),
        (Domain.knowledge, topListOf store userVecs.knowledge Domain.knowledge topK lower),
        (Domain.tasks, topListOf store userVecs.tasks Domain.tasks topK lower),
        (Domain.occ, topListOf store userVecs.occ Domain.occ topK lower)]) with
  | nil =>
    unfold entriesFor at hlow
    rw [hlow] at hfs
    simp at hfs
  | cons e' fs' =>
    have hlow' := hlow
    unfold entriesFor at hlow'
    rw [hlow'] at hfs
    have hin := (mem_values_aggregate _ (specCandidate c.id e'.2.title (e' :: fs'))).2
      ⟨e', fs', hlow, rfl⟩
    refine ⟨specCandidate c.id e'.2.title (e' :: fs'), ?_, rfl, ?_⟩
    · rw [List.mem_filter]
      refine ⟨hin, ?_⟩
      have : minLower ≤ (e' :: fs').length := by omega
      simpa [specCandidate] using this
    · rw [hmc]
      exact hfs

theorem thresholds_relaxed_below_strict :
    ThresholdsBelow SIM_THRESHOLD_RELAXED SIM_THRESHOLD_STRICT := by
  intro d
  cases d <;> norm_num [SIM_THRESHOLD_RELAXED, SIM_THRESHOLD_STRICT]

theorem thresholds_min_below_relaxed :
    ThresholdsBelow SIM_THRESHOLD_MIN SIM_THRESHOLD_RELAXED := by
  intro d
  cases d <;> norm_num [SIM_THRESHOLD_MIN, SIM_THRESHOLD_RELAXED]

/-- C21.  On a well-formed store, for every query vector and `k`, the top-k list
of a domain under the strict thresholds is a prefix of its top-k list under the
relaxed thresholds, and the relaxed one a prefix of the minimal one; and every
candidate returned by `performSearch` at the strict level (minimum match 2) has
a candidate of the same id and no smaller `matchCount` in the result of the
relaxed level, and likewise from the relaxed to the minimal level.  The strict
calls do return when the query vectors have the dimensions of the indices. -/
theorem cascade_monotone {ι : Type} [DecidableEq ι] (store : Store ι) (userVecs : UserVecs)
    (k : Nat) (hwf : store.WellFormed) :
    (∀ (d : Domain) (userVec : List ℚ) (ls : List (Item ι)),
      topKBySimilarityDomain store userVec d k SIM_THRESHOLD_STRICT = .ok ls →
      ∃ rest, topKBySimilarityDomain store userVec d k SIM_THRESHOLD_RELAXED =
        .ok (ls ++ rest)) ∧
    (∀ (d : Domain) (userVec : List ℚ) (lr : List (Item ι)),
      topKBySimilarityDomain store userVec d k SIM_THRESHOLD_RELAXED = .ok lr →
      ∃ rest, topKBySimilarityDomain store userVec d k SIM_THRESHOLD_MIN =
        .ok (lr ++ rest)) ∧
    (∀ cs : List (Candidate ι),
      performSearch store userVecs SIM_THRESHOLD_STRICT MIN_MATCHES_STRICT k = .ok cs →
      ∃ cr, performSearch store userVecs SIM_THRESHOLD_RELAXED MIN_MATCHES_NORMAL k = .ok cr ∧
        ∀ c ∈ cs, ∃ c' ∈ cr, c'.id = c.id ∧ c.matchCount ≤ c'.matchCount) ∧
    (∀ cr : List (Candidate ι),
      performSearch store userVecs SIM_THRESHOLD_RELAXED MIN_MATCHES_NORMAL k = .ok cr →
      ∃ cm, performSearch store userVecs SIM_THRESHOLD_MIN MIN_MATCHES_RELAXED k = .ok cm ∧
        ∀ c ∈ cr, ∃ c' ∈ cm, c'.id = c.id ∧ c.matchCount ≤ c'.matchCount) ∧
    (∀ (d : Domain) (userVec : List ℚ), userVec.length = (store d).npy.cols →
      ∃ ls, topKBySimilarityDomain store userVec d k SIM_THRESHOLD_STRICT = .ok ls) ∧
    (DimsMatch store userVecs →
      ∃ cs, performSearch store userVecs SIM_THRESHOLD_STRICT MIN_MATCHES_STRICT k = .ok cs) :=
  ⟨fun d userVec ls hls =>
      topK_relax store userVec d k _ _ hwf thresholds_relaxed_below_strict ls hls,
    fun d userVec lr hlr =>
      topK_relax store userVec d k _ _ hwf thresholds_min_below_relaxed lr hlr,
    fun cs hcs =>
      performSearch_relax store userVecs _ _ _ _ k hwf thresholds_relaxed_below_strict
        (by decide) cs hcs,
    fun cr hcr =>
      performSearch_relax store userVecs _ _ _ _ k hwf thresholds_min_below_relaxed
        (by decide) cr hcr,
    fun d userVec hlen => ⟨_, topK_eq store userVec d k SIM_THRESHOLD_STRICT (hwf d) hlen⟩,
    fun hdim => performSearch_ok store userVecs SIM_THRESHOLD_STRICT MIN_MATCHES_STRICT k hwf
      hdim⟩

theorem step_topK_skills_strict :
    topKBySimilarityDomain stepStore [1] Domain.skills 5 SIM_THRESHOLD_STRICT =
      .ok [⟨7, "Software Developers", 1⟩] := by
  simp [topKBySimilarityDomain, stepStore, stepIndex, SIM_THRESHOLD_STRICT, List.range,
    List.range.loop, scanRow, dotCosineNormalized, arraySort, bind, Except.bind, pure,
    Except.pure]
  norm_num

theorem step_topLists_strict :
    topLists stepStore sampleVecs SIM_THRESHOLD_STRICT 5 = .ok stepLists := by
  simp [topLists, sampleVecs, topKBySimilarityDomain, stepStore, stepIndex, sampleIndex,
    stepLists, SIM_THRESHOLD_STRICT, List.range, List.range.loop, scanRow, dotCosineNormalized,
    arraySort, bind, Except.bind, pure, Except.pure]
  norm_num

theorem step_aggregate : (aggregate stepLists).values = stepStrict := by
  rfl

theorem step_performSearch_strict :
    performSearch stepStore sampleVecs SIM_THRESHOLD_STRICT MIN_MATCHES_STRICT 5 =
      .ok stepStrict := by
  rw [performSearch_of_topLists _ _ _ _ _ _ step_topLists_strict, step_aggregate]
  rfl

theorem stepStore_wellFormed : stepStore.WellFormed := by
  intro d
  cases d <;> exact ⟨by decide, by decide⟩

theorem cascade_monotone_witness :
    stepStore.WellFormed ∧
    topKBySimilarityDomain stepStore [1] Domain.skills 5 SIM_THRESHOLD_STRICT =
      .ok [⟨7, "Software Developers", 1⟩] ∧
    (∃ rest, topKBySimilarityDomain stepStore [1] Domain.skills 5 SIM_THRESHOLD_RELAXED =
      .ok ([⟨7, "Software Developers", 1⟩] ++ rest)) ∧
    performSearch stepStore sampleVecs SIM_THRESHOLD_STRICT MIN_MATCHES_STRICT 5 =
      .ok stepStrict ∧
    (∃ cr, performSearch stepStore sampleVecs SIM_THRESHOLD_RELAXED MIN_MATCHES_NORMAL 5 =
        .ok cr ∧
      ∀ c ∈ stepStrict, ∃ c' ∈ cr, c'.id = c.id ∧ c.matchCount ≤ c'.matchCount) :=
  ⟨stepStore_wellFormed, step_topK_skills_strict,
    (cascade_monotone stepStore sampleVecs 5 stepStore_wellFormed).1 Domain.skills [1] _
      step_topK_skills_strict,
    step_performSearch_strict,
    (cascade_monotone stepStore sampleVecs 5 stepStore_wellFormed).2.2.1 stepStrict
      step_performSearch_strict⟩

/-! ## Match count and minimum match on a catalog with unique ids (C2, C5) -/

theorem survivorAt_id {ι : Type} (userVec : List ℚ) (idx : DomainIndex ι) (threshold : ℚ)
    (r : Nat) (it : Item ι) (h : survivorAt userVec idx threshold r = some it) :
    ∃ m, idx.meta[r]? = some m ∧ it.id = m.id := by
  unfold survivorAt at h
  cases hm : idx.meta[r]? with
  | none => simp [hm] at h
  | some m =>
    simp only [hm] at h
    by_cases hth : threshold ≤ rowScore userVec idx.npy.data idx.npy.cols r
    · simp only [hth, if_true, Option.some.injEq] at h
      exact ⟨m, rfl, by rw [← h]⟩
    · simp [hth] at h

theorem survivors_ids_nodup {ι : Type} (userVec : List ℚ) (idx : DomainIndex ι)
    (threshold : ℚ) (h : (idx.meta.map (fun m => m.id)).Nodup) :
    ((survivors userVec idx threshold).map (fun it => it.id)).Nodup := by
  unfold survivors
  rw [List.map_filterMap]
  refine List.Nodup.filterMap ?_ (List.nodup_range _)
  intro r r' i hr hr'
  rw [Option.mem_def, Option.map_eq_some'] at hr hr'
  obtain ⟨it, hit, rfl⟩ := hr
  obtain ⟨it', hit', hid⟩ := hr'
  obtain ⟨m, hm, hmid⟩ := survivorAt_id _ _ _ _ _ hit
  obtain ⟨m', hm', hmid'⟩ := survivorAt_id _ _ _ _ _ hit'
  obtain ⟨hlt, hget⟩ := List.getElem?_eq_some_iff.1 hm
  obtain ⟨hlt', hget'⟩ := List.getElem?_eq_some_iff.1 hm'
  have h1 : r < (idx.meta.map (fun m => m.id)).length := by rw [List.length_map]; exact hlt
  have h2 : r' < (idx.meta.map (fun m => m.id)).length := by rw [List.length_map]; exact hlt'
  have heq : (idx.meta.map (fun m => m.id))[r] = (idx.meta.map (fun m => m.id))[r'] := by
    rw [List.getElem_map, List.getElem_map, hget, hget', ← hmid, ← hmid', hid]
  exact (h.getElem_inj_iff).1 heq

theorem topListOf_ids_nodup {ι : Type} (store : Store ι) (userVec : List ℚ) (domain : Domain)
    (k : Nat) (thresholdSet : ThresholdSet) (huniq : store.UniqueIds) :
    ((topListOf store userVec domain k thresholdSet).map (fun it => it.id)).Nodup := by
  unfold topListOf
  rw [List.map_take]
  refine List.Nodup.sublist (List.take_sublist _ _) ?_
  have hperm : (arraySort (fun a b : Item ι => b.score - a.score)
      (survivors userVec (store domain) ((thresholdSet domain).getD 0))).Perm
      (survivors userVec (store domain) ((thresholdSet domain).getD 0)) :=
    List.perm_insertionSort _ _
  exact ((hperm.map (fun it : Item ι => it.id)).nodup_iff).2
    (survivors_ids_nodup _ _ _ (huniq domain))

theorem dimsMatch_of_topLists {ι : Type} (store : Store ι) (userVecs : UserVecs)
    (thresholdSet : ThresholdSet) (topK : Nat) (hwf : store.WellFormed)
    (tl : List (Domain × List (Item ι)))
    (htl : topLists store userVecs thresholdSet topK = .ok tl) : DimsMatch store userVecs := by
  classical
  by_contra hno
  obtain ⟨d, hd, -⟩ := performSearch_dim_error store userVecs thresholdSet 0 topK hwf hno
  rw [performSearch_of_topLists store userVecs thresholdSet 0 topK tl htl] at hd
  cases hd

theorem topLists_nodup {ι : Type} (store : Store ι) (userVecs : UserVecs)
    (thresholdSet : ThresholdSet) (topK : Nat) (hwf : store.WellFormed)
    (huniq : store.UniqueIds) (tl : List (Domain × List (Item ι)))
    (htl : topLists store userVecs thresholdSet topK = .ok tl) :
    (∀ dl ∈ tl, (dl.2.map (fun it => it.id)).Nodup) ∧
    tl.map (fun dl => dl.1) = [Domain.skills, Domain.knowledge, Domain.tasks, Domain.occ] := by
  have hdim := dimsMatch_of_topLists store userVecs thresholdSet topK hwf tl htl
  rw [topLists_explicit store userVecs thresholdSet topK hwf hdim] at htl
  cases htl
  refine ⟨?_, rfl⟩
  intro dl hdl
  simp only [List.mem_cons, List.not_mem_nil, or_false] at hdl
  rcases hdl with rfl | rfl | rfl | rfl <;> exact topListOf_ids_nodup _ _ _ _ _ huniq

theorem domainsContaining_le {ι : Type} [DecidableEq ι] (key : ι)
    (tl : List (Domain × List (Item ι))) : domainsContaining key tl ≤ tl.length :=
  List.length_filter_le _ _

/-- C2.  On a store that satisfies the data model (every row has its metadata
record and its numbers, and no domain index lists an id on two rows),
`performSearch` returns, from the four top-k lists of skills, knowledge, tasks
and occ, candidates whose `matchCount` is the number of domains in whose
top-k list the candidate's id appears; it lies between 1 and 4. -/
theorem performSearch_matchCount {ι : Type} [DecidableEq ι] (store : Store ι)
    (userVecs : UserVecs) (thresholdSet : ThresholdSet) (minMatches topK : Nat)
    (hwf : store.WellFormed) (huniq : store.UniqueIds)
    (tl : List (Domain × List (Item ι)))
    (htl : topLists store userVecs thresholdSet topK = .ok tl) :
    tl.map (fun dl => dl.1) = [Domain.skills, Domain.knowledge, Domain.tasks, Domain.occ] ∧
    ∃ cs, performSearch store userVecs thresholdSet minMatches topK = .ok cs ∧
      ∀ c ∈ cs, c.matchCount = domainsContaining c.id tl ∧
        1 ≤ c.matchCount ∧ c.matchCount ≤ 4 := by
  obtain ⟨hnd, hdom⟩ := topLists_nodup store userVecs thresholdSet topK hwf huniq tl htl
  refine ⟨hdom, _,
    performSearch_of_topLists store userVecs thresholdSet minMatches topK tl htl, ?_⟩
  intro c hc
  obtain ⟨e, fs, hfor, hspec⟩ := (mem_values_aggregate tl c).1 (List.mem_filter.1 hc).1
  have hmc : c.matchCount = (entriesFor c.id (entriesOf tl)).length := by
    rw [hfor]
    conv_lhs => rw [hspec]
    rfl
  have hdc : c.matchCount = domainsContaining c.id tl := by
    rw [hmc, length_entriesFor_of_nodup c.id tl hnd]
  refine ⟨hdc, ?_, ?_⟩
  · rw [hmc, hfor]
    simp
  · rw [hdc]
    have hlen : tl.length = 4 := by
      have := congrArg List.length hdom
      simpa using this
    have := domainsContaining_le c.id tl
    omega

theorem sampleStore_wellFormed : sampleStore.WellFormed :=
  fun _ => (⟨by decide, by decide⟩ : sampleIndex.WellFormed)

theorem sampleStore_uniqueIds : sampleStore.UniqueIds :=
  fun _ => (by decide : (sampleIndex.meta.map (fun m => m.id)).Nodup)

theorem performSearch_matchCount_witness :
    sampleStore.WellFormed ∧ sampleStore.UniqueIds ∧
    topLists sampleStore sampleVecs SIM_THRESHOLD_STRICT 5 = .ok sampleLists ∧
    sampleLists.map (fun dl => dl.1) =
      [Domain.skills, Domain.knowledge, Domain.tasks, Domain.occ] ∧
    ∃ cs, performSearch sampleStore sampleVecs SIM_THRESHOLD_STRICT 2 5 = .ok cs ∧
      ∀ c ∈ cs, c.matchCount = domainsContaining c.id sampleLists ∧
        1 ≤ c.matchCount ∧ c.matchCount ≤ 4 :=
  ⟨sampleStore_wellFormed, sampleStore_uniqueIds, sample_topLists_strict,
    performSearch_matchCount sampleStore sampleVecs SIM_THRESHOLD_STRICT 2 5
      sampleStore_wellFormed sampleStore_uniqueIds sampleLists sample_topLists_strict⟩

/-- C5.  On a store that satisfies the data model, `performSearch` returns exactly
the aggregated candidates with `matchCount >= minMatches`: a candidate is
returned if and only if it is the candidate built from the top-k entries
carrying its id and these are at least `minMatches`.  In particular every id
that appears in the top-k list of exactly one domain is absent from the result
for `minMatches = 2`, the minimum of the strict level, and present with
`matchCount` 1 in the result for `minMatches = 1`, the minimum of the relaxed
level. -/
theorem performSearch_minMatches {ι : Type} [DecidableEq ι] (store : Store ι)
    (userVecs : UserVecs) (thresholdSet : ThresholdSet) (topK : Nat)
    (hwf : store.WellFormed) (huniq : store.UniqueIds)
    (tl : List (Domain × List (Item ι)))
    (htl : topLists store userVecs thresholdSet topK = .ok tl) :
    (∀ minMatches : Nat, ∃ cs,
      performSearch store userVecs thresholdSet minMatches topK = .ok cs ∧
      cs = (aggregate tl).values.filter (fun r => decide (r.matchCount ≥ minMatches)) ∧
      ∀ c, c ∈ cs ↔
        (∃ e fs, entriesFor c.id (entriesOf tl) = e :: fs ∧
          c = specCandidate c.id e.2.title (e :: fs)) ∧ minMatches ≤ c.matchCount) ∧
    (∀ key : ι, domainsContaining key tl = 1 →
      ∃ cs2 cs1,
        performSearch store userVecs thresholdSet MIN_MATCHES_STRICT topK = .ok cs2 ∧
        performSearch store userVecs thresholdSet MIN_MATCHES_NORMAL topK = .ok cs1 ∧
        (∀ c ∈ cs2, c.id ≠ key) ∧ (∃ c ∈ cs1, c.id = key ∧ c.matchCount = 1)) ∧
    MIN_MATCHES_STRICT = 2 ∧ MIN_MATCHES_NORMAL = 1 := by
  obtain ⟨hnd, -⟩ := topLists_nodup store userVecs thresholdSet topK hwf huniq tl htl
  refine ⟨?_, ?_, rfl, rfl⟩
  · intro minMatches
    refine ⟨_, performSearch_of_topLists store userVecs thresholdSet minMatches topK tl htl,
      rfl, ?_⟩
    intro c
    rw [List.mem_filter, mem_values_aggregate]
    simp
  · intro key hkey
    have hlen : (entriesFor key (entriesOf tl)).length = 1 := by
      rw [length_entriesFor_of_nodup key tl hnd]
      exact hkey
    refine ⟨_, _,
      performSearch_of_topLists store userVecs thresholdSet MIN_MATCHES_STRICT topK tl htl,
      performSearch_of_topLists store userVecs thresholdSet MIN_MATCHES_NORMAL topK tl htl,
      ?_, ?_⟩
    · intro c hc hid
      have hmem := List.mem_filter.1 hc
      obtain ⟨e, fs, hfor, hspec⟩ := (mem_values_aggregate tl c).1 hmem.1
      have hmc : c.matchCount = (entriesFor c.id (entriesOf tl)).length := by
        rw [hfor]
        conv_lhs => rw [hspec]
        rfl
      have h2 : 2 ≤ c.matchCount := by simpa [MIN_MATCHES_STRICT] using hmem.2
      rw [hmc, hid, hlen] at h2
      omega
    · cases hfor : entriesFor key (entriesOf tl) with
      | nil => simp [hfor] at hlen
      | cons e fs =>
        have hin : specCandidate key e.2.title (e :: fs) ∈ (aggregate tl).values :=
          (mem_values_aggregate tl _).2 ⟨e, fs, hfor, rfl⟩
        have hl : (e :: fs).length = 1 := by rw [← hfor]; exact hlen
        refine ⟨specCandidate key e.2.title (e :: fs), ?_, rfl, hl⟩
        rw [List.mem_filter]
        refine ⟨hin, ?_⟩
        have : (specCandidate key e.2.title (e :: fs)).matchCount = 1 := hl
        simp [this, MIN_MATCHES_NORMAL]

theorem soloStore_wellFormed : soloStore.WellFormed := by
  intro d
  cases d <;> exact ⟨by decide, by decide⟩

theorem soloStore_uniqueIds : soloStore.UniqueIds := by
  intro d
  cases d <;> decide

theorem performSearch_minMatches_witness :
    soloStore.WellFormed ∧ soloStore.UniqueIds ∧
    topLists soloStore sampleVecs SIM_THRESHOLD_STRICT 5 = .ok soloLists ∧
    topLists soloStore sampleVecs SIM_THRESHOLD_RELAXED 5 = .ok soloLists ∧
    domainsContaining 8 soloLists = 1 ∧
    (∃ cs2 cs1,
      performSearch soloStore sampleVecs SIM_THRESHOLD_STRICT MIN_MATCHES_STRICT 5 = .ok cs2 ∧
      performSearch soloStore sampleVecs SIM_THRESHOLD_STRICT MIN_MATCHES_NORMAL 5 = .ok cs1 ∧
      (∀ c ∈ cs2, c.id ≠ 8) ∧ (∃ c ∈ cs1, c.id = 8 ∧ c.matchCount = 1)) ∧
    (∃ cs2 cs1,
      performSearch soloStore sampleVecs SIM_THRESHOLD_RELAXED MIN_MATCHES_STRICT 5 = .ok cs2 ∧
      performSearch soloStore sampleVecs SIM_THRESHOLD_RELAXED MIN_MATCHES_NORMAL 5 = .ok cs1 ∧
      (∀ c ∈ cs2, c.id ≠ 8) ∧ (∃ c ∈ cs1, c.id = 8 ∧ c.matchCount = 1)) :=
  ⟨soloStore_wellFormed, soloStore_uniqueIds, solo_topLists_strict, solo_topLists_relaxed,
    by decide,
    (performSearch_minMatches soloStore sampleVecs SIM_THRESHOLD_STRICT 5 soloStore_wellFormed
      soloStore_uniqueIds soloLists solo_topLists_strict).2.1 8 (by decide),
    (performSearch_minMatches soloStore sampleVecs SIM_THRESHOLD_RELAXED 5 soloStore_wellFormed
      soloStore_uniqueIds soloLists solo_topLists_relaxed).2.1 8 (by decide)⟩

end CareerExplorer
